import Mathlib

/-!
helium-backend: tiered cache coordination

A shallow embedding of the Go sources `cache.go`, `middleware.go`, `redis.go`
and `handlers.go`, followed by theorems about the embedded definitions.

Modelling conventions
* A Go `map[string]T` is a function `String → Option T` (`none` = key absent).
* A `*list.Element` of `container/list` is identified by a number `id`, fresh at
  every `PushBack`; the list itself is the Lean list of its elements, front
  first.  The `*cacheEntry` held in `Element.Value` is inlined in the element.
* `time.Time` readings and `time.Duration` are integers (nanoseconds);
  `time.Since(ts)` at clock reading `now` is `now - ts` (the saturation of
  `Time.Sub` at the ends of `int64` is not reached by monotonic readings).  Every
  call of `time.Now`/`time.Since` in the source is a separate clock-reading
  argument.
* A Go `string` is a Lean `String`; the byte tests of `interpolateTemplate` are
  all on ASCII characters, where byte and character positions agree.
* `sync.RWMutex` sections are the atomic units: each lock-delimited block of the
  source is one Lean function on the cache state.
-/

namespace Helium

/-! ## cache.go -/

/-- Clock reading, in nanoseconds. -/
abbrev Time := Int

/-- A `time.Duration`, in nanoseconds. -/
abbrev Duration := Int

/-- A node of `lruList`: the `*list.Element` (identity `id`) together with the
`cacheEntry{key, value}` its `Value` points to. -/
structure Element (V : Type) where
  id : Nat
  key : String
  value : V

/-- The struct `TTLCache` (the mutex is represented by atomicity of the
operations); `nextId` is the allocation counter for list elements. -/
structure TTLCache (V : Type) where
  maxSize : Int
  ttl : Duration
  cache : String → Option Nat
  lruList : List (Element V)
  timestamps : String → Option Time
  nextId : Nat

/-- Go `m[k] = v`. -/
def mapSet {α : Type} (m : String → Option α) (k : String) (v : α) : String → Option α :=
  fun k2 => if k2 = k then some v else m k2

/-- Go `delete(m, k)`. -/
def mapDelete {α : Type} (m : String → Option α) (k : String) : String → Option α :=
  fun k2 => if k2 = k then none else m k2

/-- The method `(*list.List).Remove(e)`: unlinks `e` when it belongs to the list. -/
def listRemove {V : Type} (l : List (Element V)) (e : Nat) : List (Element V) :=
  l.filter (fun x => decide (x.id ≠ e))

/-- The method `(*list.List).MoveToBack(e)`: no effect when `e` is not an element
of the list, otherwise `e` becomes the last element. -/
def listMoveToBack {V : Type} (l : List (Element V)) (e : Nat) : List (Element V) :=
  match l.find? (fun x => decide (x.id = e)) with
  | none => l
  | some x => listRemove l e ++ [x]

/-- The assignment `element.Value.(*cacheEntry).value = value`. -/
def listSetValue {V : Type} (l : List (Element V)) (e : Nat) (value : V) : List (Element V) :=
  l.map (fun x => if x.id = e then { x with value := value } else x)

/-- The read `element.Value.(*cacheEntry).value` of the element `e` (`none` only
for an `e` that names no node of the list). -/
def listValue {V : Type} (l : List (Element V)) (e : Nat) : Option V :=
  (l.find? (fun x => decide (x.id = e))).map (fun x => x.value)

/-- The constructor `NewTTLCache(maxSize, ttl)`. -/
def NewTTLCache {V : Type} (maxSize : Int) (ttl : Duration) : TTLCache V :=
  { maxSize := maxSize
    ttl := ttl
    cache := fun _ => none
    lruList := []
    timestamps := fun _ => none
    nextId := 0 }

namespace TTLCache

variable {V : Type}

/-- Outcome of the read-locked section of `Get` (lines 38-48). -/
inductive Check where
  | absent
  | expired
  | fresh
  deriving DecidableEq, Repr

/-- The test `!ok || time.Since(timestamp) > c.ttl` for `key` at clock reading `now`. -/
def isExpired (c : TTLCache V) (key : String) (now : Time) : Bool :=
  match c.timestamps key with
  | none => true
  | some ts => decide (now - ts > c.ttl)

/-- First section of `Get`, under `RLock`: presence and expiry of `key`. -/
def getCheck (c : TTLCache V) (key : String) (now : Time) : Check :=
  match c.cache key with
  | none => Check.absent
  | some _ => if c.isExpired key now then Check.expired else Check.fresh

/-- Second section of `Get` when the first judged the entry expired (lines
52-62, under `Lock`): re-check, then remove from list, map and timestamps. -/
def getEvict (c : TTLCache V) (key : String) (now : Time) : TTLCache V :=
  match c.cache key with
  | none => c
  | some element =>
    if c.isExpired key now then
      { c with
        lruList := listRemove c.lruList element
        cache := mapDelete c.cache key
        timestamps := mapDelete c.timestamps key }
    else c

/-- Second section of `Get` when the first judged the entry fresh (lines 67-76,
under `Lock`): move to back and return the value; `none` is `(nil, false)`. -/
def getTouch (c : TTLCache V) (key : String) : Option V × TTLCache V :=
  match c.cache key with
  | none => (none, c)
  | some element =>
    (listValue c.lruList element,
     { c with lruList := listMoveToBack c.lruList element })

/-- The method `Get` run without interference: `now1` is the clock reading of
the `time.Since` on line 47, `now2` the one on line 56.  `some v` is `(v, true)`,
`none` is `(nil, false)`. -/
def Get (c : TTLCache V) (key : String) (now1 now2 : Time) : Option V × TTLCache V :=
  match c.getCheck key now1 with
  | Check.absent => (none, c)
  | Check.expired => (none, c.getEvict key now2)
  | Check.fresh => c.getTouch key

/-- The method `Put`; `now` is the reading of `time.Now()`. -/
def Put (c : TTLCache V) (key : String) (value : V) (now : Time) : TTLCache V :=
  match c.cache key with
  | some element =>
    { c with
      lruList := listSetValue (listMoveToBack c.lruList element) element value
      timestamps := mapSet c.timestamps key now }
  | none =>
    let c1 : TTLCache V :=
      if (c.lruList.length : Int) ≥ c.maxSize then
        match c.lruList.head? with
        | some oldest =>
          { c with
            lruList := listRemove c.lruList oldest.id
            cache := mapDelete c.cache oldest.key
            timestamps := mapDelete c.timestamps oldest.key }
        | none => c
      else c
    { c1 with
      lruList := c1.lruList ++ [{ id := c1.nextId, key := key, value := value }]
      cache := mapSet c1.cache key c1.nextId
      timestamps := mapSet c1.timestamps key now
      nextId := c1.nextId + 1 }

/-- The method `Size`. -/
def Size (c : TTLCache V) : Int := c.lruList.length

/-- The method `Clear`. -/
def Clear (c : TTLCache V) : TTLCache V :=
  { c with
    cache := fun _ => none
    lruList := []
    timestamps := fun _ => none }

end TTLCache

/-- A call of one of the public methods of `TTLCache`. -/
inductive Op (V : Type) where
  | put (key : String) (value : V) (now : Time)
  | get (key : String) (now1 now2 : Time)
  | clear

/-- Effect of one call on the cache. -/
def Op.apply {V : Type} (c : TTLCache V) : Op V → TTLCache V
  | Op.put key value now => c.Put key value now
  | Op.get key now1 now2 => (c.Get key now1 now2).2
  | Op.clear => c.Clear

/-- Effect of a sequence of calls, first call first. -/
def runOps {V : Type} (c : TTLCache V) (ops : List (Op V)) : TTLCache V :=
  ops.foldl Op.apply c

/-- A lock-delimited section of a method of `TTLCache`: the units that
interleave when several callers use the cache concurrently. -/
inductive Section (V : Type) where
  | put (key : String) (value : V) (now : Time)
  | clear
  | getCheck (key : String) (now : Time)
  | getEvict (key : String) (now : Time)
  | getTouch (key : String)

/-- Effect of one section on the cache (`getCheck` only reads). -/
def Section.apply {V : Type} (c : TTLCache V) : Section V → TTLCache V
  | Section.put key value now => c.Put key value now
  | Section.clear => c.Clear
  | Section.getCheck _ _ => c
  | Section.getEvict key now => c.getEvict key now
  | Section.getTouch key => (c.getTouch key).2

/-- Effect of an interleaving of sections, first section first. -/
def runSections {V : Type} (c : TTLCache V) (ss : List (Section V)) : TTLCache V :=
  ss.foldl Section.apply c

/-- A run of `Get` calls, each given as key and its two clock readings. -/
def getOps {V : Type} (gets : List (String × Time × Time)) : List (Op V) :=
  gets.map (fun g => Op.get g.1 g.2.1 g.2.2)

/-- The clock readings of a run of `Get` calls, in the order they are taken. -/
def getTimes (gets : List (String × Time × Time)) : List Time :=
  gets.flatMap (fun g => [g.2.1, g.2.2])

/-- A run of `Put` calls, each given as key, value and clock reading. -/
def putOps {V : Type} (puts : List (String × V × Time)) : List (Op V) :=
  puts.map (fun p => Op.put p.1 p.2.1 p.2.2)

/-- Structural consistency of the three containers of a `TTLCache`. -/
structure Inv {V : Type} (c : TTLCache V) : Prop where
  ids_nodup : (c.lruList.map (fun e => e.id)).Nodup
  keys_nodup : (c.lruList.map (fun e => e.key)).Nodup
  ids_lt : ∀ e ∈ c.lruList, e.id < c.nextId
  node_cache : ∀ e ∈ c.lruList, c.cache e.key = some e.id
  cache_node : ∀ k i, c.cache k = some i → ∃ e ∈ c.lruList, e.id = i ∧ e.key = k
  ts_iff : ∀ k, (c.timestamps k).isSome = (c.cache k).isSome

/-- The recency order as data: key, value and timestamp of every node, least
recently used first. -/
def view {V : Type} (c : TTLCache V) : List (String × V × Option Time) :=
  c.lruList.map (fun e => (e.key, e.value, c.timestamps e.key))

/-! ## config.go -/

/-- The constant `DefaultConcurrencyLimit`. -/
def DefaultConcurrencyLimit : Int := 20

/-- The constant `CacheMaxSize`. -/
def CacheMaxSize : Int := 50

/-- The constant `CacheTTL`, ten minutes. -/
def CacheTTL : Duration := 10 * 60 * 1000000000

/-- The constant `RedisTTL`, thirty minutes. -/
def RedisTTL : Duration := 30 * 60 * 1000000000

/-- The constant `RedisTimeout`, two seconds. -/
def RedisTimeout : Duration := 2 * 1000000000

/-! ## middleware.go -/

/-- The buffered channel `semaphore` of `ConcurrencyLimiter`: its capacity and
the number of values it holds, one per permit in use. -/
structure Semaphore where
  capacity : Nat
  held : Nat
  deriving DecidableEq, Repr

/-- The channel made by `ConcurrencyLimiter(limit)`; `make` panics on a negative
size, which is `none`. -/
def ConcurrencyLimiter (limit : Int) : Option Semaphore :=
  if limit < 0 then none else some { capacity := limit.toNat, held := 0 }

namespace Semaphore

/-- The `select` of the handler: the send `semaphore <- struct{}{}` goes through
when the buffer has room (request admitted, `true`), otherwise the `default`
branch answers 503 and the channel is left as it is. -/
def tryAcquire (s : Semaphore) : Bool × Semaphore :=
  if s.held < s.capacity then (true, { s with held := s.held + 1 }) else (false, s)

/-- The deferred receive `<-semaphore` of an admitted request; `none` when the
channel is empty, where a receive would not return. -/
def release (s : Semaphore) : Option Semaphore :=
  if 0 < s.held then some { s with held := s.held - 1 } else none

end Semaphore

/-- What happens at the gate: a request arrives and tries to acquire, or an
admitted request finishes and releases. -/
inductive GateEvent where
  | acquire
  | release
  deriving DecidableEq, Repr

/-- Effect of one event on the channel. -/
def gateStep (s : Semaphore) : GateEvent → Option Semaphore
  | GateEvent.acquire => some s.tryAcquire.2
  | GateEvent.release => s.release

/-- Effect of a sequence of events, first event first. -/
def gateRun (s : Semaphore) : List GateEvent → Option Semaphore
  | [] => some s
  | e :: rest =>
    match gateStep s e with
    | some s2 => gateRun s2 rest
    | none => none

/-- Every release of the sequence finds a permit in use: it belongs to an
earlier admitted request that has not released yet. -/
def Matched (s : Semaphore) : List GateEvent → Prop
  | [] => True
  | GateEvent.acquire :: rest => Matched s.tryAcquire.2 rest
  | GateEvent.release :: rest => 0 < s.held ∧ Matched { s with held := s.held - 1 } rest

/-! ## models.go -/

/-- A Go `map[string]string` of the data model, as an association list. -/
abbrev StringMap := List (String × String)

/-- Go `m[k] = v` on an association list. -/
def assocSet (m : StringMap) (k v : String) : StringMap :=
  match m with
  | [] => [(k, v)]
  | (k2, v2) :: rest => if k2 = k then (k, v) :: rest else (k2, v2) :: assocSet rest k v

/-- The struct `ComponentTemplate`. -/
structure ComponentTemplate where
  ComponentName : String
  ComponentType : String
  Template : String
  RequiredKeys : List String
  deriving DecidableEq, Repr

/-- The struct `ComponentMetadata`. -/
structure ComponentMetadata where
  ComponentID : String
  LastUpdated : String
  RequiredKeys : List String
  deriving DecidableEq, Repr

/-- The struct `LocalizedComponent`. -/
structure LocalizedComponent where
  ComponentName : String
  ComponentType : String
  Language : String
  Template : String
  LocalizedData : StringMap
  Metadata : ComponentMetadata
  Cached : Bool
  deriving DecidableEq, Repr

/-! ## data.go -/

/-- The table `localizationDB` of `data.go`, language first. -/
def localizationDB : List (String × List (String × String)) :=
  [
    ("en", [
      ("welcome_title", "Welcome to Our App"),
      ("welcome_subtitle", "Your journey starts here"),
      ("login_button", "Log In"),
      ("signup_button", "Sign Up"),
      ("navigation_home", "Home"),
      ("navigation_about", "About"),
      ("navigation_contact", "Contact"),
      ("footer_copyright", "© 2024 Our Company. All rights reserved."),
      ("user_profile_title", "User Profile"),
      ("user_profile_edit", "Edit Profile"),
      ("settings_title", "Settings"),
      ("settings_language", "Language"),
      ("settings_theme", "Theme"),
      ("error_404", "Page not found"),
      ("error_500", "Internal server error")]),
    ("es", [
      ("welcome_title", "Bienvenido a Nuestra App"),
      ("welcome_subtitle", "Tu viaje comienza aquí"),
      ("login_button", "Iniciar Sesión"),
      ("signup_button", "Registrarse"),
      ("navigation_home", "Inicio"),
      ("navigation_about", "Acerca de"),
      ("navigation_contact", "Contacto"),
      ("footer_copyright", "© 2024 Nuestra Empresa. Todos los derechos reservados."),
      ("user_profile_title", "Perfil de Usuario"),
      ("user_profile_edit", "Editar Perfil"),
      ("settings_title", "Configuración"),
      ("settings_language", "Idioma"),
      ("settings_theme", "Tema"),
      ("error_404", "Página no encontrada"),
      ("error_500", "Error interno del servidor")]),
    ("fr", [
      ("welcome_title", "Bienvenue dans Notre App"),
      ("welcome_subtitle", "Votre voyage commence ici"),
      ("login_button", "Se Connecter"),
      ("signup_button", "S\x27inscrire"),
      ("navigation_home", "Accueil"),
      ("navigation_about", "À Propos"),
      ("navigation_contact", "Contact"),
      ("footer_copyright", "© 2024 Notre Entreprise. Tous droits réservés."),
      ("user_profile_title", "Profil Utilisateur"),
      ("user_profile_edit", "Modifier le Profil"),
      ("settings_title", "Paramètres"),
      ("settings_language", "Langue"),
      ("settings_theme", "Thème"),
      ("error_404", "Page non trouvée"),
      ("error_500", "Erreur interne du serveur")]),
    ("de", [
      ("welcome_title", "Willkommen in Unserer App"),
      ("welcome_subtitle", "Ihre Reise beginnt hier"),
      ("login_button", "Anmelden"),
      ("signup_button", "Registrieren"),
      ("navigation_home", "Startseite"),
      ("navigation_about", "Über Uns"),
      ("navigation_contact", "Kontakt"),
      ("footer_copyright", "© 2024 Unser Unternehmen. Alle Rechte vorbehalten."),
      ("user_profile_title", "Benutzerprofil"),
      ("user_profile_edit", "Profil Bearbeiten"),
      ("settings_title", "Einstellungen"),
      ("settings_language", "Sprache"),
      ("settings_theme", "Design"),
      ("error_404", "Seite nicht gefunden"),
      ("error_500", "Interner Serverfehler")])]

/-- The `Template` string of the entry `"welcome"` of `componentTemplates`. -/
def welcomeTemplate : String :=
    "\n" ++
    "import React from \x27react\x27;\n" ++
    "\n" ++
    "const WelcomeComponent = (\x7b className = \"welcome-container\" \x7d) => \x7b\n" ++
    "  return (\n" ++
    "    <div className=\x7bclassName\x7d>\n" ++
    "      <div className=\"welcome-wrapper\">\n" ++
    "        <header className=\"welcome-header\">\n" ++
    "          <h1 className=\"welcome-title\" data-l10n=\"welcome_title\">\n" ++
    "            \x7bl10n.welcome_title\x7d\n" ++
    "          </h1>\n" ++
    "          <p className=\"welcome-subtitle\" data-l10n=\"welcome_subtitle\">\n" ++
    "            \x7bl10n.welcome_subtitle\x7d\n" ++
    "          </p>\n" ++
    "        </header>\n" ++
    "        <div className=\"welcome-actions\">\n" ++
    "          <button \n" ++
    "            className=\"btn btn-primary\" \n" ++
    "            onClick=\x7b() => \x7b\x7d\x7d\n" ++
    "            data-l10n=\"login_button\"\n" ++
    "          >\n" ++
    "            \x7bl10n.login_button\x7d\n" ++
    "          </button>\n" ++
    "          <button \n" ++
    "            className=\"btn btn-secondary\" \n" ++
    "            onClick=\x7b() => \x7b\x7d\x7d\n" ++
    "            data-l10n=\"signup_button\"\n" ++
    "          >\n" ++
    "            \x7bl10n.signup_button\x7d\n" ++
    "          </button>\n" ++
    "        </div>\n" ++
    "      </div>\n" ++
    "    </div>\n" ++
    "  );\n" ++
    "\x7d;\n" ++
    "\n" ++
    "export default WelcomeComponent;\n"

/-- The `Template` string of the entry `"navigation"` of `componentTemplates`. -/
def navigationTemplate : String :=
    "\n" ++
    "import React from \x27react\x27;\n" ++
    "\n" ++
    "const NavigationComponent = (\x7b className = \"navigation-container\" \x7d) => \x7b\n" ++
    "  return (\n" ++
    "    <nav className=\x7bclassName\x7d>\n" ++
    "      <ul className=\"nav-list\">\n" ++
    "        <li className=\"nav-item\">\n" ++
    "          <a href=\"/\" className=\"nav-link\" data-l10n=\"navigation_home\">\n" ++
    "            \x7bl10n.navigation_home\x7d\n" ++
    "          </a>\n" ++
    "        </li>\n" ++
    "        <li className=\"nav-item\">\n" ++
    "          <a href=\"/about\" className=\"nav-link\" data-l10n=\"navigation_about\">\n" ++
    "            \x7bl10n.navigation_about\x7d\n" ++
    "          </a>\n" ++
    "        </li>\n" ++
    "        <li className=\"nav-item\">\n" ++
    "          <a href=\"/contact\" className=\"nav-link\" data-l10n=\"navigation_contact\">\n" ++
    "            \x7bl10n.navigation_contact\x7d\n" ++
    "          </a>\n" ++
    "        </li>\n" ++
    "      </ul>\n" ++
    "    </nav>\n" ++
    "  );\n" ++
    "\x7d;\n" ++
    "\n" ++
    "export default NavigationComponent;\n"

/-- The `Template` string of the entry `"user_profile"` of `componentTemplates`. -/
def userProfileTemplate : String :=
    "\n" ++
    "import React from \x27react\x27;\n" ++
    "\n" ++
    "const UserProfileComponent = (\x7b className = \"user-profile-container\" \x7d) => \x7b\n" ++
    "  return (\n" ++
    "    <div className=\x7bclassName\x7d>\n" ++
    "      <div className=\"profile-wrapper\">\n" ++
    "        <h2 className=\"profile-title\" data-l10n=\"user_profile_title\">\n" ++
    "          \x7bl10n.user_profile_title\x7d\n" ++
    "        </h2>\n" ++
    "        <div className=\"profile-actions\">\n" ++
    "          <button \n" ++
    "            className=\"btn btn-outline\" \n" ++
    "            onClick=\x7b() => \x7b\x7d\x7d\n" ++
    "            data-l10n=\"user_profile_edit\"\n" ++
    "          >\n" ++
    "            \x7bl10n.user_profile_edit\x7d\n" ++
    "          </button>\n" ++
    "        </div>\n" ++
    "      </div>\n" ++
    "    </div>\n" ++
    "  );\n" ++
    "\x7d;\n" ++
    "\n" ++
    "export default UserProfileComponent;\n"

/-- The `Template` string of the entry `"footer"` of `componentTemplates`. -/
def footerTemplate : String :=
    "\n" ++
    "import React from \x27react\x27;\n" ++
    "\n" ++
    "const FooterComponent = (\x7b className = \"footer-container\" \x7d) => \x7b\n" ++
    "  return (\n" ++
    "    <footer className=\x7bclassName\x7d>\n" ++
    "      <div className=\"footer-content\">\n" ++
    "        <p className=\"footer-copyright\" data-l10n=\"footer_copyright\">\n" ++
    "          \x7bl10n.footer_copyright\x7d\n" ++
    "        </p>\n" ++
    "      </div>\n" ++
    "    </footer>\n" ++
    "  );\n" ++
    "\x7d;\n" ++
    "\n" ++
    "export default FooterComponent;\n"

/-- The table `componentTemplates` of `data.go`. -/
def componentTemplates : List (String × ComponentTemplate) :=
  [
    ("welcome",
      { ComponentName := "WelcomeComponent"
        ComponentType := "functional"
        Template := welcomeTemplate
        RequiredKeys := ["welcome_title", "welcome_subtitle", "login_button", "signup_button"] }),
    ("navigation",
      { ComponentName := "NavigationComponent"
        ComponentType := "functional"
        Template := navigationTemplate
        RequiredKeys := ["navigation_home", "navigation_about", "navigation_contact"] }),
    ("user_profile",
      { ComponentName := "UserProfileComponent"
        ComponentType := "functional"
        Template := userProfileTemplate
        RequiredKeys := ["user_profile_title", "user_profile_edit"] }),
    ("footer",
      { ComponentName := "FooterComponent"
        ComponentType := "functional"
        Template := footerTemplate
        RequiredKeys := ["footer_copyright"] })]

/-! ## redis.go -/

/-- The Redis server as this process sees it during one request: the outcome of
`redisClient.Get(ctx, key).Result()` (value, or an error such as `redis.Nil`, a
timeout or a connection failure) and of `redisClient.Set(...).Err()`. -/
structure RedisClient where
  get : String → Except String String
  set : String → String → Duration → Option String

/-- The functions `json.Marshal` and `json.Unmarshal` at type `LocalizedComponent`. -/
structure JSONCodec where
  marshal : LocalizedComponent → Except String String
  unmarshal : String → Except String LocalizedComponent

/-- The function `getFromRedis(key)`, for a non-nil client. -/
def getFromRedis (redisClient : RedisClient) (codec : JSONCodec) (key : String) :
    Except String LocalizedComponent :=
  match redisClient.get key with
  | Except.error err => Except.error err
  | Except.ok val =>
    match codec.unmarshal val with
    | Except.error err => Except.error err
    | Except.ok component => Except.ok component

/-- The function `setInRedis(key, component)`, for a non-nil client; `none` is a
nil error. -/
def setInRedis (redisClient : RedisClient) (codec : JSONCodec) (key : String)
    (component : LocalizedComponent) : Option String :=
  match codec.marshal component with
  | Except.error err => some err
  | Except.ok data => redisClient.set key data RedisTTL

/-! ## handlers.go -/

/-- The library call `strings.IndexByte(s, b)`; `none` is `-1`. -/
def indexByte (s : List Char) (b : Char) : Option Nat :=
  match s with
  | [] => none
  | c :: rest => if c = b then some 0 else (indexByte rest b).map (fun n => n + 1)

/-- The library call `strings.ReplaceAll` that puts a backslash before every
double quote of `value`. -/
def escapeQuotes (value : List Char) : List Char :=
  value.flatMap (fun ch => if ch = '"' then ['\\', '"'] else [ch])

/-- The text `{l10n.` that opens a placeholder. -/
def placeholderOpen : List Char := "\x7bl10n.".data

/-- The loop of `interpolateTemplate` from position `i`, on `rest = template[i:]`;
the result is what the loop appends to the builder.  Each round consumes at
least one character, so `fuel = len(template[i:])` rounds are enough. -/
def interpolateLoop (localizedData : StringMap) : Nat → List Char → List Char
  | 0, _ => []
  | _ + 1, [] => []
  | fuel + 1, c :: rest =>
    if 6 < (c :: rest).length ∧ (c :: rest).take 6 = placeholderOpen then
      match indexByte ((c :: rest).drop 6) (Char.ofNat 125) with
      | none => c :: interpolateLoop localizedData fuel rest
      | some endKey =>
        let key := String.mk (((c :: rest).drop 6).take endKey)
        match localizedData.lookup key with
        | some value =>
          ['"'] ++ escapeQuotes value.data ++ ['"'] ++
            interpolateLoop localizedData fuel ((c :: rest).drop (6 + endKey + 1))
        | none => c :: interpolateLoop localizedData fuel rest
    else c :: interpolateLoop localizedData fuel rest

/-- The function `interpolateTemplate(template, localizedData)`. -/
def interpolateTemplate (template : String) (localizedData : StringMap) : String :=
  String.mk (interpolateLoop localizedData template.data.length template.data)

/-- The loop of `getLocalizedComponent` that collects the strings of the
required keys, with `[key]` for a key the language table lacks. -/
def collectStrings (strings : StringMap) (requiredKeys : List String) : StringMap :=
  requiredKeys.foldl
    (fun componentStrings key =>
      match strings.lookup key with
      | some value => assocSet componentStrings key value
      | none => assocSet componentStrings key ("[" ++ key ++ "]"))
    []

/-- The generator `getLocalizedComponent(componentType, lang)`; `nowMilli` is
`time.Now().UnixMilli()` of the first clock reading and `nowStamp` is
`time.Now().Format(time.RFC3339)` of the second. -/
def getLocalizedComponent (componentType lang : String) (nowMilli : Int) (nowStamp : String) :
    Except String LocalizedComponent :=
  match componentTemplates.lookup componentType with
  | none => Except.error ("component type \x27" ++ componentType ++ "\x27 not found")
  | some template =>
    let strings : StringMap :=
      match localizationDB.lookup lang with
      | some strings => strings
      | none => (localizationDB.lookup "en").getD []
    let componentStrings := collectStrings strings template.RequiredKeys
    let localizedTemplate := interpolateTemplate template.Template componentStrings
    let componentID := componentType ++ "_" ++ lang ++ "_" ++ toString nowMilli
    Except.ok
      { ComponentName := template.ComponentName
        ComponentType := template.ComponentType
        Language := lang
        Template := localizedTemplate
        LocalizedData := componentStrings
        Metadata :=
          { ComponentID := componentID
            LastUpdated := nowStamp
            RequiredKeys := template.RequiredKeys }
        Cached := false }

/-- What `getLocalizedComponentEndpoint` writes with `c.JSON`. -/
inductive Response where
  | ok (component : LocalizedComponent)
  | badRequest (error : String) (availableLanguages : List String)
  | notFound (error : String) (message : String) (availableComponents : List String)
  deriving DecidableEq, Repr

/-- A call made by `getLocalizedComponentEndpoint` to the local cache, to the
distributed tier or to the generator; `goSetInRedis` is the `setInRedis` started
in a goroutine. -/
inductive Call where
  | cacheGet (key : String)
  | cachePut (key : String) (component : LocalizedComponent)
  | getFromRedis (key : String)
  | setInRedis (key : String) (component : LocalizedComponent)
  | goSetInRedis (key : String) (component : LocalizedComponent)
  | getLocalizedComponent (componentType lang : String)
  deriving DecidableEq, Repr

/-- The clock readings of one request: the two of `componentCache.Get`, the one
of `componentCache.Put`, and the two of the generator. -/
structure RequestClock where
  getNow1 : Time
  getNow2 : Time
  putNow : Time
  genMilli : Int
  genStamp : String

/-- Outcome of one request: the response, the local cache afterwards, and the
calls made, in order. -/
structure HandlerResult where
  response : Response
  cache : TTLCache LocalizedComponent
  calls : List Call

/-- Calls to the distributed tier: `getFromRedis` and `setInRedis`, the latter
awaited or in a goroutine. -/
def Call.isDistributed : Call → Bool
  | Call.getFromRedis _ => true
  | Call.setInRedis _ _ => true
  | Call.goSetInRedis _ _ => true
  | _ => false

/-- Calls to `setInRedis`, awaited or in a goroutine. -/
def Call.isSetInRedis : Call → Bool
  | Call.setInRedis _ _ => true
  | Call.goSetInRedis _ _ => true
  | _ => false

/-- Calls to the generator `getLocalizedComponent`. -/
def Call.isGenerator : Call → Bool
  | Call.getLocalizedComponent _ _ => true
  | _ => false

/-- Calls to `componentCache.Put`. -/
def Call.isCachePut : Call → Bool
  | Call.cachePut _ _ => true
  | _ => false

/-- The key `fmt.Sprintf("component:%s:%s", componentType, lang)`. -/
def cacheKey (componentType lang : String) : String :=
  "component:" ++ componentType ++ ":" ++ lang

/-- Lines 167-190 of `getLocalizedComponentEndpoint`: both caches missed.
`cache` is the local cache and `calls` the calls made so far. -/
def generateAndStore (redisClient : Option RedisClient) (clock : RequestClock)
    (cache : TTLCache LocalizedComponent) (calls : List Call)
    (componentType lang : String) : HandlerResult :=
  match getLocalizedComponent componentType lang clock.genMilli clock.genStamp with
  | Except.error err =>
    { response := Response.notFound err "Component type not found"
        (componentTemplates.map (fun p => p.1))
      cache := cache
      calls := calls ++ [Call.getLocalizedComponent componentType lang] }
  | Except.ok component =>
    let key := cacheKey componentType lang
    let cache2 := cache.Put key component clock.putNow
    let calls2 := calls ++ [Call.getLocalizedComponent componentType lang,
      Call.cachePut key component]
    let calls3 :=
      match redisClient with
      | some _ => calls2 ++ [Call.setInRedis key component]
      | none => calls2
    { response := Response.ok { component with Cached := false }
      cache := cache2
      calls := calls3 }

/-- The handler `getLocalizedComponentEndpoint`, run without interference on the
local cache.  `componentType` is `c.Param("component_type")`, `langQuery` the
query parameter `lang` when the request has one; `redisClient = none` is the nil
client. -/
def getLocalizedComponentEndpoint (redisClient : Option RedisClient) (codec : JSONCodec)
    (clock : RequestClock) (componentCache : TTLCache LocalizedComponent)
    (componentType : String) (langQuery : Option String) : HandlerResult :=
  let lang := langQuery.getD "en"
  match localizationDB.lookup lang with
  | none =>
    { response := Response.badRequest ("invalid language code: " ++ lang)
        (localizationDB.map (fun p => p.1))
      cache := componentCache
      calls := [] }
  | some _ =>
    let key := cacheKey componentType lang
    match componentCache.Get key clock.getNow1 clock.getNow2 with
    | (some cached, cache1) =>
      { response := Response.ok { cached with Cached := true }
        cache := cache1
        calls := [Call.cacheGet key] }
    | (none, cache1) =>
      match redisClient with
      | none => generateAndStore none clock cache1 [Call.cacheGet key] componentType lang
      | some client =>
        match getFromRedis client codec key with
        | Except.ok component =>
          { response := Response.ok { component with Cached := true }
            cache := cache1.Put key component clock.putNow
            calls := [Call.cacheGet key, Call.getFromRedis key, Call.cachePut key component,
              Call.goSetInRedis key component] }
        | Except.error _ =>
          generateAndStore (some client) clock cache1
            [Call.cacheGet key, Call.getFromRedis key] componentType lang


/-! ## Observations and renaming of element identities -/

/-- What a call returns to its caller: the result of a `Get`, nothing for `Put`
and `Clear`. -/
def Op.result {V : Type} (c : TTLCache V) : Op V → Option (Option V)
  | Op.get key now1 now2 => some (c.Get key now1 now2).1
  | _ => none

/-- What callers can see of a run of calls: the result of each call and the
`Size()` after it. -/
def observe {V : Type} (c : TTLCache V) : List (Op V) → List (Option (Option V) × Int)
  | [] => []
  | op :: rest => (Op.result c op, (Op.apply c op).Size) :: observe (Op.apply c op) rest

/-- The element `e` with its identity moved by `n`. -/
def shiftElement {V : Type} (n : Nat) (e : Element V) : Element V :=
  { e with id := e.id + n }

/-- The cache `c` with all element identities (in the list, in the map and in
the allocation counter) moved by `n`: a cache whose elements live at other
addresses. -/
def shiftIds {V : Type} (n : Nat) (c : TTLCache V) : TTLCache V :=
  { c with
    cache := fun k => (c.cache k).map (fun i => i + n)
    lruList := c.lruList.map (shiftElement n)
    nextId := c.nextId + n }

/-- Second section of `Get`, chosen by the outcome `check` of the first section
and run on the state `c` found when the exclusive lock is taken. -/
def TTLCache.getSecond {V : Type} (check : TTLCache.Check) (c : TTLCache V) (key : String)
    (now2 : Time) : Option V × TTLCache V :=
  match check with
  | TTLCache.Check.absent => (none, c)
  | TTLCache.Check.expired => (none, c.getEvict key now2)
  | TTLCache.Check.fresh => c.getTouch key


/-! ## Concurrent callers -/

/-- A call that a caller makes on the shared cache. -/
inductive Request (V : Type) where
  | put (key : String) (value : V)
  | get (key : String)

/-- A caller (goroutine): the calls it still has to make and, when it is inside
a `Get` between the two sections, the outcome of the first section and the key. -/
structure Caller (V : Type) where
  pending : Option (TTLCache.Check × String)
  calls : List (Request V)

/-- The dereferences that the sections make for `key` succeed: when the map has
an element for `key`, that element carries a `cacheEntry` whose value can be
read and written (`element.Value.(*cacheEntry)`). -/
def TTLCache.derefOk {V : Type} (c : TTLCache V) (key : String) : Bool :=
  match c.cache key with
  | some element => (listValue c.lruList element).isSome
  | none => true

/-- The shared cache, the callers, and whether some section has panicked. -/
structure World (V : Type) where
  cache : TTLCache V
  callers : List (Caller V)
  panicked : Bool

/-- The world at the start: a cache built by `NewTTLCache` and callers that have
made none of their calls. -/
def World.start {V : Type} (maxSize : Int) (ttl : Duration) (programs : List (List (Request V))) :
    World V :=
  { cache := NewTTLCache maxSize ttl
    callers := programs.map (fun calls => { pending := none, calls := calls })
    panicked := false }

/-- One scheduling step: caller `i` runs its next lock-delimited section, with
clock reading `now`.  A caller inside a `Get` runs the second section of that
`Get` on the cache as it is now; otherwise it starts its next call: a `Put` is
one section, a `Get` runs its first section and, unless the key is absent,
stays pending for the second. -/
def World.step {V : Type} (w : World V) (i : Nat) (now : Time) : World V :=
  match w.callers[i]? with
  | none => w
  | some caller =>
    match caller.pending with
    | some (check, key) =>
      { cache := (TTLCache.getSecond check w.cache key now).2
        callers := w.callers.set i { caller with pending := none }
        panicked := w.panicked || !w.cache.derefOk key }
    | none =>
      match caller.calls with
      | [] => w
      | Request.put key value :: rest =>
        { cache := w.cache.Put key value now
          callers := w.callers.set i { pending := none, calls := rest }
          panicked := w.panicked || !w.cache.derefOk key }
      | Request.get key :: rest =>
        match w.cache.getCheck key now with
        | TTLCache.Check.absent =>
          { w with callers := w.callers.set i { pending := none, calls := rest } }
        | check =>
          { w with callers := w.callers.set i { pending := some (check, key), calls := rest } }

/-- A schedule: which caller runs next, and the clock reading of that section. -/
def World.run {V : Type} (w : World V) (schedule : List (Nat × Time)) : World V :=
  schedule.foldl (fun w2 s => w2.step s.1 s.2) w

/-- All callers have made all their calls and are inside none. -/
def World.finished {V : Type} (w : World V) : Bool :=
  w.callers.all (fun caller => caller.pending.isNone && caller.calls.isEmpty)


/-! ## Sample data -/

/-- A component as the generator builds it, for concrete runs. -/
def sampleComponent : LocalizedComponent :=
  { ComponentName := "FooterComponent"
    ComponentType := "functional"
    Language := "fr"
    Template := "t"
    LocalizedData := []
    Metadata := { ComponentID := "footer_fr_1", LastUpdated := "s", RequiredKeys := [] }
    Cached := false }

/-- Clock readings of a request, for concrete runs. -/
def sampleClock : RequestClock :=
  { getNow1 := 5
    getNow2 := 6
    putNow := 7
    genMilli := 1700000000000
    genStamp := "2023-11-14T22:13:20Z" }

/-- A JSON codec whose two functions fail, for concrete runs without Redis. -/
def failingCodec : JSONCodec :=
  { marshal := fun _ => Except.error "marshal"
    unmarshal := fun _ => Except.error "unmarshal" }

/-- A Redis client every call of which fails, for concrete runs. -/
def failingRedis : RedisClient :=
  { get := fun _ => Except.error "redis: nil"
    set := fun _ _ _ => some "redis: connection refused" }

/-- A Redis client that holds a value under every key and whose `Set` fails,
for concrete runs. -/
def hitRedis : RedisClient :=
  { get := fun _ => Except.ok "stored"
    set := fun _ _ _ => some "redis: connection refused" }

/-- A JSON codec that decodes every value to `sampleComponent`, for concrete runs. -/
def sampleCodec : JSONCodec :=
  { marshal := fun _ => Except.ok "stored"
    unmarshal := fun _ => Except.ok sampleComponent }


/-! ## Lemmas on the list operations -/

section ListLemmas

variable {V : Type}

theorem listRemove_sublist (l : List (Element V)) (e : Nat) :
    (listRemove l e).Sublist l := by
  unfold listRemove
  exact List.filter_sublist l

theorem mem_listRemove {l : List (Element V)} {e : Nat} {x : Element V} :
    x ∈ listRemove l e ↔ x ∈ l ∧ x.id ≠ e := by
  simp [listRemove]

theorem listRemove_length_le (l : List (Element V)) (e : Nat) :
    (listRemove l e).length ≤ l.length :=
  (listRemove_sublist l e).length_le

theorem find_id_some {l : List (Element V)} {e : Nat} {x : Element V}
    (h : l.find? (fun y => decide (y.id = e)) = some x) : x ∈ l ∧ x.id = e := by
  refine ⟨List.mem_of_find?_eq_some h, ?_⟩
  have := List.find?_some h
  simpa using this

theorem eq_of_id_eq {l : List (Element V)} (hn : (l.map (fun e => e.id)).Nodup)
    {x y : Element V} (hx : x ∈ l) (hy : y ∈ l) (h : x.id = y.id) : x = y :=
  List.inj_on_of_nodup_map hn hx hy h

theorem eq_of_key_eq {l : List (Element V)} (hn : (l.map (fun e => e.key)).Nodup)
    {x y : Element V} (hx : x ∈ l) (hy : y ∈ l) (h : x.key = y.key) : x = y :=
  List.inj_on_of_nodup_map hn hx hy h

theorem find_id_of_mem {l : List (Element V)} (hn : (l.map (fun e => e.id)).Nodup)
    {x : Element V} (hx : x ∈ l) : l.find? (fun y => decide (y.id = x.id)) = some x := by
  induction l with
  | nil => cases hx
  | cons a t ih =>
    rw [List.map_cons, List.nodup_cons] at hn
    by_cases hax : a.id = x.id
    · have : a = x := by
        rcases List.mem_cons.1 hx with h | h
        · exact h.symm
        · exact absurd (hax ▸ List.mem_map_of_mem (fun e => e.id) h) hn.1
      simp [List.find?, this]
    · rcases List.mem_cons.1 hx with h | h
      · exact absurd (h ▸ rfl) hax
      · simp [List.find?, hax, ih hn.2 h]

/-- Moving to the back, for an element of a list without repeated identities. -/
theorem listMoveToBack_of_mem {l : List (Element V)} (hn : (l.map (fun e => e.id)).Nodup)
    {x : Element V} (hx : x ∈ l) : listMoveToBack l x.id = listRemove l x.id ++ [x] := by
  simp [listMoveToBack, find_id_of_mem hn hx]

theorem listRemove_perm {l : List (Element V)} (hn : (l.map (fun e => e.id)).Nodup)
    {x : Element V} (hx : x ∈ l) : (listRemove l x.id ++ [x]).Perm l := by
  induction l with
  | nil => cases hx
  | cons a t ih =>
    rw [List.map_cons, List.nodup_cons] at hn
    by_cases hax : a.id = x.id
    · have hxa : a = x := by
        rcases List.mem_cons.1 hx with h | h
        · exact h.symm
        · exact absurd (hax ▸ List.mem_map_of_mem (fun e => e.id) h) hn.1
      subst hxa
      have ht : listRemove t a.id = t := by
        unfold listRemove
        rw [List.filter_eq_self]
        intro y hy
        have : y.id ≠ a.id := fun h => hn.1 (h ▸ List.mem_map_of_mem (fun e => e.id) hy)
        simpa using this
      have : listRemove (a :: t) a.id = t := by
        rw [← ht]; simp [listRemove]
      rw [this]
      exact (List.perm_append_singleton a t)
    · rcases List.mem_cons.1 hx with h | h
      · exact absurd (h ▸ rfl) hax
      · have : listRemove (a :: t) x.id = a :: listRemove t x.id := by
          simp [listRemove, hax]
        rw [this]
        exact List.Perm.cons a (ih hn.2 h)

end ListLemmas

/-! ## Preservation of structural consistency -/

section InvLemmas

variable {V : Type}

theorem inv_new (maxSize : Int) (ttl : Duration) : Inv (NewTTLCache maxSize ttl : TTLCache V) where
  ids_nodup := by simp [NewTTLCache]
  keys_nodup := by simp [NewTTLCache]
  ids_lt := by simp [NewTTLCache]
  node_cache := by simp [NewTTLCache]
  cache_node := by simp [NewTTLCache]
  ts_iff := by simp [NewTTLCache]

theorem inv_clear {c : TTLCache V} : Inv c.Clear where
  ids_nodup := by simp [TTLCache.Clear]
  keys_nodup := by simp [TTLCache.Clear]
  ids_lt := by simp [TTLCache.Clear]
  node_cache := by simp [TTLCache.Clear]
  cache_node := by simp [TTLCache.Clear]
  ts_iff := by simp [TTLCache.Clear]

/-- The element named by the map entry of a key. -/
theorem Inv.node_of_cache {c : TTLCache V} (h : Inv c) {key : String} {i : Nat}
    (hc : c.cache key = some i) :
    ∃ x, x ∈ c.lruList ∧ x.id = i ∧ x.key = key := by
  obtain ⟨x, hx, h1, h2⟩ := h.cache_node key i hc
  exact ⟨x, hx, h1, h2⟩

theorem Inv.key_not_mem {c : TTLCache V} (h : Inv c) {key : String}
    (hc : c.cache key = none) : ∀ e ∈ c.lruList, e.key ≠ key := by
  intro e he hk
  have := h.node_cache e he
  rw [hk, hc] at this
  cases this

/-- Removing the node of a key from all three containers keeps consistency. -/
theorem inv_removeKey {c : TTLCache V} (h : Inv c) {key : String} {i : Nat}
    (hc : c.cache key = some i) :
    Inv { c with
          lruList := listRemove c.lruList i
          cache := mapDelete c.cache key
          timestamps := mapDelete c.timestamps key } where
  ids_nodup := h.ids_nodup.sublist ((listRemove_sublist c.lruList i).map _)
  keys_nodup := h.keys_nodup.sublist ((listRemove_sublist c.lruList i).map _)
  ids_lt := fun e he => h.ids_lt e (mem_listRemove.1 he).1
  node_cache := by
    intro e he
    obtain ⟨he1, he2⟩ := mem_listRemove.1 he
    have hk : e.key ≠ key := by
      intro hk
      have := h.node_cache e he1
      rw [hk, hc] at this
      exact he2 (Option.some.inj this).symm
    simp only [mapDelete, if_neg hk]
    exact h.node_cache e he1
  cache_node := by
    intro k j hk
    simp only [mapDelete] at hk
    split at hk
    · cases hk
    · rename_i hne
      obtain ⟨e, he, h1, h2⟩ := h.cache_node k j hk
      refine ⟨e, mem_listRemove.2 ⟨he, ?_⟩, h1, h2⟩
      intro hei
      obtain ⟨x, hx, hx1, hx2⟩ := h.node_of_cache hc
      have : e = x := eq_of_id_eq h.ids_nodup he hx (hei.trans hx1.symm)
      exact hne (h2.symm.trans (this ▸ hx2))
  ts_iff := by
    intro k
    simp only [mapDelete]
    split
    · rfl
    · exact h.ts_iff k

theorem inv_getEvict {c : TTLCache V} (h : Inv c) (key : String) (now : Time) :
    Inv (c.getEvict key now) := by
  unfold TTLCache.getEvict
  split
  · exact h
  · rename_i i hc
    split
    · exact inv_removeKey h hc
    · exact h

theorem inv_getTouch {c : TTLCache V} (h : Inv c) (key : String) :
    Inv (c.getTouch key).2 := by
  unfold TTLCache.getTouch
  split
  · exact h
  · rename_i i hc
    obtain ⟨x, hx, hxi, hxk⟩ := h.node_of_cache hc
    subst hxi
    have hp : (listMoveToBack c.lruList x.id).Perm c.lruList := by
      rw [listMoveToBack_of_mem h.ids_nodup hx]
      exact listRemove_perm h.ids_nodup hx
    exact
      { ids_nodup := (hp.map _).nodup_iff.2 h.ids_nodup
        keys_nodup := (hp.map _).nodup_iff.2 h.keys_nodup
        ids_lt := fun e he => h.ids_lt e (hp.mem_iff.1 he)
        node_cache := fun e he => h.node_cache e (hp.mem_iff.1 he)
        cache_node := fun k j hk => by
          obtain ⟨e, he, h1, h2⟩ := h.cache_node k j hk
          exact ⟨e, hp.mem_iff.2 he, h1, h2⟩
        ts_iff := h.ts_iff }

theorem inv_get {c : TTLCache V} (h : Inv c) (key : String) (now1 now2 : Time) :
    Inv (c.Get key now1 now2).2 := by
  unfold TTLCache.Get
  split
  · exact h
  · exact inv_getEvict h key now2
  · exact inv_getTouch h key

/-- Appending a node for a key that is not in the map keeps consistency. -/
theorem inv_push {c : TTLCache V} (h : Inv c) {key : String} (hc : c.cache key = none)
    (value : V) (now : Time) :
    Inv { c with
          lruList := c.lruList ++ [{ id := c.nextId, key := key, value := value }]
          cache := mapSet c.cache key c.nextId
          timestamps := mapSet c.timestamps key now
          nextId := c.nextId + 1 } where
  ids_nodup := by
    simp only [List.map_append, List.map_cons, List.map_nil]
    refine List.Nodup.append h.ids_nodup (List.nodup_singleton _) ?_
    intro a ha hb
    obtain ⟨e, he, rfl⟩ := List.mem_map.1 ha
    have := h.ids_lt e he
    simp at hb
    omega
  keys_nodup := by
    simp only [List.map_append, List.map_cons, List.map_nil]
    refine List.Nodup.append h.keys_nodup (List.nodup_singleton _) ?_
    intro a ha hb
    obtain ⟨e, he, rfl⟩ := List.mem_map.1 ha
    simp at hb
    exact h.key_not_mem hc e he hb
  ids_lt := by
    intro e he
    rcases List.mem_append.1 he with he | he
    · exact Nat.lt_succ_of_lt (h.ids_lt e he)
    · simp at he
      subst he
      exact Nat.lt_succ_self _
  node_cache := by
    intro e he
    rcases List.mem_append.1 he with he | he
    · simp only [mapSet, if_neg (h.key_not_mem hc e he)]
      exact h.node_cache e he
    · simp at he
      subst he
      simp [mapSet]
  cache_node := by
    intro k j hk
    simp only [mapSet] at hk
    split at hk
    · rename_i hkk
      refine ⟨_, List.mem_append_right _ (List.mem_singleton_self _), ?_, hkk.symm⟩
      exact Option.some.inj hk
    · obtain ⟨e, he, h1, h2⟩ := h.cache_node k j hk
      exact ⟨e, List.mem_append_left _ he, h1, h2⟩
  ts_iff := by
    intro k
    simp only [mapSet]
    split
    · rfl
    · exact h.ts_iff k

/-- Shape of `Put` on a key that is in the map. -/
theorem put_existing {c : TTLCache V} (h : Inv c) {key : String} {i : Nat}
    (hc : c.cache key = some i) (value : V) (now : Time) :
    c.Put key value now =
      { c with
        lruList := listRemove c.lruList i ++ [{ id := i, key := key, value := value }]
        timestamps := mapSet c.timestamps key now } := by
  obtain ⟨x, hx, hxi, hxk⟩ := h.node_of_cache hc
  subst hxi
  have hl : listSetValue (listMoveToBack c.lruList x.id) x.id value =
      listRemove c.lruList x.id ++ [{ id := x.id, key := key, value := value }] := by
    rw [listMoveToBack_of_mem h.ids_nodup hx]
    unfold listSetValue
    rw [List.map_append]
    congr 1
    · conv_rhs => rw [← List.map_id (listRemove c.lruList x.id)]
      apply List.map_congr_left
      intro y hy
      simp [(mem_listRemove.1 hy).2]
    · simp [hxk]
  unfold TTLCache.Put
  rw [hc]
  simp only [hl]

/-- Removing the front node from a list without repeated identities. -/
theorem listRemove_head {o : Element V} {rest : List (Element V)}
    (hn : ((o :: rest).map (fun e => e.id)).Nodup) : listRemove (o :: rest) o.id = rest := by
  rw [List.map_cons, List.nodup_cons] at hn
  have ht : listRemove rest o.id = rest := by
    unfold listRemove
    rw [List.filter_eq_self]
    intro y hy
    have : y.id ≠ o.id := fun h => hn.1 (h ▸ List.mem_map_of_mem (fun e => e.id) hy)
    simpa using this
  conv_rhs => rw [← ht]
  simp [listRemove]

/-- Shape of `Put` on a key that is not in the map, below capacity. -/
theorem put_new_room {c : TTLCache V} {key : String}
    (hc : c.cache key = none) (hlen : (c.lruList.length : Int) < c.maxSize)
    (value : V) (now : Time) :
    c.Put key value now =
      { c with
        lruList := c.lruList ++ [{ id := c.nextId, key := key, value := value }]
        cache := mapSet c.cache key c.nextId
        timestamps := mapSet c.timestamps key now
        nextId := c.nextId + 1 } := by
  unfold TTLCache.Put
  rw [hc]
  simp only [ge_iff_le, not_le.2 hlen, if_false]

/-- Shape of `Put` on a key that is not in the map, at capacity, list non-empty. -/
theorem put_new_full {c : TTLCache V} {key : String} {o : Element V} {rest : List (Element V)}
    (hn : (c.lruList.map (fun e => e.id)).Nodup)
    (hc : c.cache key = none) (hlen : c.maxSize ≤ (c.lruList.length : Int))
    (hl : c.lruList = o :: rest) (value : V) (now : Time) :
    c.Put key value now =
      { c with
        lruList := rest ++ [{ id := c.nextId, key := key, value := value }]
        cache := mapSet (mapDelete c.cache o.key) key c.nextId
        timestamps := mapSet (mapDelete c.timestamps o.key) key now
        nextId := c.nextId + 1 } := by
  have hr : listRemove c.lruList o.id = rest := by
    rw [hl]; exact listRemove_head (hl ▸ hn)
  have hlen2 : c.maxSize ≤ ((o :: rest).length : Int) := hl ▸ hlen
  rw [hl] at hr
  unfold TTLCache.Put
  rw [hc]
  simp only [ge_iff_le, hl, hlen2, if_true, List.head?_cons, hr]

/-- Shape of `Put` on a key that is not in the map, at capacity, list empty
(only when `maxSize ≤ 0`). -/
theorem put_new_empty {c : TTLCache V} {key : String}
    (hc : c.cache key = none) (hl : c.lruList = []) (value : V) (now : Time) :
    c.Put key value now =
      { c with
        lruList := [{ id := c.nextId, key := key, value := value }]
        cache := mapSet c.cache key c.nextId
        timestamps := mapSet c.timestamps key now
        nextId := c.nextId + 1 } := by
  unfold TTLCache.Put
  rw [hc]
  simp only [hl, List.head?_nil]
  split <;> simp [hl]

theorem inv_put {c : TTLCache V} (h : Inv c) (key : String) (value : V) (now : Time) :
    Inv (c.Put key value now) := by
  cases hc : c.cache key with
  | some i =>
    rw [put_existing h hc]
    obtain ⟨x, hx, hxi, hxk⟩ := h.node_of_cache hc
    subst hxi
    have hp := listRemove_perm h.ids_nodup hx
    have hids : (listRemove c.lruList x.id ++
        [({ id := x.id, key := key, value := value } : Element V)]).map
        (fun e => e.id) = (listRemove c.lruList x.id ++ [x]).map (fun e => e.id) := by simp
    have hkeys : (listRemove c.lruList x.id ++
        [({ id := x.id, key := key, value := value } : Element V)]).map
        (fun e => e.key) = (listRemove c.lruList x.id ++ [x]).map (fun e => e.key) := by
      simp [hxk]
    exact
      { ids_nodup := by
          show (List.map _ (_ ++ _)).Nodup
          rw [hids]; exact (hp.map _).nodup_iff.2 h.ids_nodup
        keys_nodup := by
          show (List.map _ (_ ++ _)).Nodup
          rw [hkeys]; exact (hp.map _).nodup_iff.2 h.keys_nodup
        ids_lt := by
          intro e he
          rcases List.mem_append.1 he with he | he
          · exact h.ids_lt e (mem_listRemove.1 he).1
          · simp at he; subst he; exact h.ids_lt x hx
        node_cache := by
          intro e he
          rcases List.mem_append.1 he with he | he
          · exact h.node_cache e (mem_listRemove.1 he).1
          · simp at he; subst he; exact hc
        cache_node := by
          intro k j hk
          by_cases hj : j = x.id
          · subst hj
            obtain ⟨e, he, h1, h2⟩ := h.cache_node k _ hk
            have : e = x := eq_of_id_eq h.ids_nodup he hx h1
            subst this
            exact ⟨_, List.mem_append_right _ (List.mem_singleton_self _), rfl, hxk.symm.trans h2⟩
          · obtain ⟨e, he, h1, h2⟩ := h.cache_node k j hk
            exact ⟨e, List.mem_append_left _ (mem_listRemove.2 ⟨he, h1 ▸ hj⟩), h1, h2⟩
        ts_iff := by
          intro k
          show (mapSet c.timestamps key now k).isSome = (c.cache k).isSome
          simp only [mapSet]
          split
          · rename_i hk; subst hk; simp [hc]
          · exact h.ts_iff k }
  | none =>
    by_cases hlen : (c.lruList.length : Int) < c.maxSize
    · rw [put_new_room hc hlen]
      exact inv_push h hc value now
    · cases hl : c.lruList with
      | nil =>
        rw [put_new_empty hc hl]
        have := inv_push h hc value now
        simpa [hl] using this
      | cons o rest =>
        rw [put_new_full h.ids_nodup hc (not_lt.1 hlen) hl]
        have ho : c.cache o.key = some o.id := h.node_cache o (hl ▸ List.mem_cons_self _ _)
        have h1 := inv_removeKey h ho
        have hr : listRemove c.lruList o.id = rest := by
          rw [hl]; exact listRemove_head (hl ▸ h.ids_nodup)
        rw [hr] at h1
        have hk : o.key ≠ key := fun e => by rw [e, hc] at ho; cases ho
        have hc1 : (mapDelete c.cache o.key) key = none := by
          simp only [mapDelete]
          split
          · rfl
          · exact hc
        exact inv_push h1 hc1 value now

theorem inv_runOps {c : TTLCache V} (h : Inv c) (ops : List (Op V)) : Inv (runOps c ops) := by
  induction ops generalizing c with
  | nil => exact h
  | cons op rest ih =>
    apply ih (c := Op.apply c op)
    cases op with
    | put key value now => exact inv_put h key value now
    | get key now1 now2 => exact inv_get h key now1 now2
    | clear => exact inv_clear

theorem inv_runSections {c : TTLCache V} (h : Inv c) (ss : List (Section V)) :
    Inv (runSections c ss) := by
  induction ss generalizing c with
  | nil => exact h
  | cons s rest ih =>
    apply ih (c := Section.apply c s)
    cases s with
    | put key value now => exact inv_put h key value now
    | clear => exact inv_clear
    | getCheck key now => exact h
    | getEvict key now => exact inv_getEvict h key now
    | getTouch key => exact inv_getTouch h key

end InvLemmas

/-! ## Size and configuration -/

section SizeLemmas

variable {V : Type}

theorem maxSize_getEvict (c : TTLCache V) (key : String) (now : Time) :
    (c.getEvict key now).maxSize = c.maxSize ∧ (c.getEvict key now).ttl = c.ttl := by
  unfold TTLCache.getEvict
  split
  · exact ⟨rfl, rfl⟩
  · split <;> exact ⟨rfl, rfl⟩

theorem maxSize_getTouch (c : TTLCache V) (key : String) :
    (c.getTouch key).2.maxSize = c.maxSize ∧ (c.getTouch key).2.ttl = c.ttl := by
  unfold TTLCache.getTouch
  split <;> exact ⟨rfl, rfl⟩

theorem maxSize_get (c : TTLCache V) (key : String) (now1 now2 : Time) :
    (c.Get key now1 now2).2.maxSize = c.maxSize ∧ (c.Get key now1 now2).2.ttl = c.ttl := by
  unfold TTLCache.Get
  split
  · exact ⟨rfl, rfl⟩
  · exact maxSize_getEvict c key now2
  · exact maxSize_getTouch c key

theorem maxSize_put (c : TTLCache V) (key : String) (value : V) (now : Time) :
    (c.Put key value now).maxSize = c.maxSize ∧ (c.Put key value now).ttl = c.ttl := by
  unfold TTLCache.Put
  split
  · exact ⟨rfl, rfl⟩
  · dsimp only
    split
    · split <;> exact ⟨rfl, rfl⟩
    · exact ⟨rfl, rfl⟩

theorem maxSize_apply (c : TTLCache V) (op : Op V) :
    (Op.apply c op).maxSize = c.maxSize ∧ (Op.apply c op).ttl = c.ttl := by
  cases op with
  | put key value now => exact maxSize_put c key value now
  | get key now1 now2 => exact maxSize_get c key now1 now2
  | clear => exact ⟨rfl, rfl⟩

theorem maxSize_runOps (c : TTLCache V) (ops : List (Op V)) :
    (runOps c ops).maxSize = c.maxSize ∧ (runOps c ops).ttl = c.ttl := by
  induction ops generalizing c with
  | nil => exact ⟨rfl, rfl⟩
  | cons op rest ih =>
    have h1 := ih (Op.apply c op)
    have h2 := maxSize_apply c op
    exact ⟨h1.1.trans h2.1, h1.2.trans h2.2⟩

theorem maxSize_runSections (c : TTLCache V) (ss : List (Section V)) :
    (runSections c ss).maxSize = c.maxSize ∧ (runSections c ss).ttl = c.ttl := by
  induction ss generalizing c with
  | nil => exact ⟨rfl, rfl⟩
  | cons s rest ih =>
    have h1 := ih (Section.apply c s)
    have h2 : (Section.apply c s).maxSize = c.maxSize ∧ (Section.apply c s).ttl = c.ttl := by
      cases s with
      | put key value now => exact maxSize_put c key value now
      | clear => exact ⟨rfl, rfl⟩
      | getCheck key now => exact ⟨rfl, rfl⟩
      | getEvict key now => exact maxSize_getEvict c key now
      | getTouch key => exact maxSize_getTouch c key
    exact ⟨h1.1.trans h2.1, h1.2.trans h2.2⟩

theorem length_getEvict (c : TTLCache V) (key : String) (now : Time) :
    (c.getEvict key now).lruList.length ≤ c.lruList.length := by
  unfold TTLCache.getEvict
  split
  · exact le_rfl
  · split
    · exact listRemove_length_le _ _
    · exact le_rfl

theorem length_getTouch {c : TTLCache V} (h : Inv c) (key : String) :
    (c.getTouch key).2.lruList.length = c.lruList.length := by
  unfold TTLCache.getTouch
  split
  · rfl
  · rename_i i hc
    obtain ⟨x, hx, hxi, -⟩ := h.node_of_cache hc
    subst hxi
    show (listMoveToBack c.lruList x.id).length = _
    rw [listMoveToBack_of_mem h.ids_nodup hx]
    exact (listRemove_perm h.ids_nodup hx).length_eq

theorem length_get {c : TTLCache V} (h : Inv c) (key : String) (now1 now2 : Time) :
    (c.Get key now1 now2).2.lruList.length ≤ c.lruList.length := by
  unfold TTLCache.Get
  split
  · exact le_rfl
  · exact length_getEvict c key now2
  · exact (length_getTouch h key).le

/-- Length of the list after `Put` on a key that is in the map. -/
theorem length_put_existing {c : TTLCache V} (h : Inv c) {key : String} {i : Nat}
    (hc : c.cache key = some i) (value : V) (now : Time) :
    (c.Put key value now).lruList.length = c.lruList.length := by
  rw [put_existing h hc]
  obtain ⟨x, hx, hxi, -⟩ := h.node_of_cache hc
  subst hxi
  have := (listRemove_perm h.ids_nodup hx).length_eq
  simpa using this

/-- One call keeps the list within a capacity of at least one. -/
theorem size_apply {c : TTLCache V} (h : Inv c) (hmax : 1 ≤ c.maxSize)
    (hs : (c.lruList.length : Int) ≤ c.maxSize) (op : Op V) :
    ((Op.apply c op).lruList.length : Int) ≤ c.maxSize := by
  cases op with
  | put key value now =>
    show ((c.Put key value now).lruList.length : Int) ≤ c.maxSize
    cases hc : c.cache key with
    | some i => rw [length_put_existing h hc]; exact hs
    | none =>
      by_cases hlen : (c.lruList.length : Int) < c.maxSize
      · rw [put_new_room hc hlen]
        simp only [List.length_append, List.length_singleton]
        push_cast
        omega
      · cases hl : c.lruList with
        | nil => rw [put_new_empty hc hl]; simpa using hmax
        | cons o rest =>
          rw [put_new_full h.ids_nodup hc (not_lt.1 hlen) hl]
          rw [hl] at hs
          simpa using hs
  | get key now1 now2 =>
    have := length_get h key now1 now2
    show ((c.Get key now1 now2).2.lruList.length : Int) ≤ c.maxSize
    omega
  | clear =>
    show (((c.Clear).lruList.length : Nat) : Int) ≤ c.maxSize
    simp only [TTLCache.Clear, List.length_nil]
    omega

theorem size_runOps {c : TTLCache V} (h : Inv c) (hmax : 1 ≤ c.maxSize)
    (hs : (c.lruList.length : Int) ≤ c.maxSize) (ops : List (Op V)) :
    ((runOps c ops).lruList.length : Int) ≤ c.maxSize := by
  induction ops generalizing c with
  | nil => exact hs
  | cons op rest ih =>
    have hm := maxSize_apply c op
    have hi : Inv (Op.apply c op) := by
      cases op with
      | put key value now => exact inv_put h key value now
      | get key now1 now2 => exact inv_get h key now1 now2
      | clear => exact inv_clear
    have := ih hi (hm.1 ▸ hmax) (hm.1 ▸ size_apply h hmax hs op)
    rw [hm.1] at this
    exact this

end SizeLemmas

/-! ## Results of `Get` and the recency view -/

section ViewLemmas

variable {V : Type}

theorem mem_view {c : TTLCache V} {key : String} {v : V} {ots : Option Time} :
    (key, v, ots) ∈ view c ↔
      ∃ x ∈ c.lruList, x.key = key ∧ x.value = v ∧ c.timestamps key = ots := by
  unfold view
  rw [List.mem_map]
  constructor
  · rintro ⟨x, hx, he⟩
    simp only [Prod.mk.injEq] at he
    obtain ⟨h1, h2, h3⟩ := he
    exact ⟨x, hx, h1, h2, h1 ▸ h3⟩
  · rintro ⟨x, hx, h1, h2, h3⟩
    exact ⟨x, hx, by simp [h1, h2, h3]⟩

theorem view_keys (c : TTLCache V) :
    (view c).map (fun p => p.1) = c.lruList.map (fun e => e.key) := by
  simp [view, Function.comp_def]

theorem view_length (c : TTLCache V) : (view c).length = c.lruList.length := by
  simp [view]

theorem Inv.cache_none_iff {c : TTLCache V} (h : Inv c) (key : String) :
    c.cache key = none ↔ key ∉ (view c).map (fun p => p.1) := by
  rw [view_keys]
  constructor
  · intro hc hm
    obtain ⟨e, he, hk⟩ := List.mem_map.1 hm
    exact h.key_not_mem hc e he hk
  · intro hm
    cases hc : c.cache key with
    | none => rfl
    | some i =>
      obtain ⟨x, hx, -, hxk⟩ := h.node_of_cache hc
      exact absurd (List.mem_map.2 ⟨x, hx, hxk⟩) hm

/-- Shape of the second section of a hit. -/
theorem getTouch_of_mem {c : TTLCache V} (h : Inv c) {x : Element V} (hx : x ∈ c.lruList) :
    c.getTouch x.key =
      (some x.value, { c with lruList := listRemove c.lruList x.id ++ [x] }) := by
  unfold TTLCache.getTouch
  rw [h.node_cache x hx]
  simp only [listValue, find_id_of_mem h.ids_nodup hx, listMoveToBack_of_mem h.ids_nodup hx,
    Option.map_some']

/-- A call of `Get` hits exactly on a key that has a node and an unexpired timestamp. -/
theorem get_eq_some_iff {c : TTLCache V} (h : Inv c) (key : String) (now1 now2 : Time) (v : V) :
    (c.Get key now1 now2).1 = some v ↔
      ∃ x ∈ c.lruList, x.key = key ∧ x.value = v ∧
        ∃ ts, c.timestamps key = some ts ∧ now1 - ts ≤ c.ttl := by
  unfold TTLCache.Get TTLCache.getCheck
  cases hc : c.cache key with
  | none =>
    simp only
    constructor
    · intro h0; cases h0
    · rintro ⟨x, hx, hk, -⟩
      exact absurd hk (h.key_not_mem hc x hx)
  | some i =>
    obtain ⟨x, hx, hxi, hxk⟩ := h.node_of_cache hc
    subst hxk
    cases hts : c.timestamps x.key with
    | none =>
      simp only [TTLCache.isExpired, hts, if_true]
      constructor
      · intro h0; cases h0
      · rintro ⟨_, _, _, _, ts, h1, _⟩; cases h1
    | some ts =>
      by_cases hexp : now1 - ts > c.ttl
      · simp only [TTLCache.isExpired, hts, hexp, decide_True, if_true]
        constructor
        · intro h0; cases h0
        · rintro ⟨_, _, _, _, ts2, h1, h2⟩
          cases h1
          exact absurd hexp (not_lt.2 h2)
      · have hd : decide (now1 - ts > c.ttl) = false := decide_eq_false hexp
        simp only [TTLCache.isExpired, hts, hd, Bool.false_eq_true, if_false]
        rw [getTouch_of_mem h hx]
        constructor
        · intro h0
          exact ⟨x, hx, rfl, Option.some.inj h0, ts, rfl, not_lt.1 hexp⟩
        · rintro ⟨y, hy, hyk, hyv, -⟩
          have : y = x := eq_of_key_eq h.keys_nodup hy hx hyk
          subst this
          simp [hyv]

theorem get_of_view_mem {c : TTLCache V} (h : Inv c) {key : String} {v : V} {ts : Time}
    (hm : (key, v, some ts) ∈ view c) {now1 : Time} (hf : now1 - ts ≤ c.ttl) (now2 : Time) :
    (c.Get key now1 now2).1 = some v := by
  obtain ⟨x, hx, h1, h2, h3⟩ := mem_view.1 hm
  exact (get_eq_some_iff h key now1 now2 v).2 ⟨x, hx, h1, h2, ts, h3, hf⟩

theorem get_of_view_not_mem {c : TTLCache V} (h : Inv c) {key : String}
    (hm : key ∉ (view c).map (fun p => p.1)) (now1 now2 : Time) :
    (c.Get key now1 now2).1 = none := by
  cases hg : (c.Get key now1 now2).1 with
  | none => rfl
  | some v =>
    obtain ⟨x, hx, h1, -⟩ := (get_eq_some_iff h key now1 now2 v).1 hg
    rw [view_keys] at hm
    exact absurd (List.mem_map.2 ⟨x, hx, h1⟩) hm

/-- A key whose timestamp is older than the TTL is never a hit. -/
theorem get_of_expired {c : TTLCache V} {key : String} {ts : Time}
    (hts : c.timestamps key = some ts) {now1 : Time} (hexp : now1 - ts > c.ttl) (now2 : Time) :
    (c.Get key now1 now2).1 = none := by
  unfold TTLCache.Get TTLCache.getCheck
  cases hc : c.cache key with
  | none => rfl
  | some i => simp [TTLCache.isExpired, hts, hexp]

/-- State after a hit. -/
theorem get_snd_of_hit {c : TTLCache V} (h : Inv c) {key : String} {now1 now2 : Time} {v : V}
    (hit : (c.Get key now1 now2).1 = some v) :
    ∃ x ∈ c.lruList, x.key = key ∧ x.value = v ∧
      (∃ ts, c.timestamps key = some ts ∧ now1 - ts ≤ c.ttl) ∧
      (c.Get key now1 now2).2 = { c with lruList := listRemove c.lruList x.id ++ [x] } := by
  obtain ⟨x, hx, hk, hv, ts, hts, hf⟩ := (get_eq_some_iff h key now1 now2 v).1 hit
  refine ⟨x, hx, hk, hv, ⟨ts, hts, hf⟩, ?_⟩
  subst hk
  unfold TTLCache.Get TTLCache.getCheck
  rw [h.node_cache x hx]
  have hd : decide (now1 - ts > c.ttl) = false := decide_eq_false (not_lt.2 hf)
  simp only [TTLCache.isExpired, hts, hd, Bool.false_eq_true, if_false]
  rw [getTouch_of_mem h hx]

/-- In a consistent list, removal by identity is removal by key. -/
theorem listRemove_eq_filter_key {c : TTLCache V} (h : Inv c) {x : Element V}
    (hx : x ∈ c.lruList) :
    listRemove c.lruList x.id = c.lruList.filter (fun e => decide (e.key ≠ x.key)) := by
  unfold listRemove
  apply List.filter_congr
  intro e he
  by_cases hid : e.id = x.id
  · have : e = x := eq_of_id_eq h.ids_nodup he hx hid
    subst this; simp
  · have : e.key ≠ x.key := fun hk => hid (congrArg _ (eq_of_key_eq h.keys_nodup he hx hk))
    simp [hid, this]

theorem view_filter (c : TTLCache V) (key : String) :
    (c.lruList.filter (fun e => decide (e.key ≠ key))).map
        (fun e => (e.key, e.value, c.timestamps e.key)) =
      (view c).filter (fun p => decide (p.1 ≠ key)) := by
  unfold view
  rw [List.filter_map]
  rfl

/-- Recency view after a hit: the key moves to the back, nothing else changes. -/
theorem view_get_hit {c : TTLCache V} (h : Inv c) {key : String} {now1 now2 : Time} {v : V}
    (hit : (c.Get key now1 now2).1 = some v) :
    ∃ ts, c.timestamps key = some ts ∧ now1 - ts ≤ c.ttl ∧
      view (c.Get key now1 now2).2 =
        (view c).filter (fun p => decide (p.1 ≠ key)) ++ [(key, v, some ts)] := by
  obtain ⟨x, hx, hk, hv, ⟨ts, hts, hf⟩, hs⟩ := get_snd_of_hit h hit
  refine ⟨ts, hts, hf, ?_⟩
  rw [hs]
  subst hk hv
  show List.map (fun e => (e.key, e.value, c.timestamps e.key))
      (listRemove c.lruList x.id ++ [x]) = _
  rw [List.map_append, listRemove_eq_filter_key h hx, view_filter]
  simp [hts]

/-- Recency view after `Put` on a key that is in the map. -/
theorem view_put_existing {c : TTLCache V} (h : Inv c) {key : String} {i : Nat}
    (hc : c.cache key = some i) (value : V) (now : Time) :
    view (c.Put key value now) =
      (view c).filter (fun p => decide (p.1 ≠ key)) ++ [(key, value, some now)] := by
  rw [put_existing h hc]
  obtain ⟨x, hx, hxi, hxk⟩ := h.node_of_cache hc
  subst hxi hxk
  show List.map (fun e => (e.key, e.value, mapSet c.timestamps x.key now e.key))
      (listRemove c.lruList x.id ++ [_]) = _
  rw [List.map_append, listRemove_eq_filter_key h hx, ← view_filter]
  congr 1
  · apply List.map_congr_left
    intro e he
    have : e.key ≠ x.key := by simpa using (List.mem_filter.1 he).2
    simp [mapSet, this]
  · simp [mapSet]

/-- Recency view after `Put` on a key that is not in the map. -/
theorem view_put_new {c : TTLCache V} (h : Inv c) {key : String}
    (hc : c.cache key = none) (value : V) (now : Time) :
    view (c.Put key value now) =
      (if c.maxSize ≤ ((view c).length : Int) then (view c).tail else view c) ++
        [(key, value, some now)] := by
  rw [view_length]
  by_cases hlen : (c.lruList.length : Int) < c.maxSize
  · rw [put_new_room hc hlen, if_neg (not_le.2 hlen)]
    show List.map (fun e => (e.key, e.value, mapSet c.timestamps key now e.key))
      (c.lruList ++ [_]) = _
    rw [List.map_append]
    congr 1
    · apply List.map_congr_left
      intro e he
      simp [mapSet, h.key_not_mem hc e he]
    · simp [mapSet]
  · rw [if_pos (not_lt.1 hlen)]
    cases hl : c.lruList with
    | nil =>
      rw [put_new_empty hc hl]
      simp [view, hl, mapSet]
    | cons o rest =>
      rw [put_new_full h.ids_nodup hc (not_lt.1 hlen) hl]
      show List.map (fun e => (e.key, e.value,
        mapSet (mapDelete c.timestamps o.key) key now e.key)) (rest ++ [_]) = _
      have hkn := h.keys_nodup
      rw [hl, List.map_cons, List.nodup_cons] at hkn
      rw [List.map_append]
      congr 1
      · simp only [view, hl, List.map_cons, List.tail_cons]
        apply List.map_congr_left
        intro e he
        have h1 : e.key ≠ key := h.key_not_mem hc e (hl ▸ List.mem_cons_of_mem _ he)
        have h2 : e.key ≠ o.key := fun hk => hkn.1 (hk ▸ List.mem_map_of_mem (fun e => e.key) he)
        simp [mapSet, mapDelete, h1, h2]
      · simp [mapSet]

theorem get_cache_none {c : TTLCache V} {K : String} (hK : c.cache K = none)
    (key : String) (now1 now2 : Time) : (c.Get key now1 now2).2.cache K = none := by
  unfold TTLCache.Get
  split
  · exact hK
  · unfold TTLCache.getEvict
    split
    · exact hK
    · split
      · show mapDelete c.cache key K = none
        simp only [mapDelete]
        split
        · rfl
        · exact hK
      · exact hK
  · unfold TTLCache.getTouch
    split <;> exact hK

/-- State after a miss: untouched, or the second section of an expired read. -/
theorem get_snd_of_miss {c : TTLCache V} (h : Inv c) {key : String} {now1 now2 : Time}
    (miss : (c.Get key now1 now2).1 = none) :
    (c.Get key now1 now2).2 = c ∨ (c.Get key now1 now2).2 = c.getEvict key now2 := by
  unfold TTLCache.Get at miss ⊢
  split at miss
  · left; simp [*]
  · right; simp [*]
  · rename_i hch
    exfalso
    unfold TTLCache.getCheck at hch
    cases hc : c.cache key with
    | none => simp [hc] at hch
    | some i =>
      obtain ⟨x, hx, -, hxk⟩ := h.node_of_cache hc
      subst hxk
      rw [getTouch_of_mem h hx] at miss
      cases miss

/-- Removing an expired key leaves the entries of the other keys in place. -/
theorem getEvict_keeps {c : TTLCache V} (h : Inv c) {K : String} {v : V} {ots : Option Time}
    (hm : (K, v, ots) ∈ view c) {key : String} (hk : key ≠ K) (now : Time) :
    (K, v, ots) ∈ view (c.getEvict key now) := by
  unfold TTLCache.getEvict
  split
  · exact hm
  · rename_i i hc
    split
    · obtain ⟨x, hx, h1, h2, h3⟩ := mem_view.1 hm
      refine mem_view.2 ⟨x, mem_listRemove.2 ⟨hx, ?_⟩, h1, h2, ?_⟩
      · intro hxi
        obtain ⟨y, hy, hyi, hyk⟩ := h.node_of_cache hc
        have : x = y := eq_of_id_eq h.ids_nodup hx hy (hxi.trans hyi.symm)
        exact hk (hyk.symm.trans (this ▸ h1))
      · show mapDelete c.timestamps key K = ots
        simp only [mapDelete, if_neg (Ne.symm hk)]
        exact h3
    · exact hm

/-- Effect of one `Get` on the entry of a key `K` stamped `t0`: it stays as it
is, unless the call reads `K` itself after the entry has expired. -/
theorem get_entry_cases {c : TTLCache V} (h : Inv c) {K : String} {v : V} {t0 : Time}
    (hm : (K, v, some t0) ∈ view c) (key : String) (now1 now2 : Time) :
    (K, v, some t0) ∈ view (c.Get key now1 now2).2 ∨
      (key = K ∧ now1 - t0 > c.ttl ∧ (c.Get key now1 now2).2.cache K = none) := by
  cases hg : (c.Get key now1 now2).1 with
  | some w =>
    left
    obtain ⟨ts, hts, -, hv⟩ := view_get_hit h hg
    rw [hv]
    by_cases hk : key = K
    · subst hk
      obtain ⟨y, hy, hyk, hyv, hyt⟩ := mem_view.1 hm
      obtain ⟨x, hx, hxk, hxv, -⟩ := (get_eq_some_iff h key now1 now2 w).1 hg
      have : x = y := eq_of_key_eq h.keys_nodup hx hy (hxk.trans hyk.symm)
      subst this
      have e1 : w = v := hxv.symm.trans hyv
      have e2 : ts = t0 := Option.some.inj (hts.symm.trans hyt)
      subst e1 e2
      exact List.mem_append_right _ (List.mem_singleton_self _)
    · refine List.mem_append_left _ (List.mem_filter.2 ⟨hm, ?_⟩)
      simpa using Ne.symm hk
  | none =>
    by_cases hk : key = K
    · subst hk
      by_cases hexp : now1 - t0 > c.ttl
      · rcases get_snd_of_miss h hg with h2 | h2
        · left; rw [h2]; exact hm
        · rw [h2]
          unfold TTLCache.getEvict
          split
          · left; exact hm
          · split
            · right
              refine ⟨rfl, hexp, ?_⟩
              show mapDelete c.cache key key = none
              simp [mapDelete]
            · left; exact hm
      · have := get_of_view_mem h hm (not_lt.1 hexp) now2
        rw [hg] at this
        cases this
    · left
      rcases get_snd_of_miss h hg with h2 | h2
      · rw [h2]; exact hm
      · rw [h2]; exact getEvict_keeps h hm hk now2

/-- The entry written by `Put` is the last of the recency view. -/
theorem view_put_mem {c : TTLCache V} (h : Inv c) (key : String) (value : V) (now : Time) :
    (key, value, some now) ∈ view (c.Put key value now) := by
  cases hc : c.cache key with
  | some i =>
    rw [view_put_existing h hc]
    exact List.mem_append_right _ (List.mem_singleton_self _)
  | none =>
    rw [view_put_new h hc]
    exact List.mem_append_right _ (List.mem_singleton_self _)

/-- Reads that all happen while the entry of `K` is fresh leave it in place. -/
theorem gets_keep_fresh {c : TTLCache V} (h : Inv c) {K : String} {v : V} {t0 : Time}
    (hm : (K, v, some t0) ∈ view c) (gets : List (String × Time × Time))
    (hf : ∀ g ∈ gets, g.2.1 - t0 ≤ c.ttl) :
    Inv (runOps c (getOps gets)) ∧ (K, v, some t0) ∈ view (runOps c (getOps gets)) := by
  induction gets generalizing c with
  | nil => exact ⟨h, hm⟩
  | cons g rest ih =>
    have hi : Inv (c.Get g.1 g.2.1 g.2.2).2 := inv_get h _ _ _
    have hm2 : (K, v, some t0) ∈ view (c.Get g.1 g.2.1 g.2.2).2 := by
      rcases get_entry_cases h hm g.1 g.2.1 g.2.2 with h1 | ⟨-, h2, -⟩
      · exact h1
      · exact absurd h2 (not_lt.2 (hf g (List.mem_cons_self _ _)))
    have httl := (maxSize_get c g.1 g.2.1 g.2.2).2
    exact ih hi hm2 (fun g2 hg2 => httl ▸ hf g2 (List.mem_cons_of_mem _ hg2))

/-- After any reads, the key `K` is gone or still carries its value and stamp. -/
theorem gets_keep_stamp {c : TTLCache V} (h : Inv c) {K : String} {v : V} {t0 : Time}
    (hm : c.cache K = none ∨ (K, v, some t0) ∈ view c) (gets : List (String × Time × Time)) :
    Inv (runOps c (getOps gets)) ∧
      ((runOps c (getOps gets)).cache K = none ∨
        (K, v, some t0) ∈ view (runOps c (getOps gets))) := by
  induction gets generalizing c with
  | nil => exact ⟨h, hm⟩
  | cons g rest ih =>
    have hi : Inv (c.Get g.1 g.2.1 g.2.2).2 := inv_get h _ _ _
    refine ih hi ?_
    rcases hm with h0 | h0
    · left; exact get_cache_none h0 _ _ _
    · rcases get_entry_cases h h0 g.1 g.2.1 g.2.2 with h1 | ⟨-, -, h2⟩
      · right; exact h1
      · left; exact h2

/-- Recency view after a run of `Put` calls on pairwise distinct new keys: the
last `k` entries written, oldest first. -/
theorem view_puts {c : TTLCache V} (h : Inv c) (k : Nat) (hk : 1 ≤ k) (hmax : c.maxSize = k)
    (done rest : List (String × V × Time))
    (hv : view c = (done.drop (done.length - k)).map (fun p => (p.1, p.2.1, some p.2.2)))
    (hnd : ((done ++ rest).map (fun p => p.1)).Nodup) :
    Inv (runOps c (putOps rest)) ∧
      view (runOps c (putOps rest)) =
        ((done ++ rest).drop ((done ++ rest).length - k)).map
          (fun p => (p.1, p.2.1, some p.2.2)) := by
  induction rest generalizing c done with
  | nil => exact ⟨h, by simpa [putOps, runOps] using hv⟩
  | cons p rest ih =>
    have hnd2 : (((done ++ [p]) ++ rest).map (fun p => p.1)).Nodup := by
      simpa [List.append_assoc] using hnd
    have hp : p.1 ∉ done.map (fun p => p.1) := by
      intro hmem
      rw [List.map_append, List.map_cons] at hnd
      exact (List.nodup_append.1 hnd).2.2 hmem (List.mem_cons_self _ _)
    have hnew : c.cache p.1 = none := by
      rw [h.cache_none_iff, hv]
      intro hmem
      apply hp
      simp only [List.map_map, List.mem_map, Function.comp] at hmem
      obtain ⟨q, hq, hq1⟩ := hmem
      exact List.mem_map.2 ⟨q, List.mem_of_mem_drop hq, hq1⟩
    have hview := view_put_new h hnew p.2.1 p.2.2
    have hlen : (view c).length = done.length - (done.length - k) := by
      rw [hv]; simp
    have hv2 : view (c.Put p.1 p.2.1 p.2.2) =
        ((done ++ [p]).drop ((done ++ [p]).length - k)).map
          (fun p => (p.1, p.2.1, some p.2.2)) := by
      rw [hview, hmax, hlen]
      by_cases hfull : k ≤ done.length
      · have h1 : (k : Int) ≤ ((done.length - (done.length - k) : Nat) : Int) := by omega
        have h2 : (done ++ [p]).length - k = (done.length - k) + 1 := by
          simp only [List.length_append, List.length_singleton]; omega
        have h4 : (done.length - k) + 1 ≤ done.length := by omega
        rw [if_pos h1, hv, h2, List.drop_append_of_le_length h4, List.map_append,
          ← List.map_tail, List.tail_drop]
        simp
      · have h1 : ¬ (k : Int) ≤ ((done.length - (done.length - k) : Nat) : Int) := by omega
        have h2 : (done ++ [p]).length - k = 0 := by
          simp only [List.length_append, List.length_singleton]; omega
        have h3 : done.length - k = 0 := by omega
        rw [if_neg h1, hv, h2, h3]
        simp
    have hm2 : (c.Put p.1 p.2.1 p.2.2).maxSize = k := (maxSize_put c _ _ _).1.trans hmax
    have := ih (inv_put h p.1 p.2.1 p.2.2) hm2 (done ++ [p]) hv2 hnd2
    simpa [putOps, runOps, Op.apply, List.append_assoc] using this

theorem isExpired_mono {c : TTLCache V} {key : String} {now1 now2 : Time} (hle : now1 ≤ now2)
    (h : c.isExpired key now1 = true) : c.isExpired key now2 = true := by
  unfold TTLCache.isExpired at h ⊢
  cases hts : c.timestamps key with
  | none => rfl
  | some ts =>
    rw [hts] at h
    simp only [decide_eq_true_eq] at h ⊢
    exact lt_of_lt_of_le h (sub_le_sub_right hle ts)

/-- After a miss whose two clock readings are in order, the key is not in the map. -/
theorem get_miss_absent {c : TTLCache V} (h : Inv c) {key : String} {now1 now2 : Time}
    (hle : now1 ≤ now2) (miss : (c.Get key now1 now2).1 = none) :
    (c.Get key now1 now2).2.cache key = none := by
  unfold TTLCache.Get TTLCache.getCheck at miss ⊢
  cases hc : c.cache key with
  | none => simp [hc]
  | some i =>
    rw [hc] at miss
    simp only at miss ⊢
    by_cases hexp : c.isExpired key now1 = true
    · simp only [hexp, if_true]
      unfold TTLCache.getEvict
      simp only [hc, isExpired_mono hle hexp, if_true, mapDelete]
    · exfalso
      simp only [hexp, Bool.false_eq_true, if_false] at miss
      obtain ⟨x, hx, -, hxk⟩ := h.node_of_cache hc
      subst hxk
      rw [getTouch_of_mem h hx] at miss
      cases miss

end ViewLemmas

/-! ## Admission gate -/

section GateLemmas

theorem tryAcquire_capacity (s : Semaphore) : s.tryAcquire.2.capacity = s.capacity := by
  unfold Semaphore.tryAcquire
  split <;> rfl

theorem tryAcquire_held (s : Semaphore) (h : s.held ≤ s.capacity) :
    s.tryAcquire.2.held ≤ s.capacity := by
  unfold Semaphore.tryAcquire
  split
  · rename_i hlt; exact hlt
  · exact h

theorem matched_take (s : Semaphore) (evs : List GateEvent) (n : Nat) (h : Matched s evs) :
    Matched s (evs.take n) := by
  induction evs generalizing s n with
  | nil => simpa using h
  | cons e rest ih =>
    cases n with
    | zero => trivial
    | succ n =>
      cases e with
      | acquire => exact ih _ n h
      | release => exact ⟨h.1, ih _ n h.2⟩

/-- A matched sequence runs to its end and never holds more permits than the
channel has room for. -/
theorem gateRun_held (s : Semaphore) (evs : List GateEvent) (h : s.held ≤ s.capacity)
    (hm : Matched s evs) :
    ∃ s2, gateRun s evs = some s2 ∧ s2.capacity = s.capacity ∧ s2.held ≤ s.capacity := by
  induction evs generalizing s with
  | nil => exact ⟨s, rfl, rfl, h⟩
  | cons e rest ih =>
    cases e with
    | acquire =>
      obtain ⟨s2, h1, h2, h3⟩ := ih s.tryAcquire.2
        (by rw [tryAcquire_capacity]; exact tryAcquire_held s h) hm
      rw [tryAcquire_capacity] at h2 h3
      exact ⟨s2, h1, h2, h3⟩
    | release =>
      obtain ⟨hpos, hrest⟩ := hm
      obtain ⟨s2, h1, h2, h3⟩ := ih { s with held := s.held - 1 }
        (show s.held - 1 ≤ s.capacity by omega) hrest
      refine ⟨s2, ?_, h2, h3⟩
      show (match gateStep s GateEvent.release with
        | some s2 => gateRun s2 rest
        | none => none) = some s2
      simp only [gateStep, Semaphore.release, if_pos hpos]
      exact h1

end GateLemmas

/-! ## Request handler -/

section HandlerLemmas

/-- The generator fails exactly on a component type that is not in the table. -/
theorem getLocalizedComponent_error_iff (componentType lang : String) (nowMilli : Int)
    (nowStamp err : String) :
    getLocalizedComponent componentType lang nowMilli nowStamp = Except.error err ↔
      componentTemplates.lookup componentType = none ∧
        err = "component type \x27" ++ componentType ++ "\x27 not found" := by
  unfold getLocalizedComponent
  cases h : componentTemplates.lookup componentType with
  | none =>
    simp only [true_and]
    constructor
    · intro he; injection he with he; exact he.symm
    · intro he; rw [he]
  | some template => simp

/-- On a known component type the generator returns a component with `Cached = false`. -/
theorem getLocalizedComponent_ok (componentType lang : String) (nowMilli : Int)
    (nowStamp : String) (hknown : (componentTemplates.lookup componentType).isSome) :
    ∃ component, getLocalizedComponent componentType lang nowMilli nowStamp =
      Except.ok component ∧ component.Cached = false := by
  unfold getLocalizedComponent
  obtain ⟨template, ht⟩ := Option.isSome_iff_exists.1 hknown
  rw [ht]
  exact ⟨_, rfl, rfl⟩

/-- The generation branch gives the same response and local cache with and
without a Redis client. -/
theorem generateAndStore_client (redisClient : Option RedisClient) (clock : RequestClock)
    (cache : TTLCache LocalizedComponent) (calls calls0 : List Call)
    (componentType lang : String) :
    (generateAndStore redisClient clock cache calls componentType lang).response =
      (generateAndStore none clock cache calls0 componentType lang).response ∧
    (generateAndStore redisClient clock cache calls componentType lang).cache =
      (generateAndStore none clock cache calls0 componentType lang).cache := by
  unfold generateAndStore
  cases getLocalizedComponent componentType lang clock.genMilli clock.genStamp with
  | error err => exact ⟨rfl, rfl⟩
  | ok component => exact ⟨rfl, rfl⟩

/-- The handler uses a Redis client only through the outcome of `getFromRedis`. -/
theorem endpoint_congr_client (clientA clientB : RedisClient) (codecA codecB : JSONCodec)
    (clock : RequestClock) (componentCache : TTLCache LocalizedComponent)
    (componentType : String) (langQuery : Option String)
    (hget : clientA.get = clientB.get) (hun : codecA.unmarshal = codecB.unmarshal) :
    getLocalizedComponentEndpoint (some clientA) codecA clock componentCache componentType
        langQuery =
      getLocalizedComponentEndpoint (some clientB) codecB clock componentCache componentType
        langQuery := by
  have hg : ∀ key, getFromRedis clientA codecA key = getFromRedis clientB codecB key := by
    intro key
    unfold getFromRedis
    rw [hget, hun]
  unfold getLocalizedComponentEndpoint
  cases hl : localizationDB.lookup (langQuery.getD "en") with
  | none => simp only [hl]
  | some strings =>
    simp only [hl, hg]
    generalize componentCache.Get (cacheKey componentType (langQuery.getD "en")) clock.getNow1
      clock.getNow2 = g
    obtain ⟨g1, g2⟩ := g
    cases g1 with
    | some cached => rfl
    | none =>
      simp only
      cases getFromRedis clientB codecB (cacheKey componentType (langQuery.getD "en")) with
      | ok component => rfl
      | error e =>
        simp only [generateAndStore]

/-- The languages that pass the validation of the handler. -/
theorem valid_lang {lang : String} (h : (localizationDB.lookup lang).isSome) :
    lang = "en" ∨ lang = "es" ∨ lang = "fr" ∨ lang = "de" := by
  by_contra hne
  push_neg at hne
  obtain ⟨h1, h2, h3, h4⟩ := hne
  have e1 : (lang == "en") = false := beq_eq_false_iff_ne.2 h1
  have e2 : (lang == "es") = false := beq_eq_false_iff_ne.2 h2
  have e3 : (lang == "fr") = false := beq_eq_false_iff_ne.2 h3
  have e4 : (lang == "de") = false := beq_eq_false_iff_ne.2 h4
  have hnone : localizationDB.lookup lang = none := by
    simp only [localizationDB, List.lookup, e1, e2, e3, e4]
  rw [hnone] at h
  cases h

theorem valid_lang_length {lang : String} (h : (localizationDB.lookup lang).isSome) :
    lang.data.length = 2 := by
  rcases valid_lang h with h | h | h | h <;> subst h <;> rfl

/-- The first call of the handler on a valid language is the local `Get` on the
request key. -/
theorem endpoint_first_call (redisClient : Option RedisClient) (codec : JSONCodec)
    (clock : RequestClock) (componentCache : TTLCache LocalizedComponent)
    (componentType lang : String) (hlang : (localizationDB.lookup lang).isSome) :
    (getLocalizedComponentEndpoint redisClient codec clock componentCache componentType
      (some lang)).calls.head? = some (Call.cacheGet (cacheKey componentType lang)) := by
  obtain ⟨strings, hl⟩ := Option.isSome_iff_exists.1 hlang
  unfold getLocalizedComponentEndpoint
  simp only [Option.getD_some, hl]
  generalize componentCache.Get (cacheKey componentType lang) clock.getNow1 clock.getNow2 = g
  obtain ⟨g1, g2⟩ := g
  cases g1 with
  | some cached => rfl
  | none =>
    cases redisClient with
    | none =>
      simp only [generateAndStore]
      cases getLocalizedComponent componentType lang clock.genMilli clock.genStamp <;> rfl
    | some client =>
      simp only
      cases getFromRedis client codec (cacheKey componentType lang) with
      | ok component => rfl
      | error e =>
        simp only [generateAndStore]
        cases getLocalizedComponent componentType lang clock.genMilli clock.genStamp <;> rfl


end HandlerLemmas

/-! ## Element identities are not observable -/

section ShiftLemmas

variable {V : Type}

theorem listRemove_shift (n : Nat) (l : List (Element V)) (e : Nat) :
    listRemove (l.map (shiftElement n)) (e + n) = (listRemove l e).map (shiftElement n) := by
  unfold listRemove
  rw [List.filter_map]
  congr 1
  apply List.filter_congr
  intro x _
  simp [shiftElement]

theorem find_shift (n : Nat) (l : List (Element V)) (e : Nat) :
    (l.map (shiftElement n)).find? (fun x => decide (x.id = e + n)) =
      (l.find? (fun x => decide (x.id = e))).map (shiftElement n) := by
  induction l with
  | nil => rfl
  | cons a t ih =>
    by_cases h : a.id = e
    · simp [List.find?, shiftElement, h]
    · have h2 : ¬ a.id + n = e + n := fun h3 => h (Nat.add_right_cancel h3)
      simp only [List.map_cons, List.find?, shiftElement, h, h2, decide_False]
      exact ih

theorem listMoveToBack_shift (n : Nat) (l : List (Element V)) (e : Nat) :
    listMoveToBack (l.map (shiftElement n)) (e + n) =
      (listMoveToBack l e).map (shiftElement n) := by
  unfold listMoveToBack
  rw [find_shift]
  cases l.find? (fun x => decide (x.id = e)) with
  | none => rfl
  | some x => simp [listRemove_shift]

theorem listSetValue_shift (n : Nat) (l : List (Element V)) (e : Nat) (v : V) :
    listSetValue (l.map (shiftElement n)) (e + n) v =
      (listSetValue l e v).map (shiftElement n) := by
  unfold listSetValue
  rw [List.map_map, List.map_map]
  apply List.map_congr_left
  intro x _
  by_cases h : x.id = e
  · simp [shiftElement, h]
  · have h2 : ¬ x.id + n = e + n := fun h3 => h (Nat.add_right_cancel h3)
    simp [shiftElement, h, h2]

theorem listValue_shift (n : Nat) (l : List (Element V)) (e : Nat) :
    listValue (l.map (shiftElement n)) (e + n) = listValue l e := by
  unfold listValue
  rw [find_shift]
  cases l.find? (fun x => decide (x.id = e)) <;> rfl

theorem mapDelete_shift (n : Nat) (m : String → Option Nat) (key : String) :
    mapDelete (fun k => (m k).map (fun i => i + n)) key =
      fun k => (mapDelete m key k).map (fun i => i + n) := by
  funext k
  simp only [mapDelete]
  split <;> rfl

theorem mapSet_shift (n : Nat) (m : String → Option Nat) (key : String) (i : Nat) :
    mapSet (fun k => (m k).map (fun i => i + n)) key (i + n) =
      fun k => (mapSet m key i k).map (fun i => i + n) := by
  funext k
  simp only [mapSet]
  split <;> rfl

theorem isExpired_shift (n : Nat) (c : TTLCache V) (key : String) (now : Time) :
    (shiftIds n c).isExpired key now = c.isExpired key now := rfl

theorem getCheck_shift (n : Nat) (c : TTLCache V) (key : String) (now : Time) :
    (shiftIds n c).getCheck key now = c.getCheck key now := by
  unfold TTLCache.getCheck
  rw [isExpired_shift]
  show (match (c.cache key).map (fun i => i + n) with
    | none => TTLCache.Check.absent
    | some _ => if c.isExpired key now then TTLCache.Check.expired else TTLCache.Check.fresh) = _
  cases c.cache key <;> rfl

theorem getEvict_shift (n : Nat) (c : TTLCache V) (key : String) (now : Time) :
    (shiftIds n c).getEvict key now = shiftIds n (c.getEvict key now) := by
  unfold TTLCache.getEvict
  rw [isExpired_shift]
  show (match (c.cache key).map (fun i => i + n) with
    | none => shiftIds n c
    | some element =>
      if c.isExpired key now then
        { shiftIds n c with
          lruList := listRemove (shiftIds n c).lruList element
          cache := mapDelete (shiftIds n c).cache key
          timestamps := mapDelete (shiftIds n c).timestamps key }
      else shiftIds n c) = _
  cases c.cache key with
  | none => rfl
  | some i =>
    simp only [Option.map_some']
    split
    · simp only [shiftIds, listRemove_shift, mapDelete_shift]
    · rfl

theorem getTouch_shift (n : Nat) (c : TTLCache V) (key : String) :
    ((shiftIds n c).getTouch key).1 = (c.getTouch key).1 ∧
    ((shiftIds n c).getTouch key).2 = shiftIds n (c.getTouch key).2 := by
  unfold TTLCache.getTouch
  show (match (c.cache key).map (fun i => i + n) with
      | none => (none, shiftIds n c)
      | some element =>
        (listValue (shiftIds n c).lruList element,
         { shiftIds n c with
           lruList := listMoveToBack (shiftIds n c).lruList element })).1 = _ ∧
    (match (c.cache key).map (fun i => i + n) with
      | none => (none, shiftIds n c)
      | some element =>
        (listValue (shiftIds n c).lruList element,
         { shiftIds n c with
           lruList := listMoveToBack (shiftIds n c).lruList element })).2 = _
  cases c.cache key with
  | none => exact ⟨rfl, rfl⟩
  | some i =>
    simp only [Option.map_some', shiftIds, listValue_shift, listMoveToBack_shift]
    refine ⟨?_, ?_⟩ <;> first | rfl | trivial

theorem get_shift (n : Nat) (c : TTLCache V) (key : String) (now1 now2 : Time) :
    ((shiftIds n c).Get key now1 now2).1 = (c.Get key now1 now2).1 ∧
    ((shiftIds n c).Get key now1 now2).2 = shiftIds n (c.Get key now1 now2).2 := by
  unfold TTLCache.Get
  rw [getCheck_shift]
  cases c.getCheck key now1 with
  | absent => exact ⟨rfl, rfl⟩
  | expired => exact ⟨rfl, getEvict_shift n c key now2⟩
  | fresh => exact getTouch_shift n c key

theorem put_shift (n : Nat) (c : TTLCache V) (key : String) (value : V) (now : Time) :
    (shiftIds n c).Put key value now = shiftIds n (c.Put key value now) := by
  unfold TTLCache.Put
  show (match (c.cache key).map (fun i => i + n) with
    | some element => _
    | none => _) = _
  cases c.cache key with
  | some i =>
    simp only [Option.map_some', shiftIds, listMoveToBack_shift, listSetValue_shift]
  | none =>
    simp only [Option.map_none', shiftIds, List.length_map]
    split
    · cases hl : c.lruList with
      | nil => simp [mapSet_shift, shiftElement, hl, Nat.add_right_comm]
      | cons o rest =>
        have hr := listRemove_shift n (o :: rest) o.id
        simp only [List.map_cons] at hr
        simp only [List.map_cons, List.head?_cons, shiftElement, mapDelete_shift, mapSet_shift,
          List.map_append, List.map_nil] at hr ⊢
        rw [hr, Nat.add_right_comm]
    · simp [mapSet_shift, shiftElement, Nat.add_right_comm]

theorem clear_shift (n : Nat) (c : TTLCache V) :
    (shiftIds n c).Clear = shiftIds n c.Clear := rfl

theorem apply_shift (n : Nat) (c : TTLCache V) (op : Op V) :
    Op.apply (shiftIds n c) op = shiftIds n (Op.apply c op) ∧
    Op.result (shiftIds n c) op = Op.result c op := by
  cases op with
  | put key value now => exact ⟨put_shift n c key value now, rfl⟩
  | get key now1 now2 =>
    exact ⟨(get_shift n c key now1 now2).2,
      congrArg some (get_shift n c key now1 now2).1⟩
  | clear => exact ⟨clear_shift n c, rfl⟩

theorem size_shift (n : Nat) (c : TTLCache V) : (shiftIds n c).Size = c.Size := by
  simp [TTLCache.Size, shiftIds]

theorem view_shift (n : Nat) (c : TTLCache V) : view (shiftIds n c) = view c := by
  simp [view, shiftIds, shiftElement, Function.comp_def]

theorem runOps_shift (n : Nat) (c : TTLCache V) (ops : List (Op V)) :
    runOps (shiftIds n c) ops = shiftIds n (runOps c ops) := by
  induction ops generalizing c with
  | nil => rfl
  | cons op rest ih =>
    show runOps (Op.apply (shiftIds n c) op) rest = shiftIds n (runOps (Op.apply c op) rest)
    rw [(apply_shift n c op).1, ih]

theorem observe_shift (n : Nat) (c : TTLCache V) (ops : List (Op V)) :
    observe (shiftIds n c) ops = observe c ops := by
  induction ops generalizing c with
  | nil => rfl
  | cons op rest ih =>
    simp only [observe]
    rw [(apply_shift n c op).1, (apply_shift n c op).2, size_shift, ih]

theorem clear_eq_shift_new (c : TTLCache V) :
    c.Clear = shiftIds c.nextId (NewTTLCache c.maxSize c.ttl) := by
  simp [TTLCache.Clear, shiftIds, NewTTLCache]

end ShiftLemmas


/-! ## The two sections of `Get` -/

section SecondLemmas

variable {V : Type}

/-- The method `Get` is its first section followed by the second section the
first one selects, both on the same state. -/
theorem get_eq_getSecond (c : TTLCache V) (key : String) (now1 now2 : Time) :
    c.Get key now1 now2 = TTLCache.getSecond (c.getCheck key now1) c key now2 := by
  unfold TTLCache.Get TTLCache.getSecond
  cases c.getCheck key now1 <;> rfl

/-- Shape of the removing section on a key that is present and expired. -/
theorem getEvict_of_expired {c : TTLCache V} {key : String} {i : Nat} {now : Time}
    (hc : c.cache key = some i) (hexp : c.isExpired key now = true) :
    c.getEvict key now =
      { c with
        lruList := listRemove c.lruList i
        cache := mapDelete c.cache key
        timestamps := mapDelete c.timestamps key } := by
  unfold TTLCache.getEvict
  simp only [hc, hexp, if_true]

/-- The removing section leaves the state alone when the key is gone or fresh. -/
theorem getEvict_of_not {c : TTLCache V} {key : String} {now : Time}
    (h : ¬ ((c.cache key).isSome ∧ c.isExpired key now = true)) :
    c.getEvict key now = c := by
  unfold TTLCache.getEvict
  cases hc : c.cache key with
  | none => rfl
  | some i =>
    have : ¬ c.isExpired key now = true := fun he => h ⟨by rw [hc]; rfl, he⟩
    simp only [this, if_false]
    rfl

theorem size_section {c : TTLCache V} (h : Inv c) (hmax : 1 ≤ c.maxSize)
    (hs : (c.lruList.length : Int) ≤ c.maxSize) (s : Section V) :
    ((Section.apply c s).lruList.length : Int) ≤ c.maxSize := by
  cases s with
  | put key value now => exact size_apply h hmax hs (Op.put key value now)
  | clear => exact size_apply h hmax hs Op.clear
  | getCheck key now => exact hs
  | getEvict key now =>
    have := length_getEvict c key now
    show ((c.getEvict key now).lruList.length : Int) ≤ c.maxSize
    omega
  | getTouch key =>
    show ((c.getTouch key).2.lruList.length : Int) ≤ c.maxSize
    rw [length_getTouch h key]
    exact hs

theorem size_runSections {c : TTLCache V} (h : Inv c) (hmax : 1 ≤ c.maxSize)
    (hs : (c.lruList.length : Int) ≤ c.maxSize) (ss : List (Section V)) :
    ((runSections c ss).lruList.length : Int) ≤ c.maxSize := by
  induction ss generalizing c with
  | nil => exact hs
  | cons s rest ih =>
    have hm := maxSize_runSections c [s]
    have hi : Inv (Section.apply c s) := inv_runSections h [s]
    have hm1 : (Section.apply c s).maxSize = c.maxSize := hm.1
    have := ih hi (hm1 ▸ hmax) (hm1 ▸ size_section h hmax hs s)
    rw [hm1] at this
    exact this

theorem runSections_append (c : TTLCache V) (a b : List (Section V)) :
    runSections c (a ++ b) = runSections (runSections c a) b := by
  unfold runSections
  rw [List.foldl_append]

end SecondLemmas


/-! ## Interleavings of callers -/

section WorldLemmas

variable {V : Type}

theorem Inv.derefOk {c : TTLCache V} (h : Inv c) (key : String) : c.derefOk key = true := by
  unfold TTLCache.derefOk
  cases hc : c.cache key with
  | none => rfl
  | some i =>
    obtain ⟨x, hx, hxi, -⟩ := h.node_of_cache hc
    subst hxi
    simp [listValue, find_id_of_mem h.ids_nodup hx]

/-- The second section of a `Get` is one of the lock-delimited sections. -/
theorem getSecond_section (check : TTLCache.Check) (c : TTLCache V) (key : String) (now : Time) :
    ∃ ss : List (Section V), (TTLCache.getSecond check c key now).2 = runSections c ss := by
  cases check with
  | absent => exact ⟨[], rfl⟩
  | expired => exact ⟨[Section.getEvict key now], rfl⟩
  | fresh => exact ⟨[Section.getTouch key], rfl⟩

/-- One scheduling step changes the cache by lock-delimited sections only, and
does not panic on a consistent cache. -/
theorem step_sections (w : World V) (i : Nat) (now : Time) (h : Inv w.cache)
    (hp : w.panicked = false) :
    (∃ ss : List (Section V), (w.step i now).cache = runSections w.cache ss) ∧
      (w.step i now).panicked = false := by
  unfold World.step
  cases w.callers[i]? with
  | none => exact ⟨⟨[], rfl⟩, hp⟩
  | some caller =>
    simp only
    cases hpend : caller.pending with
    | some p =>
      obtain ⟨check, key⟩ := p
      simp only
      exact ⟨getSecond_section check w.cache key now, by simp [hp, h.derefOk key]⟩
    | none =>
      simp only
      cases hcalls : caller.calls with
      | nil => exact ⟨⟨[], rfl⟩, hp⟩
      | cons req rest =>
        cases req with
        | put key value =>
          exact ⟨⟨[Section.put key value now], rfl⟩, by simp [hp, h.derefOk key]⟩
        | get key =>
          simp only
          cases w.cache.getCheck key now with
          | absent => exact ⟨⟨[], rfl⟩, hp⟩
          | expired => exact ⟨⟨[], rfl⟩, hp⟩
          | fresh => exact ⟨⟨[], rfl⟩, hp⟩

/-- Every schedule leads to a cache reached by lock-delimited sections, without
panic. -/
theorem run_sections (maxSize : Int) (ttl : Duration) (w : World V)
    (h : ∃ ss : List (Section V), w.cache = runSections (NewTTLCache maxSize ttl) ss)
    (hp : w.panicked = false) (schedule : List (Nat × Time)) :
    (∃ ss : List (Section V),
      (w.run schedule).cache = runSections (NewTTLCache maxSize ttl) ss) ∧
      (w.run schedule).panicked = false := by
  induction schedule generalizing w with
  | nil => exact ⟨h, hp⟩
  | cons s rest ih =>
    obtain ⟨ss, hss⟩ := h
    have hinv : Inv w.cache := hss ▸ inv_runSections (inv_new maxSize ttl) ss
    obtain ⟨⟨ss2, h2⟩, hp2⟩ := step_sections w s.1 s.2 hinv hp
    have h3 : ∃ ss3 : List (Section V),
        (w.step s.1 s.2).cache = runSections (NewTTLCache maxSize ttl) ss3 :=
      ⟨ss ++ ss2, by rw [h2, hss, runSections_append]⟩
    exact ih (w.step s.1 s.2) h3 hp2

end WorldLemmas


/-! ## Template interpolation -/

section InterpolateLemmas

theorem placeholderOpen_eq :
    placeholderOpen = [Char.ofNat 123, 'l', '1', '0', 'n', '.'] := by decide

theorem interpolateLoop_nil (data : StringMap) (fuel : Nat) :
    interpolateLoop data fuel [] = [] := by
  cases fuel <;> rfl

/-- The loop does not depend on its fuel, once the fuel covers the text left. -/
theorem interpolateLoop_fuel (data : StringMap) (n : Nat) :
    ∀ (rest : List Char), rest.length ≤ n → ∀ f1 f2 : Nat, rest.length ≤ f1 →
      rest.length ≤ f2 → interpolateLoop data f1 rest = interpolateLoop data f2 rest := by
  induction n with
  | zero =>
    intro rest h f1 f2 _ _
    have : rest = [] := List.length_eq_zero.1 (Nat.le_zero.1 h)
    subst this
    rw [interpolateLoop_nil, interpolateLoop_nil]
  | succ n ih =>
    intro rest h f1 f2 h1 h2
    cases rest with
    | nil => rw [interpolateLoop_nil, interpolateLoop_nil]
    | cons c r =>
      have hr : r.length ≤ n := by simpa using h
      cases f1 with
      | zero => simp at h1
      | succ g1 =>
        cases f2 with
        | zero => simp at h2
        | succ g2 =>
          have hg1 : r.length ≤ g1 := by simpa using h1
          have hg2 : r.length ≤ g2 := by simpa using h2
          have e1 := ih r hr g1 g2 hg1 hg2
          have e2 : ∀ k, interpolateLoop data g1 ((c :: r).drop (6 + k + 1)) =
              interpolateLoop data g2 ((c :: r).drop (6 + k + 1)) := by
            intro k
            have hl : ((c :: r).drop (6 + k + 1)).length ≤ r.length := by
              simp only [List.length_drop, List.length_cons]; omega
            exact ih _ (le_trans hl hr) g1 g2 (le_trans hl hg1) (le_trans hl hg2)
          simp only [interpolateLoop, e1, e2]

/-- A character other than the opening brace is copied. -/
theorem interpolateLoop_copy (data : StringMap) (c : Char) (r : List Char)
    (hc : c ≠ Char.ofNat 123) :
    interpolateLoop data (c :: r).length (c :: r) = c :: interpolateLoop data r.length r := by
  have hcond : ¬ (6 < r.length + 1 ∧ (c :: r).take 6 = placeholderOpen) := by
    rintro ⟨-, h⟩
    rw [placeholderOpen_eq] at h
    simp only [List.take_succ_cons, List.cons.injEq] at h
    exact hc h.1
  simp only [List.length_cons, interpolateLoop, hcond, if_false]

/-- Text without an opening brace is copied. -/
theorem interpolateLoop_pre (data : StringMap) (pre s : List Char)
    (hpre : Char.ofNat 123 ∉ pre) :
    interpolateLoop data (pre ++ s).length (pre ++ s) =
      pre ++ interpolateLoop data s.length s := by
  induction pre with
  | nil => rfl
  | cons c t ih =>
    have hc : c ≠ Char.ofNat 123 := fun h => hpre (h ▸ List.mem_cons_self _ _)
    have ht : Char.ofNat 123 ∉ t := fun h => hpre (List.mem_cons_of_mem _ h)
    rw [List.cons_append, interpolateLoop_copy data c (t ++ s) hc, ih ht]
    rfl

theorem indexByte_append (key post : List Char) (b : Char) (hkey : b ∉ key) :
    indexByte (key ++ b :: post) b = some key.length := by
  induction key with
  | nil => simp [indexByte]
  | cons c t ih =>
    have hc : c ≠ b := fun h => hkey (h ▸ List.mem_cons_self _ _)
    have ht : b ∉ t := fun h => hkey (List.mem_cons_of_mem _ h)
    simp [indexByte, hc, ih ht]

/-- With data that has no entries, the loop copies its text. -/
theorem interpolateLoop_empty (s : List Char) :
    interpolateLoop [] s.length s = s := by
  induction s with
  | nil => rfl
  | cons c r ih =>
    simp only [List.length_cons, interpolateLoop, List.lookup, ih]
    split
    · split <;> rfl
    · rfl

/-- One round of the loop at a placeholder whose key is in the data. -/
theorem interpolateLoop_step_replace (data : StringMap) (a : Char) (r : List Char) (e : Nat)
    (v : String) (hcond : 6 < r.length + 1 ∧ (a :: r).take 6 = placeholderOpen)
    (hidx : indexByte ((a :: r).drop 6) (Char.ofNat 125) = some e)
    (hlk : data.lookup (String.mk (((a :: r).drop 6).take e)) = some v) :
    interpolateLoop data (r.length + 1) (a :: r) =
      ['"'] ++ escapeQuotes v.data ++ ['"'] ++
        interpolateLoop data r.length ((a :: r).drop (6 + e + 1)) := by
  simp only [interpolateLoop, hcond.2, hidx, hlk]
  split
  · rfl
  · rename_i hn
    exact absurd ⟨by simpa using hcond.1, trivial⟩ hn

/-- One round of the loop at a placeholder whose key is not in the data. -/
theorem interpolateLoop_step_absent (data : StringMap) (a : Char) (r : List Char) (e : Nat)
    (hidx : indexByte ((a :: r).drop 6) (Char.ofNat 125) = some e)
    (hlk : data.lookup (String.mk (((a :: r).drop 6).take e)) = none) :
    interpolateLoop data (r.length + 1) (a :: r) = a :: interpolateLoop data r.length r := by
  simp only [interpolateLoop, hidx, hlk]
  split <;> rfl

/-- The loop at a placeholder whose key is in the data: the quoted, escaped
value, then the loop on the text after the closing brace. -/
theorem interpolateLoop_replace (data : StringMap) (key post : List Char) (v : String)
    (hkey : Char.ofNat 125 ∉ key) (hv : data.lookup (String.mk key) = some v) :
    interpolateLoop data (placeholderOpen ++ (key ++ Char.ofNat 125 :: post)).length
        (placeholderOpen ++ (key ++ Char.ofNat 125 :: post)) =
      ['"'] ++ escapeQuotes v.data ++ ['"'] ++ interpolateLoop data post.length post := by
  rw [placeholderOpen_eq]
  have hidx := indexByte_append key post (Char.ofNat 125) hkey
  have htake : (key ++ Char.ofNat 125 :: post).take key.length = key := List.take_left _ _
  have hdrop : (key ++ Char.ofNat 125 :: post).drop (key.length + 1) = post := by
    rw [← List.drop_drop, List.drop_left]
    rfl
  have hstep := interpolateLoop_step_replace data (Char.ofNat 123)
    ('l' :: '1' :: '0' :: 'n' :: '.' :: (key ++ Char.ofNat 125 :: post)) key.length v
    ⟨by simp, by rw [placeholderOpen_eq]; rfl⟩ hidx (by
      show data.lookup (String.mk ((key ++ Char.ofNat 125 :: post).take key.length)) = some v
      rw [htake]; exact hv)
  show interpolateLoop data
    (('l' :: '1' :: '0' :: 'n' :: '.' :: (key ++ Char.ofNat 125 :: post)).length + 1)
    (Char.ofNat 123 :: 'l' :: '1' :: '0' :: 'n' :: '.' :: (key ++ Char.ofNat 125 :: post)) = _
  rw [hstep]
  have hd : (Char.ofNat 123 :: 'l' :: '1' :: '0' :: 'n' :: '.' ::
      (key ++ Char.ofNat 125 :: post)).drop (6 + key.length + 1) = post := by
    have : 6 + key.length + 1 = (key.length + 1) + 6 := by omega
    rw [this]
    show (key ++ Char.ofNat 125 :: post).drop (key.length + 1) = post
    exact hdrop
  rw [hd]
  congr 1
  apply interpolateLoop_fuel data post.length post le_rfl
  · simp only [List.length_cons, List.length_append]; omega
  · exact le_rfl

/-- The loop at a placeholder whose key is not in the data: the opening brace
is copied and the loop goes on with the next character. -/
theorem interpolateLoop_absent (data : StringMap) (key post : List Char)
    (hkey : Char.ofNat 125 ∉ key) (hv : data.lookup (String.mk key) = none) :
    interpolateLoop data (placeholderOpen ++ (key ++ Char.ofNat 125 :: post)).length
        (placeholderOpen ++ (key ++ Char.ofNat 125 :: post)) =
      Char.ofNat 123 :: interpolateLoop data
        ('l' :: '1' :: '0' :: 'n' :: '.' :: (key ++ Char.ofNat 125 :: post)).length
        ('l' :: '1' :: '0' :: 'n' :: '.' :: (key ++ Char.ofNat 125 :: post)) := by
  rw [placeholderOpen_eq]
  have hidx := indexByte_append key post (Char.ofNat 125) hkey
  have htake : (key ++ Char.ofNat 125 :: post).take key.length = key := List.take_left _ _
  exact interpolateLoop_step_absent data (Char.ofNat 123)
    ('l' :: '1' :: '0' :: 'n' :: '.' :: (key ++ Char.ofNat 125 :: post)) key.length hidx (by
      show data.lookup (String.mk ((key ++ Char.ofNat 125 :: post).take key.length)) = none
      rw [htake]; exact hv)

/-- The loop at a placeholder whose key is not in the data and holds no opening
brace: the placeholder is copied, then the loop goes on after it. -/
theorem interpolateLoop_absent_copy (data : StringMap) (key post : List Char)
    (hkey : Char.ofNat 125 ∉ key) (hkey2 : Char.ofNat 123 ∉ key)
    (hv : data.lookup (String.mk key) = none) :
    interpolateLoop data (placeholderOpen ++ (key ++ Char.ofNat 125 :: post)).length
        (placeholderOpen ++ (key ++ Char.ofNat 125 :: post)) =
      placeholderOpen ++ (key ++ Char.ofNat 125 :: interpolateLoop data post.length post) := by
  rw [interpolateLoop_absent data key post hkey hv]
  have hno : Char.ofNat 123 ∉ 'l' :: '1' :: '0' :: 'n' :: '.' :: (key ++ [Char.ofNat 125]) := by
    intro h
    simp only [List.mem_cons, List.mem_append, List.mem_singleton, List.not_mem_nil,
      or_false] at h
    rcases h with h | h | h | h | h | h | h
    · exact absurd h (by decide)
    · exact absurd h (by decide)
    · exact absurd h (by decide)
    · exact absurd h (by decide)
    · exact absurd h (by decide)
    · exact hkey2 h
    · exact absurd h (by decide)
  have hpre := interpolateLoop_pre data
    ('l' :: '1' :: '0' :: 'n' :: '.' :: (key ++ [Char.ofNat 125])) post hno
  have hsplit : 'l' :: '1' :: '0' :: 'n' :: '.' :: (key ++ Char.ofNat 125 :: post) =
      ('l' :: '1' :: '0' :: 'n' :: '.' :: (key ++ [Char.ofNat 125])) ++ post := by simp
  rw [hsplit, hpre, placeholderOpen_eq]
  simp


end InterpolateLemmas


/-! ## Claims -/

section Claims

/-- C1 (size bound): for a cache built by `NewTTLCache` with `maxSize ≥ 1`, after
each call of every finite sequence of `Put`, `Get` and `Clear` calls, with any
keys, values and clock readings, `Size()` is at most `maxSize`. -/
theorem size_bound {V : Type} (maxSize : Int) (ttl : Duration) (hmax : 1 ≤ maxSize)
    (ops : List (Op V)) (n : Nat) :
    (runOps (NewTTLCache maxSize ttl) (ops.take n)).Size ≤ maxSize := by
  have h := size_runOps (inv_new maxSize ttl) (c := (NewTTLCache maxSize ttl : TTLCache V))
    hmax (by simp [NewTTLCache]; omega) (ops.take n)
  exact h

theorem size_bound_witness :
    (1 : Int) ≤ 1 ∧
    (runOps (NewTTLCache 1 5)
      ([Op.put "a" 7 0, Op.put "b" 8 1, Op.get "b" 9 9, Op.put "c" 9 10].take 4 :
        List (Op Nat))).Size ≤ 1 :=
  ⟨by decide, size_bound 1 5 (by decide) _ 4⟩

/-- C2 (TTL expiry, independent of reads): in any reachable state of a cache
with TTL `ttl` (any `maxSize`, in particular `maxSize ≥ 1`), after `Put(K, v)` at
time `t0` and any run of `Get` calls on any keys with non-decreasing clock
readings, a `Get(K)` whose expiry test reads the clock at `t` returns `(v, true)`
when `t - t0 ≤ ttl` and not-found when `t - t0 > ttl`. -/
theorem ttl_expiry {V : Type} (maxSize : Int) (ttl : Duration) (ss : List (Section V))
    (K : String) (v : V) (t0 : Time) (gets : List (String × Time × Time)) (t t2 : Time)
    (hmono : (t0 :: getTimes gets ++ [t]).Pairwise (fun a b => a ≤ b)) :
    let c := runOps ((runSections (NewTTLCache maxSize ttl) ss).Put K v t0) (getOps gets)
    (t - t0 ≤ ttl → (c.Get K t t2).1 = some v) ∧
    (t - t0 > ttl → (c.Get K t t2).1 = none) := by
  intro c
  have h0 : Inv (runSections (NewTTLCache maxSize ttl : TTLCache V) ss) :=
    inv_runSections (inv_new maxSize ttl) ss
  have h1 : Inv ((runSections (NewTTLCache maxSize ttl) ss).Put K v t0) := inv_put h0 K v t0
  have hm := view_put_mem h0 K v t0
  have httl1 : ((runSections (NewTTLCache maxSize ttl) ss).Put K v t0).ttl = ttl := by
    rw [(maxSize_put _ K v t0).2, (maxSize_runSections _ ss).2]
    rfl
  have httl : c.ttl = ttl := (maxSize_runOps _ _).2.trans httl1
  have hle : ∀ g ∈ gets, g.2.1 ≤ t := by
    intro g hg
    have hp := (List.pairwise_cons.1 hmono).2
    have := (List.pairwise_append.1 hp).2.2 g.2.1
      (by
        unfold getTimes
        exact List.mem_flatMap.2 ⟨g, hg, List.mem_cons_self _ _⟩)
      t (List.mem_singleton_self _)
    exact this
  constructor
  · intro hf
    have hk := gets_keep_fresh h1 hm gets (fun g hg => by
      rw [httl1]
      exact le_trans (sub_le_sub_right (hle g hg) t0) hf)
    exact get_of_view_mem hk.1 hk.2 (httl.symm ▸ hf) t2
  · intro hexp
    obtain ⟨hi, hq⟩ := gets_keep_stamp h1 (Or.inr hm) gets
    rcases hq with hq | hq
    · exact get_of_view_not_mem hi ((hi.cache_none_iff K).1 hq) t t2
    · obtain ⟨x, hx, -, -, hts⟩ := mem_view.1 hq
      exact get_of_expired hts (httl.symm ▸ hexp) t2

theorem ttl_expiry_witness :
    ((0 : Time) :: getTimes [("b", 1, 1), ("a", 2, 3), ("a", 5, 6)] ++ [7]).Pairwise
        (fun a b => a ≤ b) ∧
    (((7 : Time) - 0 ≤ 10 →
      ((runOps ((runSections (NewTTLCache 2 10) [Section.put "b" 5 0]).Put "a" (4 : Nat) 0)
        (getOps [("b", 1, 1), ("a", 2, 3), ("a", 5, 6)])).Get "a" 7 8).1 = some 4) ∧
     ((7 : Time) - 0 > 10 →
      ((runOps ((runSections (NewTTLCache 2 10) [Section.put "b" 5 0]).Put "a" (4 : Nat) 0)
        (getOps [("b", 1, 1), ("a", 2, 3), ("a", 5, 6)])).Get "a" 7 8).1 = none)) :=
  ⟨by decide,
   ttl_expiry 2 10 [Section.put "b" 5 0] "a" 4 0 [("b", 1, 1), ("a", 2, 3), ("a", 5, 6)] 7 8
     (by decide)⟩

/-- C10 (Put on an existing key): in any reachable state, `Put(key, v)` at time
`t` on a key that is in the map (fresh or expired) makes the node of the key the
last of the list with value `v` and the same identity, stamps the key with `t`,
leaves the map, `Size()` and the timestamps of all other keys unchanged, and
leaves all other nodes unchanged and in the same relative order. -/
theorem put_existing_key {V : Type} (maxSize : Int) (ttl : Duration) (ss : List (Section V))
    (key : String) (i : Nat) (v : V) (t : Time)
    (hpresent : (runSections (NewTTLCache maxSize ttl) ss).cache key = some i) :
    let c := runSections (NewTTLCache maxSize ttl) ss
    let c2 := c.Put key v t
    c2.lruList.getLast? = some { id := i, key := key, value := v } ∧
    c2.lruList.dropLast = c.lruList.filter (fun e => decide (e.key ≠ key)) ∧
    c2.timestamps key = some t ∧
    (∀ k, k ≠ key → c2.timestamps k = c.timestamps k) ∧
    c2.cache = c.cache ∧
    c2.Size = c.Size ∧
    (∀ e ∈ c.lruList, e.key ≠ key → e ∈ c2.lruList) ∧
    (∀ now1 now2, now1 - t ≤ c2.ttl → (c2.Get key now1 now2).1 = some v) := by
  intro c c2
  have h : Inv c := inv_runSections (inv_new maxSize ttl) ss
  have hc : c.cache key = some i := hpresent
  have hshape : c2 = { c with
        lruList := listRemove c.lruList i ++ [{ id := i, key := key, value := v }]
        timestamps := mapSet c.timestamps key t } := put_existing h hc v t
  obtain ⟨x, hx, hxi, hxk⟩ := h.node_of_cache hc
  have hrem : listRemove c.lruList i = c.lruList.filter (fun e => decide (e.key ≠ key)) := by
    rw [← hxi, ← hxk]; exact listRemove_eq_filter_key h hx
  have hl : c2.lruList = c.lruList.filter (fun e => decide (e.key ≠ key)) ++
      [{ id := i, key := key, value := v }] := by rw [hshape, ← hrem]
  refine ⟨?_, ?_, ?_, ?_, ?_, ?_, ?_, ?_⟩
  · rw [hl]; simp
  · rw [hl]; simp
  · rw [hshape]; simp [mapSet]
  · intro k hk
    rw [hshape]; simp [mapSet, hk]
  · rw [hshape]
  · show (c2.lruList.length : Int) = c.lruList.length
    rw [length_put_existing h hc]
  · intro e he hk
    rw [hl]
    exact List.mem_append_left _ (List.mem_filter.2 ⟨he, by simpa using hk⟩)
  · intro now1 now2 hf
    exact get_of_view_mem (inv_put h key v t) (view_put_mem h key v t) hf now2

theorem put_existing_key_witness :
    (runSections (NewTTLCache 2 10) [Section.put "a" (1 : Nat) 0, Section.put "b" 2 1]).cache "a"
        = some 0 ∧
    (let c := runSections (NewTTLCache 2 10) [Section.put "a" (1 : Nat) 0, Section.put "b" 2 1]
     let c2 := c.Put "a" 9 50
     c2.lruList.getLast? = some { id := 0, key := "a", value := 9 } ∧
     c2.lruList.dropLast = c.lruList.filter (fun e => decide (e.key ≠ "a")) ∧
     c2.timestamps "a" = some 50 ∧
     (∀ k, k ≠ "a" → c2.timestamps k = c.timestamps k) ∧
     c2.cache = c.cache ∧
     c2.Size = c.Size ∧
     (∀ e ∈ c.lruList, e.key ≠ "a" → e ∈ c2.lruList) ∧
     (∀ now1 now2, now1 - 50 ≤ c2.ttl → (c2.Get "a" now1 now2).1 = some 9)) :=
  ⟨by decide,
   put_existing_key 2 10 [Section.put "a" 1 0, Section.put "b" 2 1] "a" 0 9 50 (by decide)⟩

/-- C3 (LRU order): for every capacity `k ≥ 1` and every `k + 1` pairwise
distinct keys, after `Put` on the keys in order into an empty cache of `maxSize`
`k`, `Get` on the first key returns not-found, and `Get` on each of the other
`k` keys, at a time when its entry has not expired, returns the value put. -/
theorem lru_order {V : Type} (k : Nat) (hk : 1 ≤ k) (ttl : Duration)
    (first : String × V × Time) (others : List (String × V × Time))
    (hlen : others.length = k)
    (hdistinct : ((first :: others).map (fun p => p.1)).Nodup) :
    let c := runOps (NewTTLCache (k : Int) ttl) (putOps (first :: others))
    (∀ now1 now2, (c.Get first.1 now1 now2).1 = none) ∧
    (∀ p ∈ others, ∀ now1 now2, now1 - p.2.2 ≤ ttl → (c.Get p.1 now1 now2).1 = some p.2.1) := by
  intro c
  obtain ⟨hi, hv⟩ := view_puts (inv_new (k : Int) ttl) (V := V) k hk rfl [] (first :: others)
    (by simp [view, NewTTLCache]) (by simpa using hdistinct)
  have hv2 : view c = others.map (fun p => (p.1, p.2.1, some p.2.2)) := by
    show view (runOps (NewTTLCache (k : Int) ttl) (putOps (first :: others))) = _
    rw [hv]
    simp [hlen]
  have httl : c.ttl = ttl := (maxSize_runOps _ _).2
  constructor
  · intro now1 now2
    apply get_of_view_not_mem hi
    rw [hv2, List.map_map]
    rw [List.map_cons, List.nodup_cons] at hdistinct
    exact hdistinct.1
  · intro p hp now1 now2 hf
    have hmem : (p.1, p.2.1, some p.2.2) ∈ view c := by
      rw [hv2]
      exact List.mem_map.2 ⟨p, hp, rfl⟩
    exact get_of_view_mem hi hmem (httl.symm ▸ hf) now2

theorem lru_order_witness :
    1 ≤ 2 ∧ [("b", (20 : Nat), (1 : Time)), ("c", 30, 2)].length = 2 ∧
    ((("a", (10 : Nat), (0 : Time)) :: [("b", 20, 1), ("c", 30, 2)]).map (fun p => p.1)).Nodup ∧
    (let c := runOps (NewTTLCache ((2 : Nat) : Int) 100)
        (putOps (("a", (10 : Nat), (0 : Time)) :: [("b", 20, 1), ("c", 30, 2)]))
     (∀ now1 now2, (c.Get "a" now1 now2).1 = none) ∧
     (∀ p ∈ [("b", (20 : Nat), (1 : Time)), ("c", 30, 2)], ∀ now1 now2,
        now1 - p.2.2 ≤ 100 → (c.Get p.1 now1 now2).1 = some p.2.1)) :=
  ⟨by decide, by decide, by decide,
   lru_order 2 (by decide) 100 ("a", 10, 0) [("b", 20, 1), ("c", 30, 2)] (by decide)
     (by decide)⟩

/-- C4 (recency update): with three pairwise distinct keys and `maxSize = 2`,
after `Put(A)`, `Put(B)`, a `Get(A)` that hits, and `Put(C)`, the key `B` is
absent while `A` and `C` are returned by `Get` as long as they have not expired.
In general, in any reachable state of a cache with `maxSize ≥ 2`, a `Get` that
hits leaves the node of its key last in the list, and the next `Put` of a key
that is not in the map keeps the key just read, with its value and timestamp. -/
theorem recency_update {V : Type} (ttl : Duration) (A B C : String) (vA vB vC : V)
    (tA tB tC now1 now2 : Time) (hAB : A ≠ B) (hAC : A ≠ C) (hBC : B ≠ C)
    (hfreshA : now1 - tA ≤ ttl)
    (maxSize : Int) (hmax : 2 ≤ maxSize) (ss : List (Section V)) (key : String) (r1 r2 : Time)
    (v : V) (hit : ((runSections (NewTTLCache maxSize ttl) ss).Get key r1 r2).1 = some v) :
    (let c := runOps (NewTTLCache 2 ttl)
        [Op.put A vA tA, Op.put B vB tB, Op.get A now1 now2, Op.put C vC tC]
     (∀ m1 m2, (c.Get B m1 m2).1 = none) ∧
     (∀ m1 m2, m1 - tA ≤ ttl → (c.Get A m1 m2).1 = some vA) ∧
     (∀ m1 m2, m1 - tC ≤ ttl → (c.Get C m1 m2).1 = some vC)) ∧
    (let c := runSections (NewTTLCache maxSize ttl) ss
     let c1 := (c.Get key r1 r2).2
     c1.lruList.getLast?.map (fun e => e.key) = some key ∧
     ∀ (key2 : String) (v2 : V) (t : Time), c1.cache key2 = none →
       ((c1.Put key2 v2 t).cache key).isSome ∧
       (c1.Put key2 v2 t).timestamps key = c.timestamps key ∧
       (∃ e ∈ (c1.Put key2 v2 t).lruList, e.key = key ∧ e.value = v) ∧
       (∀ ts, c.timestamps key = some ts → ∀ m1 m2, m1 - ts ≤ ttl →
          ((c1.Put key2 v2 t).Get key m1 m2).1 = some v)) := by
  constructor
  · intro c
    -- the four calls, one at a time
    have i0 : Inv (NewTTLCache 2 ttl : TTLCache V) := inv_new 2 ttl
    have hA : (NewTTLCache 2 ttl : TTLCache V).cache A = none := rfl
    have i1 := inv_put i0 A vA tA
    have m1 := (maxSize_put (NewTTLCache 2 ttl : TTLCache V) A vA tA)
    have v1b : view ((NewTTLCache 2 ttl : TTLCache V).Put A vA tA) = [(A, vA, some tA)] := by
      rw [view_put_new i0 hA]
      simp [view, NewTTLCache]
    generalize hc1 : (NewTTLCache 2 ttl : TTLCache V).Put A vA tA = c1 at v1b i1 m1
    have hB : c1.cache B = none := by
      rw [i1.cache_none_iff, v1b]; simpa using Ne.symm hAB
    have v2 : view (c1.Put B vB tB) = [(A, vA, some tA), (B, vB, some tB)] := by
      rw [view_put_new i1 hB, v1b, m1.1]
      simp [NewTTLCache]
    have i2 := inv_put i1 B vB tB
    have m2 := maxSize_put c1 B vB tB
    generalize hc2 : c1.Put B vB tB = c2 at v2 i2 m2
    have hitA : (c2.Get A now1 now2).1 = some vA := by
      have hmem : (A, vA, some tA) ∈ view c2 := by rw [v2]; simp
      have hf : now1 - tA ≤ c2.ttl := by rw [m2.2, m1.2]; exact hfreshA
      exact get_of_view_mem i2 hmem hf now2
    obtain ⟨ts, hts, -, v3⟩ := view_get_hit i2 hitA
    have htsA : ts = tA := by
      have : (A, vA, some tA) ∈ view c2 := by rw [v2]; simp
      obtain ⟨_, _, _, _, h3⟩ := mem_view.1 this
      exact Option.some.inj (hts.symm.trans h3)
    subst htsA
    have i3 := inv_get i2 A now1 now2
    have m3 := maxSize_get c2 A now1 now2
    rw [v2] at v3
    have v3b : view (c2.Get A now1 now2).2 = [(B, vB, some tB), (A, vA, some ts)] := by
      rw [v3]; simp [hAB, Ne.symm hAB]
    generalize hc3 : (c2.Get A now1 now2).2 = c3 at v3b i3 m3
    have hC : c3.cache C = none := by
      rw [i3.cache_none_iff, v3b]
      simp [Ne.symm hAC, Ne.symm hBC]
    have v4 : view (c3.Put C vC tC) = [(A, vA, some ts), (C, vC, some tC)] := by
      rw [view_put_new i3 hC, v3b, m3.1, m2.1, m1.1]
      simp [NewTTLCache]
    have i4 := inv_put i3 C vC tC
    have m4 := maxSize_put c3 C vC tC
    have hc : c = c3.Put C vC tC := by
      rw [← hc3, ← hc2, ← hc1]; rfl
    have httl : c.ttl = ttl := by
      rw [hc, m4.2, m3.2, m2.2, m1.2]; rfl
    rw [← hc] at v4 i4
    refine ⟨?_, ?_, ?_⟩
    · intro m1 m2
      apply get_of_view_not_mem i4
      rw [v4]; simp [hAB, hBC, Ne.symm hAB]
    · intro m1 m2 hf
      have hmem : (A, vA, some ts) ∈ view c := by rw [v4]; simp
      exact get_of_view_mem i4 hmem (httl.symm ▸ hf) m2
    · intro m1 m2 hf
      have hmem : (C, vC, some tC) ∈ view c := by rw [v4]; simp
      exact get_of_view_mem i4 hmem (httl.symm ▸ hf) m2
  · intro c c1
    have h : Inv c := inv_runSections (inv_new maxSize ttl) ss
    have hcm : c.maxSize = maxSize ∧ c.ttl = ttl := maxSize_runSections _ ss
    obtain ⟨x, hx, hxk, hxv, -, hs⟩ := get_snd_of_hit h hit
    obtain ⟨ts, hts, -, hv⟩ := view_get_hit h hit
    have h1 : Inv c1 := inv_get h key r1 r2
    have hm1 : c1.maxSize = maxSize ∧ c1.ttl = ttl :=
      ⟨(maxSize_get c key r1 r2).1.trans hcm.1, (maxSize_get c key r1 r2).2.trans hcm.2⟩
    constructor
    · show ((c.Get key r1 r2).2.lruList.getLast?).map (fun e => e.key) = some key
      rw [hs]
      simp [hxk]
    · intro key2 v2 t hnew
      have hmem : (key, v, some ts) ∈ view (c1.Put key2 v2 t) := by
        rw [view_put_new h1 hnew]
        apply List.mem_append_left
        have hv1 : view c1 =
            (view c).filter (fun p => decide (p.1 ≠ key)) ++ [(key, v, some ts)] := hv
        split
        · rename_i hfull
          rw [hv1] at hfull ⊢
          have hne : (view c).filter (fun p => decide (p.1 ≠ key)) ≠ [] := by
            intro he
            rw [he, hm1.1] at hfull
            simp at hfull
            omega
          rw [List.tail_append_of_ne_nil hne]
          exact List.mem_append_right _ (List.mem_singleton_self _)
        · rw [hv1]
          exact List.mem_append_right _ (List.mem_singleton_self _)
      have h2 : Inv (c1.Put key2 v2 t) := inv_put h1 key2 v2 t
      obtain ⟨e, he, hek, hev, het⟩ := mem_view.1 hmem
      refine ⟨?_, het.trans hts.symm, ⟨e, he, hek, hev⟩, ?_⟩
      · rw [← hek, h2.node_cache e he]; rfl
      · intro ts2 hts2 m1 m2 hf
        have : ts2 = ts := Option.some.inj (hts2.symm.trans hts)
        subst this
        have httl2 : (c1.Put key2 v2 t).ttl = ttl := (maxSize_put c1 key2 v2 t).2.trans hm1.2
        exact get_of_view_mem h2 hmem (httl2.symm ▸ hf) m2

theorem recency_update_witness :
    (let c := runOps (NewTTLCache 2 10)
        [Op.put "a" (1 : Nat) 0, Op.put "b" 2 1, Op.get "a" 2 2, Op.put "c" 3 3]
     (∀ m1 m2, (c.Get "b" m1 m2).1 = none) ∧
     (∀ m1 m2, m1 - 0 ≤ 10 → (c.Get "a" m1 m2).1 = some 1) ∧
     (∀ m1 m2, m1 - 3 ≤ 10 → (c.Get "c" m1 m2).1 = some 3)) ∧
    (let c := runSections (NewTTLCache 3 10)
        [Section.put "x" (7 : Nat) 0, Section.put "y" 8 1, Section.put "z" 9 1]
     let c1 := (c.Get "x" 4 5).2
     c1.lruList.getLast?.map (fun e => e.key) = some "x" ∧
     ∀ (key2 : String) (v2 : Nat) (t : Time), c1.cache key2 = none →
       ((c1.Put key2 v2 t).cache "x").isSome ∧
       (c1.Put key2 v2 t).timestamps "x" = c.timestamps "x" ∧
       (∃ e ∈ (c1.Put key2 v2 t).lruList, e.key = "x" ∧ e.value = 7) ∧
       (∀ ts, c.timestamps "x" = some ts → ∀ m1 m2, m1 - ts ≤ 10 →
          ((c1.Put key2 v2 t).Get "x" m1 m2).1 = some 7)) :=
  recency_update 10 "a" "b" "c" 1 2 3 0 1 3 2 2 (by decide) (by decide) (by decide) (by decide)
    3 (by decide) [Section.put "x" 7 0, Section.put "y" 8 1, Section.put "z" 9 1] "x" 4 5 7
    (by decide)

/-- C9 (admission gate bound): for the channel of `ConcurrencyLimiter(N)` with
`N ≥ 1`, an acquire attempt is granted exactly when fewer than `N` permits are
held, a granted attempt takes one permit, a rejected attempt changes nothing,
and every prefix of every sequence of acquire attempts and matched releases
runs to a state holding at most `N` permits; with `N = 2` two acquires are
granted, a third is rejected, and after one release the next is granted. -/
theorem admission_gate_bound (limit : Int) (hN : 1 ≤ limit) (s : Semaphore)
    (hs : s.capacity = limit.toNat) (evs : List GateEvent) (n : Nat)
    (hmatched : Matched { capacity := limit.toNat, held := 0 } evs) :
    ConcurrencyLimiter limit = some { capacity := limit.toNat, held := 0 } ∧
    (s.tryAcquire.1 = true ↔ (s.held : Int) < limit) ∧
    (s.tryAcquire.1 = true → s.tryAcquire.2.held = s.held + 1) ∧
    (s.tryAcquire.1 = false → s.tryAcquire.2 = s) ∧
    (∃ s2, gateRun { capacity := limit.toNat, held := 0 } (evs.take n) = some s2 ∧
      (s2.held : Int) ≤ limit) ∧
    (∃ s0 s3 s4, ConcurrencyLimiter 2 = some s0 ∧
      s0.tryAcquire.1 = true ∧
      s0.tryAcquire.2.tryAcquire.1 = true ∧
      s0.tryAcquire.2.tryAcquire.2.tryAcquire = (false, s3) ∧
      s3.release = some s4 ∧
      s4.tryAcquire.1 = true) := by
  refine ⟨?_, ?_, ?_, ?_, ?_, ?_⟩
  · unfold ConcurrencyLimiter
    rw [if_neg (by omega)]
  · unfold Semaphore.tryAcquire
    rw [hs]
    split
    · simp only [true_iff]; omega
    · simp only [Bool.false_eq_true, false_iff]; omega
  · unfold Semaphore.tryAcquire
    split
    · intro _; rfl
    · intro h; cases h
  · unfold Semaphore.tryAcquire
    split
    · intro h; cases h
    · intro _; rfl
  · obtain ⟨s2, h1, -, h3⟩ := gateRun_held { capacity := limit.toNat, held := 0 } (evs.take n)
      (Nat.zero_le _) (matched_take _ evs n hmatched)
    refine ⟨s2, h1, ?_⟩
    simp only at h3
    omega
  · exact ⟨{ capacity := 2, held := 0 }, { capacity := 2, held := 2 },
      { capacity := 2, held := 1 }, by decide, by decide, by decide, by decide, by decide,
      by decide⟩

theorem admission_gate_bound_witness :
    (1 : Int) ≤ 2 ∧
    Matched { capacity := (2 : Int).toNat, held := 0 }
      [GateEvent.acquire, GateEvent.acquire, GateEvent.acquire, GateEvent.release,
        GateEvent.acquire] ∧
    (∃ s2, gateRun { capacity := (2 : Int).toNat, held := 0 }
      ([GateEvent.acquire, GateEvent.acquire, GateEvent.acquire, GateEvent.release,
        GateEvent.acquire].take 4) = some s2 ∧ (s2.held : Int) ≤ 2) :=
  ⟨by decide, by simp [Matched, Semaphore.tryAcquire],
   (admission_gate_bound 2 (by decide) { capacity := 2, held := 1 } rfl
      [GateEvent.acquire, GateEvent.acquire, GateEvent.acquire, GateEvent.release,
        GateEvent.acquire] 4
      (by simp [Matched, Semaphore.tryAcquire])).2.2.2.2.1⟩

/-- C6 (coordinator precedence): for a request with a valid language whose
cache key is a hit in the local cache, Redis client nil or not, the handler
answers the stored component with `Cached = true`, its only call is the
`Get` on the local cache, and it makes no call to `getFromRedis`, `setInRedis`
or `getLocalizedComponent`. -/
theorem coordinator_precedence (redisClient : Option RedisClient) (codec : JSONCodec)
    (clock : RequestClock) (componentCache : TTLCache LocalizedComponent)
    (componentType : String) (langQuery : Option String) (stored : LocalizedComponent)
    (hlang : (localizationDB.lookup (langQuery.getD "en")).isSome)
    (hfresh : (componentCache.Get (cacheKey componentType (langQuery.getD "en"))
      clock.getNow1 clock.getNow2).1 = some stored) :
    let r := getLocalizedComponentEndpoint redisClient codec clock componentCache
      componentType langQuery
    r.response = Response.ok { stored with Cached := true } ∧
    r.calls = [Call.cacheGet (cacheKey componentType (langQuery.getD "en"))] ∧
    r.calls.countP Call.isDistributed = 0 ∧
    r.calls.countP Call.isGenerator = 0 ∧
    r.cache = (componentCache.Get (cacheKey componentType (langQuery.getD "en"))
      clock.getNow1 clock.getNow2).2 := by
  intro r
  obtain ⟨strings, hl⟩ := Option.isSome_iff_exists.1 hlang
  have hr : r = { response := Response.ok { stored with Cached := true }
                  cache := (componentCache.Get (cacheKey componentType (langQuery.getD "en"))
                    clock.getNow1 clock.getNow2).2
                  calls := [Call.cacheGet (cacheKey componentType (langQuery.getD "en"))] } := by
    show getLocalizedComponentEndpoint redisClient codec clock componentCache
      componentType langQuery = _
    unfold getLocalizedComponentEndpoint
    simp only [hl]
    generalize componentCache.Get (cacheKey componentType (langQuery.getD "en"))
      clock.getNow1 clock.getNow2 = g at hfresh
    obtain ⟨g1, g2⟩ := g
    simp only at hfresh
    subst hfresh
    rfl
  rw [hr]
  exact ⟨rfl, rfl, rfl, rfl, rfl⟩

theorem coordinator_precedence_witness :
    (localizationDB.lookup ((some "fr" : Option String).getD "en")).isSome ∧
    (((NewTTLCache CacheMaxSize CacheTTL).Put "component:footer:fr" sampleComponent 0).Get
      (cacheKey "footer" ((some "fr" : Option String).getD "en"))
      sampleClock.getNow1 sampleClock.getNow2).1 = some sampleComponent ∧
    (getLocalizedComponentEndpoint none failingCodec sampleClock
      ((NewTTLCache CacheMaxSize CacheTTL).Put "component:footer:fr" sampleComponent 0)
      "footer" (some "fr")).calls = [Call.cacheGet (cacheKey "footer" "fr")] :=
  ⟨by decide, by decide,
   (coordinator_precedence none failingCodec sampleClock
      ((NewTTLCache CacheMaxSize CacheTTL).Put "component:footer:fr" sampleComponent 0)
      "footer" (some "fr") sampleComponent (by decide) (by decide)).2.1⟩

/-- C7 (tier degradation): with the Redis client nil, for a request with a valid
language and a known component type whose key misses the local cache (in any
reachable state of `componentCache`), the handler calls the generator exactly
once, makes no call to the distributed tier, puts the generated component in
the local cache under the request key, where a later `Get` finds it until it
expires, and answers it with `Cached = false`. -/
theorem tier_degradation (codec : JSONCodec) (clock : RequestClock)
    (ss : List (Section LocalizedComponent)) (componentType : String)
    (langQuery : Option String)
    (hlang : (localizationDB.lookup (langQuery.getD "en")).isSome)
    (hknown : (componentTemplates.lookup componentType).isSome)
    (hmiss : ((runSections (NewTTLCache CacheMaxSize CacheTTL) ss).Get
      (cacheKey componentType (langQuery.getD "en")) clock.getNow1 clock.getNow2).1 = none) :
    let componentCache := runSections (NewTTLCache CacheMaxSize CacheTTL) ss
    let key := cacheKey componentType (langQuery.getD "en")
    let r := getLocalizedComponentEndpoint none codec clock componentCache componentType langQuery
    ∃ component,
      getLocalizedComponent componentType (langQuery.getD "en") clock.genMilli clock.genStamp =
        Except.ok component ∧
      r.calls = [Call.cacheGet key,
        Call.getLocalizedComponent componentType (langQuery.getD "en"),
        Call.cachePut key component] ∧
      r.calls.countP Call.isGenerator = 1 ∧
      r.calls.countP Call.isDistributed = 0 ∧
      r.cache = (componentCache.Get key clock.getNow1 clock.getNow2).2.Put key component
        clock.putNow ∧
      (∀ now1 now2, now1 - clock.putNow ≤ CacheTTL → (r.cache.Get key now1 now2).1 =
        some component) ∧
      r.response = Response.ok component ∧
      component.Cached = false := by
  intro componentCache key r
  obtain ⟨strings, hl⟩ := Option.isSome_iff_exists.1 hlang
  obtain ⟨component, hgen, hcached⟩ := getLocalizedComponent_ok componentType
    (langQuery.getD "en") clock.genMilli clock.genStamp hknown
  have hr : r = { response := Response.ok { component with Cached := false }
                  cache := (componentCache.Get key clock.getNow1 clock.getNow2).2.Put key
                    component clock.putNow
                  calls := [Call.cacheGet key,
                    Call.getLocalizedComponent componentType (langQuery.getD "en"),
                    Call.cachePut key component] } := by
    show getLocalizedComponentEndpoint none codec clock componentCache
      componentType langQuery = _
    unfold getLocalizedComponentEndpoint
    simp only [hl]
    have hmiss2 : (componentCache.Get key clock.getNow1 clock.getNow2).1 = none := hmiss
    show (match componentCache.Get key clock.getNow1 clock.getNow2 with
      | (some cached, cache1) => _
      | (none, cache1) => _) = _
    generalize componentCache.Get key clock.getNow1 clock.getNow2 = g at hmiss2
    obtain ⟨g1, g2⟩ := g
    simp only at hmiss2
    subst hmiss2
    simp only [generateAndStore, hgen]
    rfl
  have hinv : Inv componentCache := inv_runSections (inv_new _ _) ss
  have hinv1 : Inv (componentCache.Get key clock.getNow1 clock.getNow2).2 := inv_get hinv _ _ _
  have httl : ((componentCache.Get key clock.getNow1 clock.getNow2).2.Put key component
      clock.putNow).ttl = CacheTTL := by
    rw [(maxSize_put _ _ _ _).2, (maxSize_get _ _ _ _).2, (maxSize_runSections _ ss).2]
    rfl
  have hresp : ({ component with Cached := false } : LocalizedComponent) = component := by
    cases component
    simp only at hcached
    subst hcached
    rfl
  refine ⟨component, hgen, ?_, ?_, ?_, ?_, ?_, ?_, hcached⟩
  · rw [hr]
  · rw [hr]; rfl
  · rw [hr]; rfl
  · rw [hr]
  · intro now1 now2 hf
    rw [hr]
    exact get_of_view_mem (inv_put hinv1 key component clock.putNow)
      (view_put_mem hinv1 key component clock.putNow) (httl.symm ▸ hf) now2
  · rw [hr, hresp]

theorem tier_degradation_witness :
    (localizationDB.lookup ((some "de" : Option String).getD "en")).isSome ∧
    (componentTemplates.lookup "footer").isSome ∧
    ((runSections (NewTTLCache CacheMaxSize CacheTTL) ([] : List (Section LocalizedComponent))).Get
      (cacheKey "footer" ((some "de" : Option String).getD "en"))
      sampleClock.getNow1 sampleClock.getNow2).1 = none ∧
    (∃ component,
      getLocalizedComponent "footer" ((some "de" : Option String).getD "en")
        sampleClock.genMilli sampleClock.genStamp = Except.ok component ∧
      (getLocalizedComponentEndpoint none failingCodec sampleClock
        (runSections (NewTTLCache CacheMaxSize CacheTTL) [])
        "footer" (some "de")).response = Response.ok component) :=
  ⟨by decide, by decide, by decide,
   (tier_degradation failingCodec sampleClock [] "footer" (some "de")
      (by decide) (by decide) (by decide)).imp
     (fun _ h => ⟨h.1, h.2.2.2.2.2.2.1⟩)⟩

/-- C8 (negative results are never cached): for a request with a valid language
that misses the local cache (any reachable state, clock readings in order) and
misses Redis (client nil, or `getFromRedis` fails), and for which the generator
reports not-found, the handler answers not-found with the generator error,
makes no `Put` on the local cache and no `setInRedis` call, and leaves the key
out of the local cache; the same request made again, at any time, calls the
generator again and is answered not-found again. -/
theorem negative_not_cached (redisClient : Option RedisClient) (codec : JSONCodec)
    (clock clock2 : RequestClock) (ss : List (Section LocalizedComponent))
    (componentType : String) (langQuery : Option String) (err : String)
    (hlang : (localizationDB.lookup (langQuery.getD "en")).isSome)
    (hclock : clock.getNow1 ≤ clock.getNow2)
    (hmissLocal : ((runSections (NewTTLCache CacheMaxSize CacheTTL) ss).Get
      (cacheKey componentType (langQuery.getD "en")) clock.getNow1 clock.getNow2).1 = none)
    (hmissRedis : ∀ client, redisClient = some client →
      ∀ component, getFromRedis client codec (cacheKey componentType (langQuery.getD "en")) ≠
        Except.ok component)
    (hnotFound : getLocalizedComponent componentType (langQuery.getD "en") clock.genMilli
      clock.genStamp = Except.error err) :
    let componentCache := runSections (NewTTLCache CacheMaxSize CacheTTL) ss
    let key := cacheKey componentType (langQuery.getD "en")
    let r := getLocalizedComponentEndpoint redisClient codec clock componentCache
      componentType langQuery
    let r2 := getLocalizedComponentEndpoint redisClient codec clock2 r.cache
      componentType langQuery
    r.response = Response.notFound err "Component type not found"
      (componentTemplates.map (fun p => p.1)) ∧
    r.calls.countP Call.isCachePut = 0 ∧
    r.calls.countP Call.isSetInRedis = 0 ∧
    r.calls.countP Call.isGenerator = 1 ∧
    r.cache = (componentCache.Get key clock.getNow1 clock.getNow2).2 ∧
    r.cache.cache key = none ∧
    r2.calls.countP Call.isGenerator = 1 ∧
    r2.response = r.response := by
  intro componentCache key r r2
  obtain ⟨strings, hl⟩ := Option.isSome_iff_exists.1 hlang
  have hinv : Inv componentCache := inv_runSections (inv_new _ _) ss
  have hgen2 : getLocalizedComponent componentType (langQuery.getD "en") clock2.genMilli
      clock2.genStamp = Except.error err :=
    (getLocalizedComponent_error_iff _ _ _ _ _).2
      ((getLocalizedComponent_error_iff _ _ _ _ _).1 hnotFound)
  -- shape of a request that misses everywhere, for any cache and clock
  have shape : ∀ (ck : RequestClock) (cc : TTLCache LocalizedComponent),
      (cc.Get (cacheKey componentType (langQuery.getD "en")) ck.getNow1 ck.getNow2).1 = none →
      getLocalizedComponent componentType (langQuery.getD "en") ck.genMilli ck.genStamp =
        Except.error err →
      ∃ calls, calls.countP Call.isCachePut = 0 ∧ calls.countP Call.isSetInRedis = 0 ∧
        calls.countP Call.isGenerator = 1 ∧
        getLocalizedComponentEndpoint redisClient codec ck cc componentType langQuery =
          { response := Response.notFound err "Component type not found"
              (componentTemplates.map (fun p => p.1))
            cache := (cc.Get (cacheKey componentType (langQuery.getD "en"))
              ck.getNow1 ck.getNow2).2
            calls := calls } := by
    intro ck cc hm hg
    unfold getLocalizedComponentEndpoint
    simp only [hl]
    generalize cc.Get (cacheKey componentType (langQuery.getD "en")) ck.getNow1 ck.getNow2 = g
      at hm ⊢
    obtain ⟨g1, g2⟩ := g
    simp only at hm
    subst hm
    cases hrc : redisClient with
    | none =>
      refine ⟨[Call.cacheGet (cacheKey componentType (langQuery.getD "en")),
        Call.getLocalizedComponent componentType (langQuery.getD "en")], rfl, rfl, rfl, ?_⟩
      simp only [generateAndStore, hg]
      rfl
    | some client =>
      have hne := hmissRedis client hrc
      cases hgr : getFromRedis client codec (cacheKey componentType (langQuery.getD "en")) with
      | ok component => exact absurd hgr (hne component)
      | error e =>
        refine ⟨[Call.cacheGet (cacheKey componentType (langQuery.getD "en")),
          Call.getFromRedis (cacheKey componentType (langQuery.getD "en")),
          Call.getLocalizedComponent componentType (langQuery.getD "en")], rfl, rfl, rfl, ?_⟩
        simp only [hgr, generateAndStore, hg]
        rfl
  obtain ⟨calls, hc1, hc2, hc3, hr⟩ := shape clock componentCache hmissLocal hnotFound
  have hr1 : r = _ := hr
  have habsent : r.cache.cache key = none := by
    rw [hr1]
    exact get_miss_absent hinv hclock hmissLocal
  have hinv1 : Inv r.cache := by
    rw [hr1]; exact inv_get hinv _ _ _
  have hmiss2 : (r.cache.Get key clock2.getNow1 clock2.getNow2).1 = none :=
    get_of_view_not_mem hinv1 ((hinv1.cache_none_iff key).1 habsent) _ _
  obtain ⟨calls2, -, -, hd3, hr2⟩ := shape clock2 r.cache hmiss2 hgen2
  have hr2b : r2 = _ := hr2
  refine ⟨?_, ?_, ?_, ?_, ?_, habsent, ?_, ?_⟩
  · rw [hr1]
  · rw [hr1]; exact hc1
  · rw [hr1]; exact hc2
  · rw [hr1]; exact hc3
  · rw [hr1]
  · rw [hr2b]; exact hd3
  · rw [hr2b, hr1]

theorem negative_not_cached_witness :
    (localizationDB.lookup ((none : Option String).getD "en")).isSome ∧
    sampleClock.getNow1 ≤ sampleClock.getNow2 ∧
    ((runSections (NewTTLCache CacheMaxSize CacheTTL) ([] : List (Section LocalizedComponent))).Get
      (cacheKey "sidebar" ((none : Option String).getD "en"))
      sampleClock.getNow1 sampleClock.getNow2).1 = none ∧
    getLocalizedComponent "sidebar" ((none : Option String).getD "en") sampleClock.genMilli
      sampleClock.genStamp = Except.error "component type \x27sidebar\x27 not found" ∧
    (getLocalizedComponentEndpoint (some failingRedis) failingCodec sampleClock
      (runSections (NewTTLCache CacheMaxSize CacheTTL) []) "sidebar" none).response =
      Response.notFound "component type \x27sidebar\x27 not found" "Component type not found"
        (componentTemplates.map (fun p => p.1)) :=
  ⟨by decide, by decide, by decide, rfl,
   (negative_not_cached (some failingRedis) failingCodec sampleClock sampleClock [] "sidebar"
      none "component type \x27sidebar\x27 not found" (by decide) (by decide) (by decide)
      (fun client hc component => by
        cases hc
        simp [getFromRedis, failingRedis])
      rfl).1⟩

/-- C5 (structural consistency): in every state reached from `NewTTLCache` by
any interleaving of the lock-delimited sections of `Get`, `Put` and `Clear`, the
key map, the timestamps map and the list hold the same keys, every key of the
map has exactly one list node, list nodes are pairwise distinct elements, the
map entry of a key is the identity of the node carrying that key, and the
expiry test never succeeds through a missing timestamp. -/
theorem structural_consistency {V : Type} (maxSize : Int) (ttl : Duration)
    (ss : List (Section V)) :
    let c := runSections (NewTTLCache maxSize ttl) ss
    (∀ k, (c.cache k).isSome ↔ (c.timestamps k).isSome) ∧
    (∀ k, (c.cache k).isSome ↔ k ∈ c.lruList.map (fun e => e.key)) ∧
    (∀ k, (c.cache k).isSome → (c.lruList.map (fun e => e.key)).count k = 1) ∧
    (c.lruList.map (fun e => e.id)).Nodup ∧
    (∀ k i, c.cache k = some i →
      ∃ e, c.lruList.find? (fun x => decide (x.id = i)) = some e ∧ e.key = k) ∧
    (∀ k now, (c.cache k).isSome → c.isExpired k now = true →
      ∃ ts, c.timestamps k = some ts ∧ now - ts > c.ttl) := by
  intro c
  have h : Inv c := inv_runSections (inv_new maxSize ttl) ss
  have hmem : ∀ k, (c.cache k).isSome ↔ k ∈ c.lruList.map (fun e => e.key) := by
    intro k
    constructor
    · intro hk
      obtain ⟨i, hi⟩ := Option.isSome_iff_exists.1 hk
      obtain ⟨e, he, -, h2⟩ := h.cache_node k i hi
      exact List.mem_map.2 ⟨e, he, h2⟩
    · intro hk
      obtain ⟨e, he, rfl⟩ := List.mem_map.1 hk
      rw [h.node_cache e he]; rfl
  refine ⟨fun k => by rw [h.ts_iff k], hmem, ?_, h.ids_nodup, ?_, ?_⟩
  · intro k hk
    exact List.count_eq_one_of_mem h.keys_nodup ((hmem k).1 hk)
  · intro k i hk
    obtain ⟨e, he, h1, h2⟩ := h.cache_node k i hk
    exact ⟨e, h1 ▸ find_id_of_mem h.ids_nodup he, h2⟩
  · intro k now hk hexp
    have hts : (c.timestamps k).isSome := by rw [h.ts_iff k]; exact hk
    obtain ⟨ts, hts⟩ := Option.isSome_iff_exists.1 hts
    refine ⟨ts, hts, ?_⟩
    simpa [TTLCache.isExpired, hts] using hexp

/-- C11 (single eviction): in any reachable state of a cache with `maxSize ≥ 1`,
`Put(key, v)` at time `t` of a key that is not in the map appends a new node for
the key and stamps the key with `t`.  Below capacity nothing is removed and
`Size()` grows by one; at capacity exactly the front node is removed, with its
map entry and timestamp, and `Size()` is unchanged.  All other nodes stay as
they are, in the same order, and all other map entries and timestamps are
unchanged. -/
theorem single_eviction {V : Type} (maxSize : Int) (ttl : Duration) (hmax : 1 ≤ maxSize)
    (ss : List (Section V)) (key : String) (v : V) (t : Time)
    (hnew : (runSections (NewTTLCache maxSize ttl) ss).cache key = none) :
    let c := runSections (NewTTLCache maxSize ttl) ss
    let c2 := c.Put key v t
    let node : Element V := { id := c.nextId, key := key, value := v }
    (c.Size < maxSize →
      c2.lruList = c.lruList ++ [node] ∧ c2.Size = c.Size + 1 ∧
      c2.cache = mapSet c.cache key c.nextId ∧
      c2.timestamps = mapSet c.timestamps key t) ∧
    (c.Size = maxSize →
      ∃ o rest, c.lruList = o :: rest ∧ c2.lruList = rest ++ [node] ∧ c2.Size = c.Size ∧
        c2.cache o.key = none ∧ c2.timestamps o.key = none ∧
        (∀ k, k ≠ o.key → k ≠ key →
          c2.cache k = c.cache k ∧ c2.timestamps k = c.timestamps k)) ∧
    c2.lruList.getLast? = some node ∧
    c2.cache key = some c.nextId ∧
    c2.timestamps key = some t := by
  intro c c2 node
  have h : Inv c := inv_runSections (inv_new maxSize ttl) ss
  have hcm : c.maxSize = maxSize := (maxSize_runSections _ ss).1
  have hc : c.cache key = none := hnew
  have hroom : c.Size < maxSize →
      c2 = { c with
        lruList := c.lruList ++ [node]
        cache := mapSet c.cache key c.nextId
        timestamps := mapSet c.timestamps key t
        nextId := c.nextId + 1 } := by
    intro hlt
    exact put_new_room hc (show (c.lruList.length : Int) < c.maxSize by rw [hcm]; exact hlt) v t
  have hfull : c.Size = maxSize →
      ∃ o rest, c.lruList = o :: rest ∧
        c2 = { c with
          lruList := rest ++ [node]
          cache := mapSet (mapDelete c.cache o.key) key c.nextId
          timestamps := mapSet (mapDelete c.timestamps o.key) key t
          nextId := c.nextId + 1 } := by
    intro heq
    have hlen : (c.lruList.length : Int) = maxSize := heq
    cases hl : c.lruList with
    | nil => rw [hl] at hlen; simp at hlen; omega
    | cons o rest =>
      refine ⟨o, rest, rfl, ?_⟩
      exact put_new_full h.ids_nodup hc (by rw [hcm, hlen]) hl v t
  refine ⟨?_, ?_, ?_, ?_, ?_⟩
  · intro hlt
    rw [hroom hlt]
    refine ⟨rfl, ?_, rfl, rfl⟩
    simp [TTLCache.Size]
  · intro heq
    obtain ⟨o, rest, hl, hs⟩ := hfull heq
    have ho : c.cache o.key = some o.id := h.node_cache o (hl ▸ List.mem_cons_self _ _)
    have hok : o.key ≠ key := fun e => by rw [e, hc] at ho; cases ho
    refine ⟨o, rest, hl, ?_, ?_, ?_, ?_, ?_⟩
    · rw [hs]
    · rw [hs]; simp [TTLCache.Size, hl]
    · rw [hs]; simp [mapSet, mapDelete, hok]
    · rw [hs]; simp [mapSet, mapDelete, hok]
    · intro k hk1 hk2
      rw [hs]; simp [mapSet, mapDelete, hk1, hk2]
  · by_cases hlt : c.Size < maxSize
    · rw [hroom hlt]; simp
    · by_cases heq : c.Size = maxSize
      · obtain ⟨o, rest, -, hs⟩ := hfull heq
        rw [hs]; simp
      · -- above capacity does not arise, but `Put` appends there as well
        show (c.Put key v t).lruList.getLast? = some node
        have hlen : c.maxSize ≤ (c.lruList.length : Int) := by
          rw [hcm]; exact le_of_lt (lt_of_le_of_ne (not_lt.1 hlt) (Ne.symm heq))
        cases hl : c.lruList with
        | nil => rw [put_new_empty hc hl]; simp [node]
        | cons o rest => rw [put_new_full h.ids_nodup hc hlen hl]; simp [node]
  · by_cases hlt : c.Size < maxSize
    · rw [hroom hlt]; simp [mapSet]
    · have hlen : c.maxSize ≤ (c.lruList.length : Int) := by rw [hcm]; exact not_lt.1 hlt
      cases hl : c.lruList with
      | nil => show (c.Put key v t).cache key = _; rw [put_new_empty hc hl]; simp [mapSet]
      | cons o rest =>
        show (c.Put key v t).cache key = _
        rw [put_new_full h.ids_nodup hc hlen hl]; simp [mapSet]
  · obtain ⟨x, hx, hxk, -, hts⟩ := mem_view.1 (view_put_mem h key v t)
    exact hts

theorem single_eviction_witness :
    (1 : Int) ≤ 2 ∧
    (runSections (NewTTLCache 2 10) [Section.put "a" (1 : Nat) 0, Section.put "b" 2 1]).cache "c"
      = none ∧
    (let c := runSections (NewTTLCache 2 10) [Section.put "a" (1 : Nat) 0, Section.put "b" 2 1]
     c.Size = 2 ∧
     (c.Put "c" 3 5).lruList.getLast? = some { id := c.nextId, key := "c", value := 3 } ∧
     (c.Put "c" 3 5).cache "c" = some c.nextId ∧
     (c.Put "c" 3 5).timestamps "c" = some 5) :=
  ⟨by decide, by decide, by decide,
   (single_eviction 2 10 (by decide) [Section.put "a" 1 0, Section.put "b" 2 1] "c" 3 5
      (by decide)).2.2⟩


/-- C12 (distributed hit populates the local tier): with a Redis client, for a
request with a valid language that misses the local cache (any reachable state)
and for which `getFromRedis` returns a component without error, the handler
does not call the generator, puts that component in the local cache under the
request key before it starts the goroutine and responds, so that a following
local `Get` on the key hits with it until it expires, and answers the
component with `Cached = true`. -/
theorem distributed_hit_populates (client : RedisClient) (codec : JSONCodec)
    (clock : RequestClock) (ss : List (Section LocalizedComponent)) (componentType : String)
    (langQuery : Option String) (component : LocalizedComponent)
    (hlang : (localizationDB.lookup (langQuery.getD "en")).isSome)
    (hmiss : ((runSections (NewTTLCache CacheMaxSize CacheTTL) ss).Get
      (cacheKey componentType (langQuery.getD "en")) clock.getNow1 clock.getNow2).1 = none)
    (hredis : getFromRedis client codec (cacheKey componentType (langQuery.getD "en")) =
      Except.ok component) :
    let componentCache := runSections (NewTTLCache CacheMaxSize CacheTTL) ss
    let key := cacheKey componentType (langQuery.getD "en")
    let r := getLocalizedComponentEndpoint (some client) codec clock componentCache
      componentType langQuery
    r.calls = [Call.cacheGet key, Call.getFromRedis key, Call.cachePut key component,
      Call.goSetInRedis key component] ∧
    r.calls.countP Call.isGenerator = 0 ∧
    r.cache = (componentCache.Get key clock.getNow1 clock.getNow2).2.Put key component
      clock.putNow ∧
    (∀ now1 now2, now1 - clock.putNow ≤ CacheTTL →
      (r.cache.Get key now1 now2).1 = some component) ∧
    r.response = Response.ok { component with Cached := true } := by
  intro componentCache key r
  obtain ⟨strings, hl⟩ := Option.isSome_iff_exists.1 hlang
  have hr : r = { response := Response.ok { component with Cached := true }
                  cache := (componentCache.Get key clock.getNow1 clock.getNow2).2.Put key
                    component clock.putNow
                  calls := [Call.cacheGet key, Call.getFromRedis key,
                    Call.cachePut key component, Call.goSetInRedis key component] } := by
    show getLocalizedComponentEndpoint (some client) codec clock componentCache
      componentType langQuery = _
    unfold getLocalizedComponentEndpoint
    simp only [hl, hredis]
    have hmiss2 : (componentCache.Get key clock.getNow1 clock.getNow2).1 = none := hmiss
    show (match componentCache.Get key clock.getNow1 clock.getNow2 with
      | (some cached, cache1) => _
      | (none, cache1) => _) = _
    generalize componentCache.Get key clock.getNow1 clock.getNow2 = g at hmiss2
    obtain ⟨g1, g2⟩ := g
    simp only at hmiss2
    subst hmiss2
    rfl
  have hinv : Inv componentCache := inv_runSections (inv_new _ _) ss
  have hinv1 : Inv (componentCache.Get key clock.getNow1 clock.getNow2).2 := inv_get hinv _ _ _
  have httl : ((componentCache.Get key clock.getNow1 clock.getNow2).2.Put key component
      clock.putNow).ttl = CacheTTL := by
    rw [(maxSize_put _ _ _ _).2, (maxSize_get _ _ _ _).2, (maxSize_runSections _ ss).2]
    rfl
  refine ⟨?_, ?_, ?_, ?_, ?_⟩
  · rw [hr]
  · rw [hr]; rfl
  · rw [hr]
  · intro now1 now2 hf
    rw [hr]
    exact get_of_view_mem (inv_put hinv1 key component clock.putNow)
      (view_put_mem hinv1 key component clock.putNow) (httl.symm ▸ hf) now2
  · rw [hr]

theorem distributed_hit_populates_witness :
    (localizationDB.lookup ((some "fr" : Option String).getD "en")).isSome ∧
    ((runSections (NewTTLCache CacheMaxSize CacheTTL) ([] : List (Section LocalizedComponent))).Get
      (cacheKey "footer" ((some "fr" : Option String).getD "en"))
      sampleClock.getNow1 sampleClock.getNow2).1 = none ∧
    getFromRedis hitRedis sampleCodec (cacheKey "footer" ((some "fr" : Option String).getD "en"))
      = Except.ok sampleComponent ∧
    (getLocalizedComponentEndpoint (some hitRedis) sampleCodec sampleClock
      (runSections (NewTTLCache CacheMaxSize CacheTTL) []) "footer" (some "fr")).response =
      Response.ok { sampleComponent with Cached := true } :=
  ⟨by decide, by decide, rfl,
   (distributed_hit_populates hitRedis sampleCodec sampleClock [] "footer" (some "fr")
      sampleComponent (by decide) (by decide) rfl).2.2.2.2⟩


/-- C13, as stated, fails: with a Redis client whose `Get` returns a stored
component and whose `Set` fails, `setInRedis` returns an error, the request
misses the local cache, and the response (the stored component, `Cached = true`)
differs from the response with the Redis client nil (the generated component). -/
theorem distributed_failures_counterexample :
    setInRedis hitRedis sampleCodec (cacheKey "footer" "fr") sampleComponent =
      some "redis: connection refused" ∧
    ((NewTTLCache CacheMaxSize CacheTTL : TTLCache LocalizedComponent).Get
      (cacheKey "footer" "fr") sampleClock.getNow1 sampleClock.getNow2).1 = none ∧
    (getLocalizedComponentEndpoint (some hitRedis) sampleCodec sampleClock
      (NewTTLCache CacheMaxSize CacheTTL) "footer" (some "fr")).response ≠
    (getLocalizedComponentEndpoint none sampleCodec sampleClock
      (NewTTLCache CacheMaxSize CacheTTL) "footer" (some "fr")).response := by
  refine ⟨rfl, by decide, ?_⟩
  intro h
  have hflag := congrArg
    (fun r => match r with
      | Response.ok c => some c.Cached
      | _ => none) h
  revert hflag
  decide


/-- C13, amended (distributed-tier failures are absorbed): when `getFromRedis`
returns an error, the response and the local cache afterwards are those of the
same request, state and clock with the Redis client nil, whatever `setInRedis`
returns; and the outcome of `setInRedis` (the `Set` of the client, `json.Marshal`)
never changes the result of the handler, so no distributed-tier error reaches
the caller. -/
theorem distributed_failures_absorbed (client clientA clientB : RedisClient)
    (codec codecA codecB : JSONCodec) (clock : RequestClock)
    (componentCache : TTLCache LocalizedComponent) (componentType : String)
    (langQuery : Option String) (err : String)
    (hfail : getFromRedis client codec (cacheKey componentType (langQuery.getD "en")) =
      Except.error err)
    (hget : clientA.get = clientB.get) (hun : codecA.unmarshal = codecB.unmarshal) :
    (getLocalizedComponentEndpoint (some client) codec clock componentCache componentType
        langQuery).response =
      (getLocalizedComponentEndpoint none codec clock componentCache componentType
        langQuery).response ∧
    (getLocalizedComponentEndpoint (some client) codec clock componentCache componentType
        langQuery).cache =
      (getLocalizedComponentEndpoint none codec clock componentCache componentType
        langQuery).cache ∧
    getLocalizedComponentEndpoint (some clientA) codecA clock componentCache componentType
        langQuery =
      getLocalizedComponentEndpoint (some clientB) codecB clock componentCache componentType
        langQuery := by
  refine ⟨?_, ?_, endpoint_congr_client clientA clientB codecA codecB clock componentCache
    componentType langQuery hget hun⟩
  · unfold getLocalizedComponentEndpoint
    cases hl : localizationDB.lookup (langQuery.getD "en") with
    | none => simp only [hl]
    | some strings =>
      simp only [hl, hfail]
      generalize componentCache.Get (cacheKey componentType (langQuery.getD "en"))
        clock.getNow1 clock.getNow2 = g
      obtain ⟨g1, g2⟩ := g
      cases g1 with
      | some cached => rfl
      | none => exact (generateAndStore_client _ clock g2 _ _ componentType _).1
  · unfold getLocalizedComponentEndpoint
    cases hl : localizationDB.lookup (langQuery.getD "en") with
    | none => simp only [hl]
    | some strings =>
      simp only [hl, hfail]
      generalize componentCache.Get (cacheKey componentType (langQuery.getD "en"))
        clock.getNow1 clock.getNow2 = g
      obtain ⟨g1, g2⟩ := g
      cases g1 with
      | some cached => rfl
      | none => exact (generateAndStore_client _ clock g2 _ _ componentType _).2

theorem distributed_failures_absorbed_witness :
    getFromRedis failingRedis sampleCodec
      (cacheKey "footer" ((some "fr" : Option String).getD "en")) =
        Except.error "redis: nil" ∧
    hitRedis.get = { hitRedis with set := fun _ _ _ => none }.get ∧
    sampleCodec.unmarshal = sampleCodec.unmarshal ∧
    (getLocalizedComponentEndpoint (some failingRedis) sampleCodec sampleClock
        (NewTTLCache CacheMaxSize CacheTTL) "footer" (some "fr")).response =
      (getLocalizedComponentEndpoint none sampleCodec sampleClock
        (NewTTLCache CacheMaxSize CacheTTL) "footer" (some "fr")).response ∧
    getLocalizedComponentEndpoint (some hitRedis) sampleCodec sampleClock
        (NewTTLCache CacheMaxSize CacheTTL) "footer" (some "fr") =
      getLocalizedComponentEndpoint (some { hitRedis with set := fun _ _ _ => none })
        sampleCodec sampleClock (NewTTLCache CacheMaxSize CacheTTL) "footer" (some "fr") :=
  ⟨rfl, rfl, rfl,
   (distributed_failures_absorbed failingRedis hitRedis { hitRedis with set := fun _ _ _ => none }
      sampleCodec sampleCodec sampleCodec sampleClock (NewTTLCache CacheMaxSize CacheTTL)
      "footer" (some "fr") "redis: nil" rfl rfl rfl).1,
   (distributed_failures_absorbed failingRedis hitRedis { hitRedis with set := fun _ _ _ => none }
      sampleCodec sampleCodec sampleCodec sampleClock (NewTTLCache CacheMaxSize CacheTTL)
      "footer" (some "fr") "redis: nil" rfl rfl rfl).2.2⟩


/-- C14 (cache keys identify the request): the key of a request is
`cacheKey componentType lang`, whatever the Redis client, codec, clock and local
cache are, and for two requests whose languages pass the validation of the
handler, equal keys imply equal component types and equal languages, also for
component types that contain `:`. -/
theorem cache_key_injective (type1 lang1 type2 lang2 : String)
    (hlang1 : (localizationDB.lookup lang1).isSome)
    (hlang2 : (localizationDB.lookup lang2).isSome)
    (hkey : cacheKey type1 lang1 = cacheKey type2 lang2) :
    (type1 = type2 ∧ lang1 = lang2) ∧
    (∀ (redisClient : Option RedisClient) (codec : JSONCodec) (clock : RequestClock)
      (componentCache : TTLCache LocalizedComponent),
      (getLocalizedComponentEndpoint redisClient codec clock componentCache type1
        (some lang1)).calls.head? = some (Call.cacheGet (cacheKey type1 lang1))) := by
  refine ⟨?_, fun redisClient codec clock componentCache =>
    endpoint_first_call redisClient codec clock componentCache type1 lang1 hlang1⟩
  have hd := congrArg String.data hkey
  simp only [cacheKey, String.data_append, List.append_assoc] at hd
  have hd2 := List.append_cancel_left hd
  have hlen : (":".data ++ lang1.data).length = (":".data ++ lang2.data).length := by
    simp [valid_lang_length hlang1, valid_lang_length hlang2]
  obtain ⟨ht, hl⟩ := List.append_inj' hd2 hlen
  exact ⟨String.ext ht, String.ext (List.append_cancel_left hl)⟩

theorem cache_key_injective_witness :
    (localizationDB.lookup "de").isSome ∧ (localizationDB.lookup "de").isSome ∧
    cacheKey "a:b" "de" = cacheKey "a:b" "de" ∧ ("a:b" = "a:b" ∧ "de" = "de") :=
  ⟨by decide, by decide, rfl,
   (cache_key_injective "a:b" "de" "a:b" "de" (by decide) (by decide) rfl).1⟩


/-- C15, as stated, fails: two invocations of the generator with the same
component type and language, taken one millisecond apart, return artifacts with
different `Metadata.ComponentID`. -/
theorem generator_purity_counterexample :
    getLocalizedComponent "footer" "en" 1700000000000 "2023-11-14T22:13:20Z" ≠
      getLocalizedComponent "footer" "en" 1700000000001 "2023-11-14T22:13:20Z" := by
  intro h
  have hid := congrArg
    (fun r => match r with
      | Except.ok c => some c.Metadata.ComponentID
      | Except.error _ => none) h
  revert hid
  decide

/-- C15, amended (generator determinism up to the clock): for every component
type and language, two invocations of `getLocalizedComponent`, whenever they
are made, either both report not-found with the same error, or both return an
artifact, and the two artifacts agree in every field except
`Metadata.ComponentID` and `Metadata.LastUpdated`, which carry the clock
readings of the invocation. -/
theorem generator_deterministic_up_to_clock (componentType lang : String)
    (nowMilli1 nowMilli2 : Int) (nowStamp1 nowStamp2 : String) :
    (∀ err, getLocalizedComponent componentType lang nowMilli1 nowStamp1 = Except.error err ↔
      getLocalizedComponent componentType lang nowMilli2 nowStamp2 = Except.error err) ∧
    (∀ c1, getLocalizedComponent componentType lang nowMilli1 nowStamp1 = Except.ok c1 →
      getLocalizedComponent componentType lang nowMilli2 nowStamp2 =
        Except.ok { c1 with
          Metadata := { c1.Metadata with
            ComponentID := componentType ++ "_" ++ lang ++ "_" ++ toString nowMilli2
            LastUpdated := nowStamp2 } } ∧
      c1.Metadata.ComponentID = componentType ++ "_" ++ lang ++ "_" ++ toString nowMilli1 ∧
      c1.Metadata.LastUpdated = nowStamp1) := by
  constructor
  · intro err
    rw [getLocalizedComponent_error_iff, getLocalizedComponent_error_iff]
  · intro c1 h1
    unfold getLocalizedComponent at h1 ⊢
    cases ht : componentTemplates.lookup componentType with
    | none => rw [ht] at h1; cases h1
    | some template =>
      rw [ht] at h1
      simp only at h1 ⊢
      injection h1 with h1
      subst h1
      exact ⟨rfl, rfl, rfl⟩

/-- C16, as stated, fails: the language `xx` is not a key of `localizationDB`,
yet the generator returns an artifact, not an error, for the known component
type `footer` and that language. -/
theorem generator_failure_counterexample :
    localizationDB.lookup "xx" = none ∧
    (componentTemplates.lookup "footer").isSome ∧
    ∀ err, getLocalizedComponent "footer" "xx" 1700000000000 "2023-11-14T22:13:20Z" ≠
      Except.error err := by
  refine ⟨by decide, by decide, ?_⟩
  intro err h
  have hnone := ((getLocalizedComponent_error_iff _ _ _ _ _).1 h).1
  revert hnone
  decide

/-- C16, amended (generator failure mode): for every component type and
language, `getLocalizedComponent` returns an error exactly when the type is not
a key of `componentTemplates`, the error names the type, and it returns an
artifact otherwise; a language that is not a key of `localizationDB` is not an
error: the artifact then carries the template and strings of English. -/
theorem generator_failure_mode (componentType lang : String) (nowMilli : Int)
    (nowStamp : String) :
    ((∃ err, getLocalizedComponent componentType lang nowMilli nowStamp = Except.error err) ↔
      componentTemplates.lookup componentType = none) ∧
    (∀ err, getLocalizedComponent componentType lang nowMilli nowStamp = Except.error err →
      err = "component type \x27" ++ componentType ++ "\x27 not found") ∧
    ((componentTemplates.lookup componentType).isSome →
      ∃ c, getLocalizedComponent componentType lang nowMilli nowStamp = Except.ok c) ∧
    (localizationDB.lookup lang = none →
      ∀ c, getLocalizedComponent componentType lang nowMilli nowStamp = Except.ok c →
        ∃ c2, getLocalizedComponent componentType "en" nowMilli nowStamp = Except.ok c2 ∧
          c.Template = c2.Template ∧ c.LocalizedData = c2.LocalizedData ∧
          c.Language = lang) := by
  refine ⟨?_, ?_, ?_, ?_⟩
  · constructor
    · rintro ⟨err, h⟩
      exact ((getLocalizedComponent_error_iff _ _ _ _ _).1 h).1
    · intro h
      exact ⟨_, (getLocalizedComponent_error_iff _ _ _ _ _).2 ⟨h, rfl⟩⟩
  · intro err h
    exact ((getLocalizedComponent_error_iff _ _ _ _ _).1 h).2
  · intro h
    obtain ⟨c, hc, -⟩ := getLocalizedComponent_ok componentType lang nowMilli nowStamp h
    exact ⟨c, hc⟩
  · intro hl c hc
    unfold getLocalizedComponent at hc ⊢
    cases ht : componentTemplates.lookup componentType with
    | none => rw [ht] at hc; cases hc
    | some template =>
      rw [ht] at hc
      simp only [hl] at hc ⊢
      injection hc with hc
      subst hc
      obtain ⟨en, hen⟩ : ∃ en, localizationDB.lookup "en" = some en :=
        Option.isSome_iff_exists.1 (by decide)
      refine ⟨_, rfl, ?_, ?_, rfl⟩
      · simp only [hen, Option.getD_some]
      · simp only [hen, Option.getD_some]

/-- C18, as stated, fails: with `ttl = 0`, a `Get` whose clock reading equals
the reading of the `Put` finds the entry, since an entry expires only when its
age exceeds the TTL. -/
theorem zero_ttl_counterexample :
    (5 : Time) ≤ 5 ∧
    (((NewTTLCache 1 0 : TTLCache Nat).Put "a" 7 5).Get "a" 5 5).1 = some 7 := by
  decide

/-- C18, amended (zero TTL): in any reachable state of a cache built with
`ttl = 0`, after `Put(key, v)` at time `t0`, a `Get(key)` at a time `t > t0`
returns not-found, and a `Get(key)` at `t = t0` returns `(v, true)`. -/
theorem zero_ttl {V : Type} (maxSize : Int) (ss : List (Section V)) (key : String) (v : V)
    (t0 t t2 : Time) :
    let c := (runSections (NewTTLCache maxSize 0) ss).Put key v t0
    (t0 < t → (c.Get key t t2).1 = none) ∧
    (t = t0 → (c.Get key t t2).1 = some v) := by
  intro c
  have h0 : Inv (runSections (NewTTLCache maxSize 0 : TTLCache V) ss) :=
    inv_runSections (inv_new maxSize 0) ss
  have h1 : Inv c := inv_put h0 key v t0
  have hm : (key, v, some t0) ∈ view c := view_put_mem h0 key v t0
  have httl : c.ttl = 0 := by
    show ((runSections (NewTTLCache maxSize 0) ss).Put key v t0).ttl = 0
    rw [(maxSize_put _ key v t0).2, (maxSize_runSections _ ss).2]
    rfl
  constructor
  · intro hlt
    obtain ⟨x, hx, -, -, hts⟩ := mem_view.1 hm
    apply get_of_expired hts _ t2
    rw [httl]
    exact sub_pos.2 hlt
  · intro heq
    apply get_of_view_mem h1 hm _ t2
    rw [httl, heq, sub_self]


/-- C17 (Clear resets everything): for every cache state, after `Clear()` the
`Size()` is 0, `Get` returns not-found for every key at every time, `maxSize`
and `ttl` are kept, and for every subsequent sequence of calls the results of
the calls, the `Size()` after each call and the recency view (keys, values and
timestamps, in order) are those of a cache freshly built by `NewTTLCache` with
the same `maxSize` and `ttl`. -/
theorem clear_resets {V : Type} (c : TTLCache V) :
    c.Clear.Size = 0 ∧
    (∀ key now1 now2, (c.Clear.Get key now1 now2).1 = none) ∧
    c.Clear.maxSize = c.maxSize ∧ c.Clear.ttl = c.ttl ∧
    (∀ ops, observe c.Clear ops = observe (NewTTLCache c.maxSize c.ttl) ops) ∧
    (∀ ops, view (runOps c.Clear ops) = view (runOps (NewTTLCache c.maxSize c.ttl) ops)) := by
  refine ⟨rfl, ?_, rfl, rfl, ?_, ?_⟩
  · intro key now1 now2
    rfl
  · intro ops
    rw [clear_eq_shift_new, observe_shift]
  · intro ops
    rw [clear_eq_shift_new, runOps_shift, view_shift]

/-- C20 (lazy removal with re-check): when the first section of `Get(key)`, run
in a reachable state, judges the entry expired, the second section, run in
whatever state later sections have led to, returns not-found; it removes the
key from the map and the timestamps and its node from the list, so that
`Size()` drops by exactly one, when the key is still in the map and still
expired there, and leaves the cache as it is otherwise; the entries of all
other keys are not affected. -/
theorem lazy_removal_recheck {V : Type} (maxSize : Int) (ttl : Duration)
    (ss1 ss2 : List (Section V)) (key : String) (now1 now2 : Time)
    (hexpired : (runSections (NewTTLCache maxSize ttl) ss1).getCheck key now1 =
      TTLCache.Check.expired) :
    let c1 := runSections (NewTTLCache maxSize ttl) ss1
    let c2 := runSections c1 ss2
    let r := TTLCache.getSecond (c1.getCheck key now1) c2 key now2
    r.1 = none ∧
    ((c2.cache key).isSome ∧ c2.isExpired key now2 = true →
      r.2.cache key = none ∧ r.2.timestamps key = none ∧
      r.2.lruList = c2.lruList.filter (fun e => decide (e.key ≠ key)) ∧
      r.2.Size = c2.Size - 1) ∧
    (¬ ((c2.cache key).isSome ∧ c2.isExpired key now2 = true) → r.2 = c2) ∧
    (∀ k, k ≠ key → r.2.cache k = c2.cache k ∧ r.2.timestamps k = c2.timestamps k) ∧
    (∀ e ∈ c2.lruList, e.key ≠ key → e ∈ r.2.lruList) ∧
    (∀ (d : TTLCache V) (t1 t2 : Time),
      d.Get key t1 t2 = TTLCache.getSecond (d.getCheck key t1) d key t2) := by
  intro c1 c2 r
  have hr : r = (none, c2.getEvict key now2) := by
    show TTLCache.getSecond (c1.getCheck key now1) c2 key now2 = _
    have : c1.getCheck key now1 = TTLCache.Check.expired := hexpired
    rw [this]
    rfl
  have h2 : Inv c2 := by
    show Inv (runSections (runSections (NewTTLCache maxSize ttl) ss1) ss2)
    rw [← runSections_append]
    exact inv_runSections (inv_new maxSize ttl) _
  refine ⟨by rw [hr], ?_, ?_, ?_, ?_, fun d t1 t2 => get_eq_getSecond d key t1 t2⟩
  · rintro ⟨hsome, hexp⟩
    obtain ⟨i, hi⟩ := Option.isSome_iff_exists.1 hsome
    obtain ⟨x, hx, hxi, hxk⟩ := h2.node_of_cache hi
    rw [hr]
    simp only [getEvict_of_expired hi hexp]
    refine ⟨by simp [mapDelete], by simp [mapDelete], ?_, ?_⟩
    · rw [← hxi, ← hxk]
      exact listRemove_eq_filter_key h2 hx
    · have hlen := (listRemove_perm h2.ids_nodup hx).length_eq
      rw [hxi] at hlen
      simp only [List.length_append, List.length_singleton] at hlen
      show ((listRemove c2.lruList i).length : Int) = (c2.lruList.length : Int) - 1
      omega
  · intro hnot
    rw [hr]
    exact getEvict_of_not hnot
  · intro k hk
    rw [hr]
    show (c2.getEvict key now2).cache k = c2.cache k ∧
      (c2.getEvict key now2).timestamps k = c2.timestamps k
    unfold TTLCache.getEvict
    split
    · exact ⟨rfl, rfl⟩
    · split
      · simp [mapDelete, hk]
      · exact ⟨rfl, rfl⟩
  · intro e he hek
    rw [hr]
    show e ∈ (c2.getEvict key now2).lruList
    by_cases hcond : (c2.cache key).isSome ∧ c2.isExpired key now2 = true
    · obtain ⟨i, hi⟩ := Option.isSome_iff_exists.1 hcond.1
      obtain ⟨x, hx, hxi, hxk⟩ := h2.node_of_cache hi
      rw [getEvict_of_expired hi hcond.2]
      show e ∈ listRemove c2.lruList i
      rw [← hxi, listRemove_eq_filter_key h2 hx, hxk]
      exact List.mem_filter.2 ⟨he, by simpa using hek⟩
    · rw [getEvict_of_not hcond]
      exact he

theorem lazy_removal_recheck_witness :
    (runSections (NewTTLCache 2 10) [Section.put "a" (1 : Nat) 0, Section.put "b" 2 5]).getCheck
      "a" 20 = TTLCache.Check.expired ∧
    (TTLCache.getSecond
      ((runSections (NewTTLCache 2 10) [Section.put "a" (1 : Nat) 0, Section.put "b" 2 5]).getCheck
        "a" 20)
      (runSections (runSections (NewTTLCache 2 10) [Section.put "a" 1 0, Section.put "b" 2 5])
        [Section.put "a" 3 19])
      "a" 21).1 = none :=
  ⟨by decide,
   (lazy_removal_recheck 2 10 [Section.put "a" 1 0, Section.put "b" 2 5] [Section.put "a" 3 19]
      "a" 20 21 (by decide)).1⟩


/-- C19 (concurrent safety): for every number of callers making `Put` and `Get`
calls, on any keys, against a cache of `maxSize k ≥ 1`, and every schedule of
their lock-delimited sections, after every step no section has panicked (every
element taken from the map carries its entry), the key map, the timestamps and
the recency list hold the same keys with the map pointing at the node of each
key, and `Size() ≤ k`; in particular when all calls have finished. -/
theorem concurrent_safety {V : Type} (k : Int) (hk : 1 ≤ k) (ttl : Duration)
    (programs : List (List (Request V))) (schedule : List (Nat × Time)) (n : Nat) :
    let w := (World.start k ttl programs).run (schedule.take n)
    w.panicked = false ∧
    (∀ key, (w.cache.cache key).isSome ↔ key ∈ w.cache.lruList.map (fun e => e.key)) ∧
    (∀ key, (w.cache.cache key).isSome ↔ (w.cache.timestamps key).isSome) ∧
    (∀ key i, w.cache.cache key = some i →
      ∃ x ∈ w.cache.lruList, x.id = i ∧ x.key = key) ∧
    (∀ key, w.cache.derefOk key = true) ∧
    w.cache.Size ≤ k := by
  intro w
  obtain ⟨⟨ss, hss⟩, hp⟩ := run_sections k ttl (World.start k ttl programs) ⟨[], rfl⟩ rfl
    (schedule.take n)
  have hc : w.cache = runSections (NewTTLCache k ttl) ss := hss
  have h : Inv w.cache := hc ▸ inv_runSections (inv_new k ttl) ss
  have hsize : w.cache.Size ≤ k := by
    rw [hc]
    exact size_runSections (inv_new k ttl) (c := (NewTTLCache k ttl : TTLCache V)) hk
      (by simp [NewTTLCache]; omega) ss
  refine ⟨hp, ?_, fun key => by rw [h.ts_iff key], ?_, fun key => h.derefOk key, hsize⟩
  · intro key
    constructor
    · intro hk2
      obtain ⟨i, hi⟩ := Option.isSome_iff_exists.1 hk2
      obtain ⟨e, he, -, h2⟩ := h.cache_node key i hi
      exact List.mem_map.2 ⟨e, he, h2⟩
    · intro hk2
      obtain ⟨e, he, rfl⟩ := List.mem_map.1 hk2
      rw [h.node_cache e he]; rfl
  · intro key i hi
    obtain ⟨e, he, h1, h2⟩ := h.cache_node key i hi
    exact ⟨e, he, h1, h2⟩

theorem concurrent_safety_witness :
    (1 : Int) ≤ 1 ∧
    ((World.start 1 10 [[Request.put "a" (1 : Nat), Request.get "a"],
        [Request.get "a", Request.put "b" 2]]).run
      ([(1, 0), (0, 1), (0, 2), (1, 3), (0, 30), (1, 31)].take 6)).finished = true ∧
    ((World.start 1 10 [[Request.put "a" (1 : Nat), Request.get "a"],
        [Request.get "a", Request.put "b" 2]]).run
      ([(1, 0), (0, 1), (0, 2), (1, 3), (0, 30), (1, 31)].take 6)).panicked = false ∧
    ((World.start 1 10 [[Request.put "a" (1 : Nat), Request.get "a"],
        [Request.get "a", Request.put "b" 2]]).run
      ([(1, 0), (0, 1), (0, 2), (1, 3), (0, 30), (1, 31)].take 6)).cache.Size ≤ 1 :=
  ⟨by decide, by decide,
   (concurrent_safety 1 (by decide) 10
      [[Request.put "a" 1, Request.get "a"], [Request.get "a", Request.put "b" 2]]
      [(1, 0), (0, 1), (0, 2), (1, 3), (0, 30), (1, 31)] 6).1,
   (concurrent_safety 1 (by decide) 10
      [[Request.put "a" 1, Request.get "a"], [Request.get "a", Request.put "b" 2]]
      [(1, 0), (0, 1), (0, 2), (1, 3), (0, 30), (1, 31)] 6).2.2.2.2.2⟩


theorem generator_deterministic_up_to_clock_witness :
    ∀ err, getLocalizedComponent "sidebar" "en" 1700000000000 "2023-11-14T22:13:20Z" =
        Except.error err ↔
      getLocalizedComponent "sidebar" "en" 1700000000001 "2023-11-14T22:13:21Z" =
        Except.error err :=
  (generator_deterministic_up_to_clock "sidebar" "en" 1700000000000 1700000000001
    "2023-11-14T22:13:20Z" "2023-11-14T22:13:21Z").1

theorem generator_failure_mode_witness :
    (componentTemplates.lookup "footer").isSome ∧
    ∃ c, getLocalizedComponent "footer" "xx" 1700000000000 "2023-11-14T22:13:20Z" =
      Except.ok c :=
  ⟨by decide,
   (generator_failure_mode "footer" "xx" 1700000000000 "2023-11-14T22:13:20Z").2.2.1
     (by decide)⟩

theorem zero_ttl_witness :
    (5 : Time) < 6 ∧
    (((runSections (NewTTLCache 3 0) [Section.put "b" (2 : Nat) 1]).Put "a" 7 5).Get
      "a" 6 6).1 = none :=
  ⟨by decide, (zero_ttl 3 [Section.put "b" 2 1] "a" 7 5 6 6).1 (by decide)⟩

theorem clear_resets_witness :
    observe ((runOps (NewTTLCache 2 10) [Op.put "a" (1 : Nat) 0, Op.put "b" 2 1]).Clear)
        [Op.put "c" 3 2, Op.get "c" 3 3, Op.get "a" 3 3] =
      observe (NewTTLCache
          (runOps (NewTTLCache 2 10) [Op.put "a" (1 : Nat) 0, Op.put "b" 2 1]).maxSize
          (runOps (NewTTLCache 2 10) [Op.put "a" (1 : Nat) 0, Op.put "b" 2 1]).ttl)
        [Op.put "c" 3 2, Op.get "c" 3 3, Op.get "a" 3 3] :=
  (clear_resets (runOps (NewTTLCache 2 10) [Op.put "a" 1 0, Op.put "b" 2 1])).2.2.2.2.1 _


/-- C21, as stated, fails: in the template `{l10n.a{l10n.b}` the placeholder
that the scan finds first has the key `a{l10n.b`, which holds no closing brace
and is not in the data, yet it is not copied through unchanged: the scan goes
on inside it and replaces `{l10n.b}`. -/
theorem placeholder_interpolation_counterexample :
    ([("b", "x")] : StringMap).lookup "a\x7bl10n.b" = none ∧
    Char.ofNat 125 ∉ "a\x7bl10n.b".data ∧
    interpolateTemplate ("" ++ "\x7bl10n." ++ "a\x7bl10n.b" ++ "\x7d" ++ "") [("b", "x")] =
      "\x7bl10n.a\"x\"" ∧
    interpolateTemplate ("" ++ "\x7bl10n." ++ "a\x7bl10n.b" ++ "\x7d" ++ "") [("b", "x")] ≠
      "" ++ "\x7bl10n." ++ "a\x7bl10n.b" ++ "\x7d" ++ interpolateTemplate "" [("b", "x")] := by
  decide

/-- C21, amended (placeholder interpolation): when `pre` holds no `{`, `key`
holds no `}` and `data[key] = v`, the template `pre ++ "{l10n." ++ key ++ "}" ++
post` is interpolated to `pre`, then `v` in double quotes with every double
quote of `v` preceded by a backslash, then the interpolation of `post`; when
`pre2` holds no `{`, `key2` holds neither `}` nor `{` and is not in the data,
the placeholder of `key2` is copied through unchanged before the interpolation
of `post2`; and with empty data every template is returned as it is. -/
theorem placeholder_interpolation (pre key post : String) (data : StringMap) (v : String)
    (hpre : Char.ofNat 123 ∉ pre.data) (hkey : Char.ofNat 125 ∉ key.data)
    (hdata : data.lookup key = some v)
    (pre2 key2 post2 : String) (hpre2 : Char.ofNat 123 ∉ pre2.data)
    (hkey2 : Char.ofNat 125 ∉ key2.data) (hopen2 : Char.ofNat 123 ∉ key2.data)
    (habsent : data.lookup key2 = none) (t : String) :
    interpolateTemplate (pre ++ "\x7bl10n." ++ key ++ "\x7d" ++ post) data =
      pre ++ "\"" ++ String.mk (escapeQuotes v.data) ++ "\"" ++ interpolateTemplate post data ∧
    interpolateTemplate (pre2 ++ "\x7bl10n." ++ key2 ++ "\x7d" ++ post2) data =
      pre2 ++ "\x7bl10n." ++ key2 ++ "\x7d" ++ interpolateTemplate post2 data ∧
    interpolateTemplate t [] = t := by
  have hshape : ∀ a b c : String, (a ++ "\x7bl10n." ++ b ++ "\x7d" ++ c).data =
      a.data ++ (placeholderOpen ++ (b.data ++ Char.ofNat 125 :: c.data)) := by
    intro a b c
    simp only [String.data_append, List.append_assoc]
    rw [placeholderOpen_eq]
    rfl
  have hloop : ∀ s : String, (interpolateTemplate s data).data =
      interpolateLoop data s.data.length s.data := fun _ => rfl
  refine ⟨?_, ?_, ?_⟩
  · apply String.ext
    rw [hloop, hshape, interpolateLoop_pre data _ _ hpre,
      interpolateLoop_replace data key.data post.data v hkey hdata]
    simp only [String.data_append, List.append_assoc, hloop]
  · apply String.ext
    rw [hloop, hshape, interpolateLoop_pre data _ _ hpre2,
      interpolateLoop_absent_copy data key2.data post2.data hkey2 hopen2 habsent]
    simp only [String.data_append, List.append_assoc, hloop]
    rw [placeholderOpen_eq]
    rfl
  · apply String.ext
    exact interpolateLoop_empty t.data

theorem placeholder_interpolation_witness :
    Char.ofNat 123 ∉ "<h1>".data ∧ Char.ofNat 125 ∉ "title".data ∧
    ([("title", "say \"hi\"")] : StringMap).lookup "title" = some "say \"hi\"" ∧
    Char.ofNat 123 ∉ "<p>".data ∧ Char.ofNat 125 ∉ "body".data ∧
    Char.ofNat 123 ∉ "body".data ∧
    ([("title", "say \"hi\"")] : StringMap).lookup "body" = none ∧
    (interpolateTemplate ("<h1>" ++ "\x7bl10n." ++ "title" ++ "\x7d" ++ "</h1>")
        [("title", "say \"hi\"")] =
      "<h1>" ++ "\"" ++ String.mk (escapeQuotes "say \"hi\"".data) ++ "\"" ++
        interpolateTemplate "</h1>" [("title", "say \"hi\"")] ∧
     interpolateTemplate ("<p>" ++ "\x7bl10n." ++ "body" ++ "\x7d" ++ "</p>")
        [("title", "say \"hi\"")] =
      "<p>" ++ "\x7bl10n." ++ "body" ++ "\x7d" ++
        interpolateTemplate "</p>" [("title", "say \"hi\"")] ∧
     interpolateTemplate "a\x7bl10n.k\x7d" [] = "a\x7bl10n.k\x7d") :=
  ⟨by decide, by decide, by decide, by decide, by decide, by decide, by decide,
   placeholder_interpolation "<h1>" "title" "</h1>" [("title", "say \"hi\"")] "say \"hi\""
     (by decide) (by decide) (by decide) "<p>" "body" "</p>" (by decide) (by decide)
     (by decide) (by decide) "a\x7bl10n.k\x7d"⟩


end Claims

end Helium
